import Mathlib

/-!
Verification of the Drift toolchain's package-integrity and compiler
middle-end components against their specification.

The development shallowly embeds, in Lean, the Python sources of the
`drift` package tooling (canonical JSON, the DMIR-PKG reader, fetch,
sign) and of the compiler passes (stage-4 throw checks, the MIR → SSA
skeleton, the legacy MIR verifier, the legacy type checker), and proves
or refutes the specification's claims about them.

Conventions:
- bytes are `List Nat` (each element < 256 where it matters);
- SHA-256 is kept abstract (theorems quantify over the hash function,
  stated hypotheses carry exactly the hash disagreements a scenario needs);
- Python dicts are association lists in insertion order, with key
  uniqueness maintained by the operations that build them;
- fallible Python code becomes `Except`/`Option` values whose error
  payloads carry the source's message strings.
-/

namespace DriftSpec

/-! # Canonical JSON (src/lang2/drift/dmir_pkg_v0.py, canonical_json_bytes)

`canonical_json_bytes` is `json.dumps(obj, sort_keys=True,
ensure_ascii=False, separators=(",", ":")).encode("utf-8")`.  The JSON
documents of this repository (indexes, locks, sidecars, manifests) carry
null, booleans, integers, strings, arrays and objects; numbers are
modelled as integers (no document in the toolchain uses floats). -/
/-- A JSON value as Python's `json` module produces it, with numbers
restricted to integers (all toolchain documents are integer-valued). -/
inductive JVal where
  | jnull : JVal
  | jbool : Bool → JVal
  | jint : Int → JVal
  | jstr : String → JVal
  | jarr : List JVal → JVal
  | jobj : List (String × JVal) → JVal

/-- Python string `<` on code points, on the underlying character lists. -/
def chLtB : List Char → List Char → Bool
  | [], [] => false
  | [], _ :: _ => true
  | _ :: _, [] => false
  | a :: as, b :: bs => if a.toNat < b.toNat then true else if b.toNat < a.toNat then false else chLtB as bs

/-- Python `str <` (lexicographic by code point), as `sorted` uses it. -/
def keyLtB (a b : String) : Bool := chLtB a.toList b.toList

/-- Insert one key/value pair into an ascending run, as the inner step of
an insertion sort mirroring Python's `sorted(obj.items())`. -/
def insPair (x : String × JVal) : List (String × JVal) → List (String × JVal)
  | [] => [x]
  | y :: ys => if keyLtB y.1 x.1 then y :: insPair x ys else x :: y :: ys

/-- `sorted(obj.items())`: ascending by key. -/
def sortPairs : List (String × JVal) → List (String × JVal)
  | [] => []
  | x :: xs => insPair x (sortPairs xs)

def lbrace : Char := Char.ofNat 123

def rbrace : Char := Char.ofNat 125

/-- The digit character of `k` (for `k < 10`). -/
def digCh (k : Nat) : Char := Char.ofNat (48 + k)

/-- Decimal digits of `n`, most significant first, pushed onto `acc`
(the shape of Python's integer `repr`); fuel only drives the recursion,
`n + 1` is always enough. -/
def natDecGo : Nat → Nat → List Char → List Char
  | 0, _, acc => acc
  | fuel + 1, n, acc =>
    if n < 10 then digCh (n % 10) :: acc
    else natDecGo fuel (n / 10) (digCh (n % 10) :: acc)

def natDec (n : Nat) : List Char := natDecGo (n + 1) n []

/-- Python `repr` of an `int`: optional sign then decimal digits. -/
def intDec (i : Int) : List Char :=
  (if i < 0 then ['-'] else []) ++ natDec i.natAbs

/-- Lowercase hex digit character for `k < 16`. -/
def hexCh (k : Nat) : Char :=
  if k < 10 then Char.ofNat (48 + k) else Char.ofNat (97 + k - 10)

/-- Python `json.dumps(..., ensure_ascii=False)` escaping of a single
character: quote, backslash, the five short control escapes, `\u00XX`
for the remaining control characters, and everything else verbatim. -/
def escPy (c : Char) : List Char :=
  if c = '"' then ['\\', '"']
  else if c = '\\' then ['\\', '\\']
  else if c = Char.ofNat 8 then ['\\', 'b']
  else if c = Char.ofNat 9 then ['\\', 't']
  else if c = Char.ofNat 10 then ['\\', 'n']
  else if c = Char.ofNat 12 then ['\\', 'f']
  else if c = Char.ofNat 13 then ['\\', 'r']
  else if c.toNat < 32 then ['\\', 'u', '0', '0', hexCh (c.toNat / 16), hexCh (c.toNat % 16)]
  else [c]

/-- A JSON string literal: quoted, characters escaped. -/
def quoteStr (s : String) : List Char :=
  '"' :: (s.toList.flatMap escPy ++ ['"'])

mutual
/-- Sort every object's pairs by key, at every nesting level.  Composed
with the plain renderer below this reproduces
`json.dumps(..., sort_keys=True)` exactly: `dumps` sorts each object's
items at write time, which emits the same characters as pre-sorting the
whole tree and writing it unsorted. -/
def sortAllJ : JVal → JVal
  | .jnull => .jnull
  | .jbool b => .jbool b
  | .jint i => .jint i
  | .jstr s => .jstr s
  | .jarr xs => .jarr (sortAllArr xs)
  | .jobj ms => .jobj (sortPairs (sortAllObj ms))
def sortAllArr : List JVal → List JVal
  | [] => []
  | x :: xs => sortAllJ x :: sortAllArr xs
def sortAllObj : List (String × JVal) → List (String × JVal)
  | [] => []
  | (k, v) :: ms => (k, sortAllJ v) :: sortAllObj ms
end

mutual
/-- `json.dumps(v, ensure_ascii=False, separators=(",", ":"))` as a
character list (objects written in stored order; `sort_keys=True` is
`renderJ ∘ sortAllJ`). -/
def renderJ : JVal → List Char
  | .jnull => ['n', 'u', 'l', 'l']
  | .jbool true => ['t', 'r', 'u', 'e']
  | .jbool false => ['f', 'a', 'l', 's', 'e']
  | .jint i => intDec i
  | .jstr s => quoteStr s
  | .jarr xs => '[' :: (renderArr xs ++ [']'])
  | .jobj ms => lbrace :: (renderObj ms ++ [rbrace])
def renderArr : List JVal → List Char
  | [] => []
  | x :: xs => renderJ x ++ renderArrTail xs
def renderArrTail : List JVal → List Char
  | [] => []
  | x :: xs => ',' :: (renderJ x ++ renderArrTail xs)
def renderObj : List (String × JVal) → List Char
  | [] => []
  | (k, v) :: ms => quoteStr k ++ ':' :: (renderJ v ++ renderObjTail ms)
def renderObjTail : List (String × JVal) → List Char
  | [] => []
  | (k, v) :: ms => ',' :: (quoteStr k ++ ':' :: (renderJ v ++ renderObjTail ms))
end

/-- Consecutive keys strictly ascend. -/
def ascKeysB : List (String × JVal) → Bool
  | [] => true
  | [_] => true
  | x :: y :: r => keyLtB x.1 y.1 && ascKeysB (y :: r)

mutual
/-- Keys of every object strictly ascend (Python dicts sorted by
`sort_keys` stay put under re-encoding exactly in this shape). -/
def canonicalB : JVal → Bool
  | .jnull => true
  | .jbool _ => true
  | .jint _ => true
  | .jstr _ => true
  | .jarr xs => canonicalArrB xs
  | .jobj ms => ascKeysB ms && canonicalObjB ms
def canonicalArrB : List JVal → Bool
  | [] => true
  | x :: xs => canonicalB x && canonicalArrB xs
def canonicalObjB : List (String × JVal) → Bool
  | [] => true
  | (_, v) :: ms => canonicalB v && canonicalObjB ms
end

/-! ## The decoder (`json.loads`)

Model of CPython's pure-python `json` scanner restricted to the grammar
the toolchain uses: numbers are integers (`(0|[1-9][0-9]*)` with an
optional sign; fraction/exponent suffixes are out of the model), and
lone surrogate escapes are rejected (Lean `Char` cannot carry them). -/
/-- The scanner's whitespace set (space, tab, newline, carriage return). -/
def pyWs (c : Char) : Bool := c = ' ' || c = Char.ofNat 9 || c = Char.ofNat 10 || c = Char.ofNat 13

def dropWs : List Char → List Char
  | c :: cs => if pyWs c then dropWs cs else c :: cs
  | [] => []

def digitB (c : Char) : Bool := 48 ≤ c.toNat && c.toNat ≤ 57

/-- Split a leading run of decimal digits off the input. -/
def digitsTake : List Char → List Char × List Char
  | c :: cs =>
    if digitB c then
      let p := digitsTake cs
      (c :: p.1, p.2)
    else ([], c :: cs)
  | [] => ([], [])

/-- `int` of a digit string. -/
def digitsVal (ds : List Char) : Nat :=
  ds.foldl (fun a c => a * 10 + (c.toNat - 48)) 0

/-- Parse a JSON integer (`-?(0|[1-9][0-9]*)`); leading zeros stop after
the zero, as the scanner's `NUMBER_RE` does. -/
def parseJInt (cs : List Char) : Option (Int × List Char) :=
  match cs with
  | [] => none
  | c :: r =>
    if c = '-' then
      match r with
      | [] => none
      | c1 :: r1 =>
        if c1 = '0' then some (0, r1)
        else if digitB c1 then
          let p := digitsTake r1
          some (-(Int.ofNat (digitsVal (c1 :: p.1))), p.2)
        else none
    else if c = '0' then some (0, r)
    else if digitB c then
      let p := digitsTake r
      some (Int.ofNat (digitsVal (c :: p.1)), p.2)
    else none

def hexDigVal (c : Char) : Option Nat :=
  if 48 ≤ c.toNat && c.toNat ≤ 57 then some (c.toNat - 48)
  else if 97 ≤ c.toNat && c.toNat ≤ 102 then some (c.toNat - 87)
  else if 65 ≤ c.toNat && c.toNat ≤ 70 then some (c.toNat - 55)
  else none

def hexQuad (a b c d : Char) : Option Nat :=
  match hexDigVal a, hexDigVal b, hexDigVal c, hexDigVal d with
  | some va, some vb, some vc, some vd => some (((va * 16 + vb) * 16 + vc) * 16 + vd)
  | _, _, _, _ => none

/-- The single-character short escapes (`py_scanstring`'s BACKSLASH table). -/
def escDec : Char → Option Char
  | '"' => some '"'
  | '\\' => some '\\'
  | '/' => some '/'
  | 'b' => some (Char.ofNat 8)
  | 'f' => some (Char.ofNat 12)
  | 'n' => some (Char.ofNat 10)
  | 'r' => some (Char.ofNat 13)
  | 't' => some (Char.ofNat 9)
  | _ => none

/-- The low half of a surrogate escape pair, expected right after a high
half carrying code unit `n`. -/
def surrPair (n : Nat) : List Char → Option (Char × List Char)
  | '\\' :: 'u' :: a :: b :: c :: d :: r3 =>
    match hexQuad a b c d with
    | none => none
    | some m =>
      if 56320 ≤ m && m ≤ 57343 then
        some (Char.ofNat (65536 + (n - 55296) * 1024 + (m - 56320)), r3)
      else none
  | _ => none

/-- Decode one escape (the part after the backslash): either `\uXXXX`
(with surrogate pairs combined; lone surrogates are out of the model) or
a single-character escape. -/
def escStep : List Char → Option (Char × List Char)
  | 'u' :: a :: b :: c :: d :: r2 =>
    match hexQuad a b c d with
    | none => none
    | some n =>
      if n < 55296 || 57344 ≤ n then some (Char.ofNat n, r2)
      else if n ≤ 56319 then surrPair n r2
      else none
  | e :: r2 =>
    match escDec e with
    | some ch => some (ch, r2)
    | none => none
  | [] => none

/-- String body scanner (`py_scanstring`, strict mode): ends at `"`,
refuses raw control characters, decodes escapes.  Fuel only drives the
recursion; every step consumes input, so `length + 1` never runs out. -/
def parseJStrF : Nat → List Char → List Char → Option (String × List Char)
  | 0, _, _ => none
  | _ + 1, _, [] => none
  | fuel + 1, acc, c :: rest =>
    if c = '"' then some (String.mk acc.reverse, rest)
    else if c = '\\' then
      match escStep rest with
      | some (ch, r2) => parseJStrF fuel (ch :: acc) r2
      | none => none
    else if c.toNat < 32 then none
    else parseJStrF fuel (c :: acc) rest

def parseJStr (acc cs : List Char) : Option (String × List Char) :=
  parseJStrF (cs.length + 1) acc cs

/-- `d[k] = v` on an association list: first occurrence keeps its
position, its value is replaced; a fresh key appends. -/
def dictUpd (ms : List (String × JVal)) (k : String) (v : JVal) : List (String × JVal) :=
  match ms with
  | [] => [(k, v)]
  | (k0, v0) :: rest => if k0 = k then (k0, v) :: rest else (k0, v0) :: dictUpd rest k v

def dictifyAux (acc : List (String × JVal)) : List (String × JVal) → List (String × JVal)
  | [] => acc
  | (k, v) :: ms => dictifyAux (dictUpd acc k v) ms

/-- `dict(pairs)`: later duplicates overwrite in place, as Python does. -/
def dictify (ms : List (String × JVal)) : List (String × JVal) := dictifyAux [] ms

mutual
/-- `scan_once`: a value at the current position (whitespace already
consumed by the caller, as in CPython's scanner). -/
def parseJVal : Nat → List Char → Option (JVal × List Char)
  | 0, _ => none
  | fuel + 1, cs =>
    match cs with
    | 'n' :: 'u' :: 'l' :: 'l' :: r => some (.jnull, r)
    | 't' :: 'r' :: 'u' :: 'e' :: r => some (.jbool true, r)
    | 'f' :: 'a' :: 'l' :: 's' :: 'e' :: r => some (.jbool false, r)
    | '"' :: r =>
      match parseJStr [] r with
      | some (s, r2) => some (.jstr s, r2)
      | none => none
    | '[' :: r =>
      match dropWs r with
      | ']' :: r2 => some (.jarr [], r2)
      | r2 =>
        match parseJArr fuel r2 with
        | some (xs, r3) => some (.jarr xs, r3)
        | none => none
    | c :: r =>
      if c = lbrace then
        match dropWs r with
        | c2 :: r2 =>
          if c2 = rbrace then some (.jobj [], r2)
          else
            match parseJObj fuel (c2 :: r2) with
            | some (ms, r3) => some (.jobj (dictify ms), r3)
            | none => none
        | [] => none
      else if c = '-' || digitB c then
        match parseJInt (c :: r) with
        | some (i, r2) => some (.jint i, r2)
        | none => none
      else none
    | [] => none
/-- `JSONArray`'s element loop: one or more comma-separated values (the
empty array is handled before this is entered). -/
def parseJArr : Nat → List Char → Option (List JVal × List Char)
  | 0, _ => none
  | fuel + 1, cs =>
    match parseJVal fuel cs with
    | none => none
    | some (v, r) =>
      match dropWs r with
      | ',' :: r2 =>
        match parseJArr fuel (dropWs r2) with
        | some (vs, r3) => some (v :: vs, r3)
        | none => none
      | ']' :: r2 => some ([v], r2)
      | _ => none
/-- `JSONObject`'s member loop: one or more `"key": value` groups (the
empty object is handled before this is entered). -/
def parseJObj : Nat → List Char → Option (List (String × JVal) × List Char)
  | 0, _ => none
  | fuel + 1, cs =>
    match cs with
    | '"' :: r =>
      match parseJStr [] r with
      | none => none
      | some (k, r1) =>
        match dropWs r1 with
        | ':' :: r2 =>
          match parseJVal fuel (dropWs r2) with
          | none => none
          | some (v, r3) =>
            match dropWs r3 with
            | ',' :: r4 =>
              match parseJObj fuel (dropWs r4) with
              | some (ms, r5) => some ((k, v) :: ms, r5)
              | none => none
            | c :: r4 => if c = rbrace then some ([(k, v)], r4) else none
            | [] => none
        | _ => none
    | _ => none
end

/-- `json.loads` on text: skip leading whitespace, scan one value,
require only whitespace after it. -/
def jsonLoads (cs : List Char) : Option JVal :=
  let cs1 := dropWs cs
  match parseJVal (cs1.length + 1) cs1 with
  | some (v, r) => if dropWs r = [] then some v else none
  | none => none

/-! ## UTF-8 (strict, as `bytes.decode("utf-8")` / `str.encode("utf-8")`) -/
def utf8Ch (n : Nat) : List Nat :=
  if n < 128 then [n]
  else if n < 2048 then [192 + n / 64, 128 + n % 64]
  else if n < 65536 then [224 + n / 4096, 128 + n / 64 % 64, 128 + n % 64]
  else [240 + n / 262144, 128 + n / 4096 % 64, 128 + n / 64 % 64, 128 + n % 64]

def utf8Encode (cs : List Char) : List Nat := cs.flatMap (fun c => utf8Ch c.toNat)

def contB (b : Nat) : Bool := 128 ≤ b && b < 192

/-- Valid 3-byte sequence: continuations in range, not overlong, not a
surrogate. -/
def u3ok (b0 b1 b2 : Nat) : Bool :=
  contB b1 && contB b2 &&
    (let n := (b0 - 224) * 4096 + (b1 - 128) * 64 + (b2 - 128)
     decide (2048 ≤ n) && !(decide (55296 ≤ n) && decide (n < 57344)))

/-- Valid 4-byte sequence: continuations in range, not overlong, at most
U+10FFFF. -/
def u4ok (b0 b1 b2 b3 : Nat) : Bool :=
  contB b1 && contB b2 && contB b3 &&
    (let n := (b0 - 240) * 262144 + (b1 - 128) * 4096 + (b2 - 128) * 64 + (b3 - 128)
     decide (65536 ≤ n) && decide (n < 1114112))

/-- One scalar value off the front of a strict UTF-8 stream; rejects
stray/overlong sequences, surrogates and code points past U+10FFFF,
exactly as CPython's codec does. -/
def utf8Step : List Nat → Option (Char × List Nat)
  | [] => none
  | b0 :: rest =>
    if b0 < 128 then some (Char.ofNat b0, rest)
    else if b0 < 194 then none
    else if b0 < 224 then
      match rest with
      | b1 :: r2 =>
        if contB b1 then some (Char.ofNat ((b0 - 192) * 64 + (b1 - 128)), r2) else none
      | [] => none
    else if b0 < 240 then
      match rest with
      | b1 :: b2 :: r2 =>
        if u3ok b0 b1 b2 then
          some (Char.ofNat ((b0 - 224) * 4096 + (b1 - 128) * 64 + (b2 - 128)), r2)
        else none
      | _ => none
    else if b0 < 245 then
      match rest with
      | b1 :: b2 :: b3 :: r2 =>
        if u4ok b0 b1 b2 b3 then
          some (Char.ofNat ((b0 - 240) * 262144 + (b1 - 128) * 4096 + (b2 - 128) * 64 + (b3 - 128)), r2)
        else none
      | _ => none
    else none

/-- The decoding loop; fuel only bounds the recursion, a step consumes
at least one byte so `length + 1` fuel never runs out. -/
def utf8DecodeF : Nat → List Nat → Option (List Char)
  | 0, _ => none
  | _ + 1, [] => some []
  | fuel + 1, b0 :: rest =>
    match utf8Step (b0 :: rest) with
    | none => none
    | some (c, r) => (utf8DecodeF fuel r).map (fun l => c :: l)

/-- `bytes.decode("utf-8")` (strict). -/
def utf8Decode (bs : List Nat) : Option (List Char) := utf8DecodeF (bs.length + 1) bs

/-- `canonical_json_bytes(obj)`: the canonical encoder's output bytes. -/
def canonical_json_bytes (v : JVal) : List Nat := utf8Encode (renderJ (sortAllJ v))

/-- `json.loads` applied to bytes: UTF-8 decode then scan. -/
def jsonLoadsBytes (bs : List Nat) : Option JVal := (utf8Decode bs).bind jsonLoads

/-- A list whose head cannot extend a digit run. -/
def intStop : List Char → Bool
  | [] => true
  | c :: _ => !digitB c

/-! # DMIR-PKG v0 reader (src/lang2/drift/dmir_pkg_v0.py)

The fixed 164-byte little-endian header is
`struct.Struct("<8sHHI Q 32s Q I 32s 64s")`: magic `[0,8)`, version
`[8,10)`, flags `[10,12)`, header_size `[12,16)`, manifest_len `[16,24)`,
manifest_sha `[24,56)`, toc_len `[56,64)`, toc_entry_size `[64,68)`,
toc_sha `[68,100)`, reserved `[100,164)`.  SHA-256 is a parameter:
theorems quantify over it. -/
/-- Little-endian value of a byte list. -/
def leNat : List Nat → Nat
  | [] => 0
  | b :: r => b + 256 * leNat r

/-- ASCII `DMIRPKG\0`. -/
def pkgMagic : List Nat := [68, 77, 73, 82, 80, 75, 71, 0]

def HEADER_SIZE_V0 : Nat := 164

/-- The manifest length field of a header (bytes `[16,24)`). -/
def manLen (data : List Nat) : Nat := leNat ((data.drop 16).take 8)

/-- `read_manifest_v0`: validates header magic, version, manifest range
and manifest hash, decodes the manifest JSON, requires an object.  The
TOC header fields `[56,100)` are unpacked but never inspected, and no
byte at or past `164 + manifest_len` is read. -/
def read_manifest_v0 (sha : List Nat → List Nat) (data : List Nat) :
    Except String (List (String × JVal)) :=
  if data.length < 164 then .error "package file too small for header"
  else if data.take 8 ≠ pkgMagic then .error "bad package magic"
  else if leNat ((data.drop 8).take 2) ≠ 0 then
    .error ("unsupported package version " ++ toString (leNat ((data.drop 8).take 2)))
  else if data.length < 164 + manLen data then .error "manifest length out of range"
  else if sha ((data.drop 164).take (manLen data)) ≠ (data.drop 24).take 32 then
    .error "manifest sha256 mismatch"
  else
    match (utf8Decode ((data.drop 164).take (manLen data))).bind jsonLoads with
    | some (.jobj ms) => .ok ms
    | some _ => .error "manifest must be a JSON object"
    | none => .error "invalid manifest JSON"

/-- Python `dict.get` on the parsed manifest (keys are unique after
`dictify`, the first match is the binding). -/
def objGet (ms : List (String × JVal)) (k : String) : Option JVal :=
  match ms with
  | [] => none
  | (k0, v) :: rest => if k0 = k then some v else objGet rest k

structure PackageIdentity where
  package_id : String
  package_version : String
  target : String
  manifest : List (String × JVal)

/-- `read_identity_v0`: the manifest's identity triple, each a non-empty
string. -/
def read_identity_v0 (sha : List Nat → List Nat) (data : List Nat) :
    Except String PackageIdentity :=
  match read_manifest_v0 sha data with
  | .error e => .error e
  | .ok ms =>
    match objGet ms "package_id" with
    | some (.jstr pid) =>
      if pid = "" then .error "package manifest missing package_id"
      else
        match objGet ms "package_version" with
        | some (.jstr pver) =>
          if pver = "" then .error "package manifest missing package_version"
          else
            match objGet ms "target" with
            | some (.jstr tgt) =>
              if tgt = "" then .error "package manifest missing target"
              else .ok ⟨pid, pver, tgt, ms⟩
            | _ => .error "package manifest missing target"
        | _ => .error "package manifest missing package_version"
    | _ => .error "package manifest missing package_id"

/-- A minimal well-formed package: 164-byte header and a `\x7b\x7d`
manifest, under the all-zero stand-in hash. -/
def c10pkg : List Nat :=
  pkgMagic ++ [0, 0] ++ [0, 0] ++ [164, 0, 0, 0] ++ [2, 0, 0, 0, 0, 0, 0, 0] ++
    List.replicate 32 0 ++ List.replicate 44 0 ++ List.replicate 64 0 ++ [123, 125]

/-- The same package with every TOC header field byte corrupted to 9 and
trailing TOC/payload junk appended. -/
def c10pkg2 : List Nat :=
  pkgMagic ++ [0, 0] ++ [0, 0] ++ [164, 0, 0, 0] ++ [2, 0, 0, 0, 0, 0, 0, 0] ++
    List.replicate 32 0 ++ List.replicate 44 9 ++ List.replicate 64 0 ++ [123, 125] ++ [1, 2, 3]

def shaZero : List Nat → List Nat := fun _ => List.replicate 32 0

/-! # `drift fetch` (src/lang2/drift/fetch.py, with index_v0.py, lock_v0.py,
sources_v0.py)

The filesystem is abstracted into a `FetchEnv`: parsed sources (the
claims do not concern `load_sources_v0`'s JSON validation), per-repo
package indexes keyed by repository path (`load_index` of
`repo/index.json`, its `packages` map as structured records), repository
files, a parsed lockfile when `lock_path.exists()`, and the current
cache index.  Writes performed by the run are collected in a
`FetchState`, errors are the source's `ValueError` message strings; the
state at the moment of a raise is kept, matching the Python code, which
has already copied files when later checks fail. -/
/-- Python `str.startswith`. -/
def pyStartswith (p s : String) : Bool := List.isPrefixOf p.data s.data

structure DirSource where
  source_id : String
  priority : Int
  path : String

/-- A `packages` record of a drift-index (the fields `upsert_entry`
writes and `fetch_v0` reads back; absent strings are `""`). -/
structure PkgRec where
  package_version : String
  target : String
  sha256 : String
  filename : String
  signers : List String
  unsigned : Bool
  source_id : Option String
  path : Option String

/-- An in-flight `IndexEntry` (fetch.py builds one per source entry). -/
structure IndexEntry where
  package_id : String
  package_version : String
  target : String
  sha256 : String
  filename : String
  signers : List String
  unsigned : Bool
  source_id : Option String
  path : Option String

/-- A validated lockfile entry (`load_lock` accepts exactly entries with
these fields present and typed; `sig_sha256` may be null). -/
structure LockRec where
  version : String
  target : String
  pkg_sha256 : String
  sig_sha256 : Option String
  sig_kids : List String
  modules : List String
  source_id : String
  path : String

structure FetchEnv where
  cacheDir : String
  sources : List DirSource
  lock : Option (List (String × LockRec))
  repoIndex : String → List (String × PkgRec)
  repoFile : String → String → Option (List Nat)
  cacheIndex : List (String × PkgRec)

structure FetchState where
  cachePkgs : List (String × List Nat)
  cacheSigs : List (String × List Nat)
  savedIndex : Option (List (String × PkgRec))

def emptyFetchState : FetchState := ⟨[], [], none⟩

/-- `load_lock`'s per-entry validation (the parts not already enforced
by the structured record). -/
def lockValidate : List (String × LockRec) → Except String Unit
  | [] => .ok ()
  | (pid, r) :: rest =>
    if pid = "" then .error "lockfile packages keys must be non-empty strings"
    else if r.version = "" then .error ("lockfile entry for package_id '" ++ pid ++ "' is missing version")
    else if r.target = "" then .error ("lockfile entry for package_id '" ++ pid ++ "' is missing target")
    else if ¬(pyStartswith "sha256:" r.pkg_sha256) then
      .error ("lockfile entry for package_id '" ++ pid ++ "' is missing pkg_sha256")
    else if r.source_id = "" ∨ r.source_id = "unknown" then
      .error ("lockfile entry for package_id '" ++ pid ++ "' is missing source_id; regenerate the lockfile with 'drift vendor'")
    else if r.path = "" then .error ("lockfile entry for package_id '" ++ pid ++ "' is missing path")
    else lockValidate rest

/-- `(priority, source_id) <=` for Python's stable `sorted`. -/
def srcLe (a b : DirSource) : Bool :=
  a.priority < b.priority || (a.priority = b.priority && !(keyLtB b.source_id a.source_id))

def insSrc (x : DirSource) : List DirSource → List DirSource
  | [] => [x]
  | y :: ys => if srcLe y x then y :: insSrc x ys else x :: y :: ys

def sortSrc : List DirSource → List DirSource
  | [] => []
  | x :: xs => insSrc x (sortSrc xs)

/-- The duplicate-id guard over the sorted sources. -/
def checkDupIds : List DirSource → List String → Except String Unit
  | [], _ => .ok ()
  | s :: rest, seen =>
    if seen.contains s.source_id then
      .error ("duplicate source id '" ++ s.source_id ++ "' in sources file")
    else checkDupIds rest (s.source_id :: seen)

structure Cand where
  priority : Int
  source_id : String
  repo : String
  entry : IndexEntry

/-- `candidates.setdefault(pid, []).append(c)`. -/
def addCand (pid : String) (c : Cand) : List (String × List Cand) → List (String × List Cand)
  | [] => [(pid, [c])]
  | (k, l) :: r => if k = pid then (k, l ++ [c]) :: r else (k, l) :: addCand pid c r

/-- Association-list membership / lookup used for Python `in` / `get`. -/
def assocHas {α : Type} (m : List (String × α)) (k : String) : Bool :=
  match m with
  | [] => false
  | (k0, _) :: r => if k0 = k then true else assocHas r k

def assocGet {α : Type} (m : List (String × α)) (k : String) : Option α :=
  match m with
  | [] => none
  | (k0, v) :: r => if k0 = k then some v else assocGet r k

/-- One source's contribution to the candidate map. -/
def collectFromSource (lockPkgs : Option (List (String × LockRec))) (src : DirSource)
    (pkgs : List (String × PkgRec)) (acc : List (String × List Cand)) :
    Except String (List (String × List Cand)) :=
  match pkgs with
  | [] => .ok acc
  | (pid, raw) :: rest =>
    if (match lockPkgs with | some lp => !(assocHas lp pid) | none => false) then
      collectFromSource lockPkgs src rest acc
    else
      let entry : IndexEntry :=
        { package_id := pid, package_version := raw.package_version, target := raw.target,
          sha256 := raw.sha256, filename := raw.filename, signers := raw.signers,
          unsigned := raw.unsigned, source_id := some src.source_id, path := some raw.filename }
      if entry.package_version = "" ∨ entry.target = "" ∨ entry.filename = "" ∨ entry.sha256 = "" then
        .error ("invalid index entry for " ++ pid ++ " in " ++ src.path ++ "/index.json")
      else
        collectFromSource lockPkgs src rest
          (addCand pid { priority := src.priority, source_id := src.source_id,
                         repo := src.path, entry := entry } acc)

def collectCands (env : FetchEnv) : List DirSource → List (String × List Cand) →
    Except String (List (String × List Cand))
  | [], acc => .ok acc
  | src :: rest, acc =>
    match collectFromSource env.lock src (env.repoIndex src.path) acc with
    | .error e => .error e
    | .ok acc2 => collectCands env rest acc2

/-- Python `min(key=(priority, source_id))`: strict lexicographic order,
first minimum wins ties (impossible here, source ids are unique). -/
def candLt (a b : Cand) : Bool :=
  a.priority < b.priority || (a.priority = b.priority && keyLtB a.source_id b.source_id)

def candMinFold (best : Cand) : List Cand → Cand
  | [] => best
  | c :: r => candMinFold (if candLt c best then c else best) r

def candMin : List Cand → Option Cand
  | [] => none
  | c :: r => some (candMinFold c r)

/-- Selection for one package id: the unlocked lexicographic minimum,
or the lock-pinned source. -/
def selectOne (lockPkgs : Option (List (String × LockRec))) (pid : String) (cl : List Cand) :
    Except String (Option Cand) :=
  match lockPkgs with
  | none => .ok (candMin cl)
  | some lp =>
    match assocGet lp pid with
    | none => .error ("lock entry for package_id '" ++ pid ++ "' must be an object")
    | some want =>
      if want.source_id = "" then
        .error ("lock entry for package_id '" ++ pid ++ "' is missing source_id; regenerate the lockfile with 'drift vendor'")
      else if want.source_id = "unknown" then
        match cl with
        | [c] => .ok (some c)
        | _ =>
          .error ("lock entry for package_id '" ++ pid ++ "' uses source_id 'unknown' but multiple sources provide it; regenerate the lockfile with 'drift vendor'")
      else
        match cl.filter (fun c => c.source_id = want.source_id) with
        | [] => .error ("lock pins package_id '" ++ pid ++ "' to unknown source id '" ++ want.source_id ++ "'")
        | e :: el => .ok (some (candMinFold e el))

/-- Selection of one candidate per package id (`selected`). -/
def selectCands (lockPkgs : Option (List (String × LockRec))) :
    List (String × List Cand) → Except String (List (String × Cand))
  | [] => .ok []
  | (pid, cl) :: rest =>
    match selectOne lockPkgs pid cl with
    | .error e => .error e
    | .ok none => selectCands lockPkgs rest
    | .ok (some m) =>
      match selectCands lockPkgs rest with
      | .error e => .error e
      | .ok sel => .ok ((pid, m) :: sel)

/-- `sorted(selected.keys())`: insertion sort of the selection by id. -/
def insSel (x : String × Cand) : List (String × Cand) → List (String × Cand)
  | [] => [x]
  | y :: ys => if keyLtB x.1 y.1 then x :: y :: ys else y :: insSel x ys

def sortSel : List (String × Cand) → List (String × Cand)
  | [] => []
  | x :: xs => insSel x (sortSel xs)

/-- `sorted(...)` over strings. -/
def insStr (x : String) : List String → List String
  | [] => [x]
  | y :: ys => if keyLtB x y then x :: y :: ys else y :: insStr x ys

def sortStr : List String → List String
  | [] => []
  | x :: xs => insStr x (sortStr xs)

def dedupStr : List String → List String → List String
  | [], _ => []
  | x :: xs, seen => if seen.contains x then dedupStr xs seen else x :: dedupStr xs (x :: seen)

/-- `sorted(set(xs))`. -/
def sortedSet (xs : List String) : List String := sortStr (dedupStr xs [])

/-- `dict[k] = v`: first occurrence keeps its position. -/
def assocSet {α : Type} (m : List (String × α)) (k : String) (v : α) : List (String × α) :=
  match m with
  | [] => [(k, v)]
  | (k0, v0) :: r => if k0 = k then (k0, v) :: r else (k0, v0) :: assocSet r k v

/-- `upsert_entry` (src/lang2/drift/index_v0.py). -/
def upsert_entry (pkgs : List (String × PkgRec)) (e : IndexEntry) (force : Bool) :
    Except String (List (String × PkgRec)) :=
  let write : Except String (List (String × PkgRec)) :=
    let rec0 : PkgRec :=
      { package_version := e.package_version, target := e.target, sha256 := e.sha256,
        filename := e.filename, signers := sortedSet e.signers, unsigned := e.unsigned,
        source_id := match e.source_id with
          | some s => if s = "" then none else some s
          | none => none,
        path := match e.path with
          | some s => if s = "" then none else some s
          | none => none }
    .ok (assocSet pkgs e.package_id rec0)
  match assocGet pkgs e.package_id with
  | none => write
  | some prev =>
    if force then write
    else if prev.package_version ≠ e.package_version ∨ prev.target ≠ e.target then
      .error ("package_id '" ++ e.package_id ++ "' already published as " ++ prev.package_version
        ++ " for " ++ prev.target ++ " (use --force to replace)")
    else if prev.sha256 ≠ "" ∧ prev.sha256 ≠ e.sha256 then
      .error ("package_id '" ++ e.package_id ++ "' already published with different sha256 (use --force to replace)")
    else write

/-- The per-package body of the fetch loop: lock checks, file read,
identity check, copy into the cache, sidecar mirroring with the lock's
signature hash pin, the post-copy index-hash guard, and the cache-index
upsert.  Returns the state after any writes plus either the merged index
or the error raised. -/
def fetchOne (shaB : List Nat → List Nat) (sha256hex : List Nat → String) (env : FetchEnv)
    (force : Bool) (pid : String) (cand : Cand) (st : FetchState)
    (merged : List (String × PkgRec)) :
    FetchState × Except String (List (String × PkgRec)) :=
  let entry := cand.entry
  let indexPath := cand.repo ++ "/index.json"
  let srcPkg := cand.repo ++ "/" ++ entry.filename
  let dstPkg := env.cacheDir ++ "/pkgs/" ++ entry.filename
  let wantRes : Except String (Option LockRec) :=
    match env.lock with
    | none => .ok none
    | some lp =>
      match assocGet lp pid with
      | none => .error ("lock entry for package_id '" ++ pid ++ "' must be an object")
      | some want =>
        if want.version ≠ entry.package_version ∨ want.target ≠ entry.target then
          .error ("lock mismatch for package_id '" ++ pid ++ "' in source " ++ indexPath)
        else if want.pkg_sha256 ≠ entry.sha256 then
          .error ("sha256 mismatch for package_id '" ++ pid ++ "' vs lock in source " ++ indexPath)
        else if want.path ≠ "" ∧ want.path ≠ entry.filename then
          .error ("lock path mismatch for package_id '" ++ pid ++ "' in source " ++ indexPath)
        else .ok (some want)
  match wantRes with
  | .error e => (st, .error e)
  | .ok want =>
    match env.repoFile cand.repo entry.filename with
    | none => (st, .error ("missing package file referenced by index: " ++ srcPkg))
    | some bytes =>
      match read_identity_v0 shaB bytes with
      | .error err => (st, .error ("invalid package referenced by index: " ++ srcPkg ++ " (" ++ err ++ ")"))
      | .ok ident =>
        if ident.package_id ≠ entry.package_id ∨ ident.package_version ≠ entry.package_version
            ∨ ident.target ≠ entry.target then
          (st, .error ("package identity mismatch for " ++ srcPkg
            ++ ": index expects (" ++ entry.package_id ++ ", " ++ entry.package_version ++ ", " ++ entry.target
            ++ ") but package declares (" ++ ident.package_id ++ ", " ++ ident.package_version ++ ", " ++ ident.target ++ ")"))
        else
          let st1 : FetchState := { st with cachePkgs := assocSet st.cachePkgs entry.filename bytes }
          let sigStep : FetchState × Option String :=
            match env.repoFile cand.repo (entry.filename ++ ".sig") with
            | some sigBytes =>
              let st2 : FetchState := { st1 with cacheSigs := assocSet st1.cacheSigs (entry.filename ++ ".sig") sigBytes }
              match want with
              | some w =>
                (match w.sig_sha256 with
                 | some s =>
                   if s ≠ "" ∧ s ≠ "sha256:" ++ sha256hex sigBytes then
                     (st2, some ("sig sha256 mismatch for fetched package " ++ dstPkg))
                   else (st2, none)
                 | none => (st2, none))
              | none => (st2, none)
            | none =>
              match want with
              | some w =>
                (match w.sig_sha256 with
                 | some s =>
                   if s ≠ "" then
                     (st1, some ("missing signature sidecar for locked package " ++ dstPkg))
                   else (st1, none)
                 | none => (st1, none))
              | none => (st1, none)
          match sigStep with
          | (st2, some e) => (st2, .error e)
          | (st2, none) =>
            let got := "sha256:" ++ sha256hex bytes
            if entry.sha256 ≠ got then
              (st2, .error ("sha256 mismatch for fetched package " ++ dstPkg
                ++ ": expected " ++ entry.sha256 ++ " from " ++ indexPath ++ ", got " ++ got))
            else
              match upsert_entry merged entry force with
              | .error e => (st2, .error e)
              | .ok merged2 => (st2, .ok merged2)

def fetchLoop (shaB : List Nat → List Nat) (sha256hex : List Nat → String) (env : FetchEnv)
    (force : Bool) : List (String × Cand) → FetchState → List (String × PkgRec) →
    FetchState × Except String (List (String × PkgRec))
  | [], st, merged => (st, .ok merged)
  | (pid, cand) :: rest, st, merged =>
    match fetchOne shaB sha256hex env force pid cand st merged with
    | (st2, .error e) => (st2, .error e)
    | (st2, .ok merged2) => fetchLoop shaB sha256hex env force rest st2 merged2

/-- `fetch_v0`: the full run.  The returned state holds every write the
run performed (cache package/sidecar files and, when reached, the saved
cache index); the `Option String` is the error raised, `none` on
success. -/
def fetch_v0 (shaB : List Nat → List Nat) (sha256hex : List Nat → String) (env : FetchEnv)
    (force : Bool) : FetchState × Option String :=
  let lockStep : Except String Unit :=
    match env.lock with
    | none => .ok ()
    | some lp => lockValidate lp
  match lockStep with
  | .error e => (emptyFetchState, some e)
  | .ok () =>
    let sorted := sortSrc env.sources
    match checkDupIds sorted [] with
    | .error e => (emptyFetchState, some e)
    | .ok () =>
      match collectCands env sorted [] with
      | .error e => (emptyFetchState, some e)
      | .ok cands =>
        match selectCands env.lock cands with
        | .error e => (emptyFetchState, some e)
        | .ok sel =>
          match fetchLoop shaB sha256hex env force (sortSel sel) emptyFetchState env.cacheIndex with
          | (st, .error e) => (st, some e)
          | (st, .ok merged) =>
            let st2 : FetchState := { st with savedIndex := some merged }
            match env.lock with
            | none => (st2, none)
            | some lp =>
              let missing := sortStr ((lp.map Prod.fst).filter (fun k => !(assocHas merged k)))
              match missing with
              | [] => (st2, none)
              | m :: ms => (st2, some ("lock requested packages not found in sources: "
                  ++ String.intercalate ", " (m :: ms)))

/-- "The message contains `sub`": a decomposition into prefix and
suffix. -/
def hasSubstr (sub s : String) : Prop := ∃ pre post, s = pre ++ (sub ++ post)

def le8 (n : Nat) : List Nat :=
  [n % 256, n / 256 % 256, n / 65536 % 256, n / 16777216 % 256, 0, 0, 0, 0]

/-- A well-formed DMIR-PKG container around manifest bytes `mb`, valid
under the all-zero stand-in hash `shaZero`. -/
def mkPkg (mb : List Nat) : List Nat :=
  pkgMagic ++ [0, 0] ++ [0, 0] ++ [164, 0, 0, 0] ++ le8 mb.length ++
    List.replicate 32 0 ++ List.replicate 44 0 ++ List.replicate 64 0 ++ mb

/-- The canonical manifest of a package `lib`/`0.0.0`/`t`. -/
def mbLib : List Nat :=
  canonical_json_bytes (.jobj [("package_id", .jstr "lib"), ("package_version", .jstr "0.0.0"),
    ("target", .jstr "t")])

def pkgLib : List Nat := mkPkg mbLib

/-- A stand-in for `sha256_hex` that is injective on lengths: the
decimal digits of the byte count. -/
def hexLen : List Nat → String := fun bs => String.mk (natDec bs.length)

def identLib : PackageIdentity :=
  { package_id := "lib", package_version := "0.0.0", target := "t",
    manifest := [("package_id", .jstr "lib"), ("package_version", .jstr "0.0.0"),
      ("target", .jstr "t")] }

def recLib (sha : String) : PkgRec :=
  { package_version := "0.0.0", target := "t", sha256 := sha,
    filename := "lib-0.0.0-t.dmp", signers := [], unsigned := true,
    source_id := none, path := none }

/-- A single-source environment whose index entry carries `sha` while
the repository holds `pkgLib`. -/
def envLib (sha : String) : FetchEnv :=
  { cacheDir := "cache/driftpm",
    sources := [⟨"repo", 0, "repo"⟩],
    lock := none,
    repoIndex := fun p => if p = "repo" then [("lib", recLib sha)] else [],
    repoFile := fun p f => if p = "repo" ∧ f = (recLib sha).filename then some pkgLib else none,
    cacheIndex := [] }

/-- A lock entry whose `pkg_sha256` disagrees with the index entry. -/
def lrecB : LockRec :=
  { version := "0.0.0", target := "t", pkg_sha256 := "sha256:eeee", sig_sha256 := none,
    sig_kids := [], modules := [], source_id := "repo", path := "lib-0.0.0-t.dmp" }

def envB : FetchEnv :=
  { cacheDir := "cache/driftpm",
    sources := [⟨"repo", 0, "repo"⟩],
    lock := some [("lib", lrecB)],
    repoIndex := fun p => if p = "repo" then [("lib", recLib "sha256:22")] else [],
    repoFile := fun _ _ => none,
    cacheIndex := [] }

/-- A lock entry pinning a signature hash that disagrees with the
sidecar bytes `[1, 2, 3]`. -/
def lrecC : LockRec :=
  { version := "0.0.0", target := "t", pkg_sha256 := "sha256:aaaa",
    sig_sha256 := some "sha256:bad",
    sig_kids := [], modules := [], source_id := "repo", path := "lib-0.0.0-t.dmp" }

def envC : FetchEnv :=
  { cacheDir := "cache/driftpm",
    sources := [⟨"repo", 0, "repo"⟩],
    lock := some [("lib", lrecC)],
    repoIndex := fun p => if p = "repo" then [("lib", recLib "sha256:aaaa")] else [],
    repoFile := fun p f => if p = "repo" ∧ f = (recLib "sha256:aaaa").filename then some pkgLib
                           else if p = "repo" ∧ f = (recLib "sha256:aaaa").filename ++ ".sig" then some [1, 2, 3]
                           else none,
    cacheIndex := [] }

/-! # `drift sign` (src/lang2/drift/sign.py, src/lang2/drift/cli.py)

A sidecar is the `dmir-pkg-sig` v0 JSON object: `package_sha256` and a
list of signature entries.  Ed25519 signing, kid derivation and base64
are abstracted into an entry-producing function parameter: the claim
only concerns when a sidecar is freshly written versus appended to. -/
structure SigEntry where
  algo : String
  kid : String
  sig : String
  pubkey : Option String

structure SigSidecar where
  package_sha256 : String
  signatures : List SigEntry

/-- `sign_package_v0`.  The fresh-write path follows sign.py: the output
sidecar holds the package hash and the one new entry.  Modelled from the
spec: the add-signature path (cli.py builds `SignOptions` with an
`add_signature` flag and publish.py imports `load_sig_sidecar_v0`, but
the tree's sign.py has neither), per §4.12 "emit or append a sidecar
entry. Adding a signature to an existing sidecar requires the stored
`package_sha256` to match": with the flag set and a sidecar present at
the output path, the entry is appended when the stored hash matches the
package bytes' hash and the run fails otherwise. -/
def sign_package_v0 (sha256hex : List Nat → String) (mkEntry : List Nat → SigEntry)
    (pkg : List Nat) (add_signature : Bool) (existing : Option SigSidecar) :
    Except String SigSidecar :=
  let pkgSha := "sha256:" ++ sha256hex pkg
  let entry := mkEntry pkg
  match add_signature, existing with
  | true, some sc =>
    if sc.package_sha256 ≠ pkgSha then
      .error ("sidecar package_sha256 mismatch for " ++ sc.package_sha256
        ++ ": package bytes hash to " ++ pkgSha)
    else .ok { sc with signatures := sc.signatures ++ [entry] }
  | _, _ => .ok { package_sha256 := pkgSha, signatures := [entry] }

/-! # Legacy type checker (src/lang/checker.py, src/lang/types.py)

The module-level statement path of `Checker.check` over the subset of
the AST it needs: `LetStmt` and `ExprStmt` statements, literal and name
expressions.  Types are `lang/types.py` `Type` values, identified by
their name string (`Type.__str__` is the name).  `CheckError` is an
exception: the checker raises at the first violation, so the model
returns `Except` with the first error's message. -/
def strOfNat (n : Nat) : String := String.mk (natDec n)

structure CLoc where
  line : Nat
  column : Nat

/-- `_loc_for`-style message prefix `f"\x7bline\x7d:\x7bcolumn\x7d: "`. -/
def locPre (loc : CLoc) : String := strOfNat loc.line ++ ":" ++ strOfNat loc.column ++ ": "

/-- `ast.Literal` payloads the checker types (bool before int, as in the
`isinstance` cascade). -/
inductive CLit where
  | vbool (b : Bool)
  | vint (n : Int)
  | vstr (s : String)

inductive CExpr where
  | lit (value : CLit) (loc : CLoc)
  | name (ident : String) (loc : CLoc)

inductive CStmt where
  | letStmt (nm : String) (mutable : Bool) (type_expr : Option String)
      (value : CExpr) (loc : CLoc)
  | exprStmt (value : CExpr) (loc : CLoc)

/-- `types.py` primitive constants (`Type("Int64")` etc., compared and
printed by name). -/
def I64 : String := "Int64"

def BOOLT : String := "Bool"

def STRT : String := "String"

/-- `resolve_type` on an argument-free type expression: the `_PRIMITIVES`
aliases, else `Type(name)`. -/
def resolve_type (name : String) : String :=
  if name = "i64" then I64
  else if name = "f64" then "Float64"
  else if name = "bool" then BOOLT
  else if name = "str" then STRT
  else name

/-- `Scope.define` for the module scope: duplicate names are errors. -/
def scopeDefine (vars : List (String × String)) (nm ty : String) (loc : CLoc) :
    Except String (List (String × String)) :=
  if assocHas vars nm then
    .error (locPre loc ++ "'" ++ nm ++ "' already defined in this scope")
  else .ok (vars ++ [(nm, ty)])

/-- `Scope.lookup` in the module scope (no parent). -/
def scopeLookup (vars : List (String × String)) (nm : String) (loc : CLoc) :
    Except String String :=
  match assocGet vars nm with
  | some ty => .ok ty
  | none => .error (locPre loc ++ "Unknown identifier '" ++ nm ++ "'")

/-- `Checker._check_expr` on the subset. -/
def check_expr (vars : List (String × String)) : CExpr → Except String String
  | .lit v _ =>
    match v with
    | .vbool _ => .ok BOOLT
    | .vint _ => .ok I64
    | .vstr _ => .ok STRT
  | .name id loc => scopeLookup vars id loc

/-- `Checker._expect_type`. -/
def expect_type (actual expected : String) (loc : CLoc) : Except String Unit :=
  if actual ≠ expected then
    .error (locPre loc ++ "Expected type " ++ expected ++ ", got " ++ actual)
  else .ok ()

/-- `Checker._check_stmt` on the module-level subset; returns the scope
after the statement. -/
def check_stmt (vars : List (String × String)) : CStmt →
    Except String (List (String × String))
  | .letStmt nm _ te value loc =>
    match te with
    | none => .error (locPre loc ++ "Type annotation required")
    | some texpr =>
      let decl_type := resolve_type texpr
      match check_expr vars value with
      | .error e => .error e
      | .ok value_type =>
        match expect_type value_type decl_type loc with
        | .error e => .error e
        | .ok () => scopeDefine vars nm decl_type loc
  | .exprStmt value _ =>
    match check_expr vars value with
    | .error e => .error e
    | .ok _ => .ok vars

/-- The `for stmt in program.statements` loop of `Checker.check`: the
first `CheckError` raised aborts the whole run. -/
def check_stmts (stmts : List CStmt) (vars : List (String × String)) :
    Except String (List (String × String)) :=
  match stmts with
  | [] => .ok vars
  | s :: rest =>
    match check_stmt vars s with
    | .error e => .error e
    | .ok vars2 => check_stmts rest vars2

/-- A module with two independent type violations. -/
def c7prog : List CStmt :=
  [.letStmt "x" false (some "Bool") (.lit (.vint 1) ⟨1, 1⟩) ⟨1, 1⟩,
   .letStmt "y" false (some "Bool") (.lit (.vint 2) ⟨2, 1⟩) ⟨2, 1⟩]

/-! # Stage 2 MIR data model (`lang2.stage2`)

Modelled from the spec: the `lang2/stage2` module is absent from the
tree, so the node shapes follow spec §"MIR" and the constructions in the
stage-4 tests (`MirFunc(name, params, locals, blocks, entry)`,
`BasicBlock(name, instructions, terminator)`, `StoreLocal(local,
value)`, `LoadLocal(dest, local)`, `ConstInt(dest, value)`,
`ConstructResultOk/Err(dest, value)`, `Return(value)`, `Goto(target)`;
`CondBr` per the spec's terminator list). -/
inductive MInstr where
  | StoreLocal («local» : String) (value : String)
  | LoadLocal (dest : String) («local» : String)
  | ConstInt (dest : String) (value : Int)
  | ConstructResultOk (dest : String) (value : String)
  | ConstructResultErr (dest : String) (value : String)

inductive MTerm where
  | Return (value : Option String)
  | Goto (target : String)
  | CondBr (cond : String) (thenTarget : String) (elseTarget : String)

structure MBasicBlock where
  name : String
  instructions : List MInstr
  terminator : Option MTerm

structure MirFunc where
  name : String
  params : List String
  locals : List String
  blocks : List (String × MBasicBlock)
  entry : String

/-! # Stage 4 throw checks (src/lang2/stage4/throw_checks.py)

`ThrowSummary` is modelled from the spec and its use: `lang2/stage3`'s
throw-summary module is absent from the tree (the package exports only
the pre-analyses), and throw_checks.py reads exactly the three fields
below.  `TypeEnv` likewise: `lang2/types_protocol` is absent; the two
methods are the ones throw_checks.py and the checker tests call. -/
structure ThrowSummary where
  constructs_error : Bool
  exception_types : List String
  may_fail_sites : List (String × Int)

structure FuncThrowInfo where
  constructs_error : Bool
  exception_types : List String
  may_fail_sites : List (String × Int)
  declared_can_throw : Bool

structure SsaFunc where
  func : MirFunc
  local_versions : List (String × Nat)
  current_value : List (String × String)

structure TypeEnvM where
  type_of_ssa_value : String → String → String
  is_fnresult : String → Bool

/-- `build_func_throw_info`. -/
def build_func_throw_info (summaries : List (String × ThrowSummary))
    (declared : List (String × Bool)) : List (String × FuncThrowInfo) :=
  summaries.map (fun fs =>
    (fs.1, { constructs_error := fs.2.constructs_error,
             exception_types := fs.2.exception_types,
             may_fail_sites := fs.2.may_fail_sites,
             declared_can_throw := (assocGet declared fs.1).getD false }))

/-- `enforce_can_throw_invariants`: the first offender raises. -/
def enforce_can_throw_invariants : List (String × FuncThrowInfo) → Except String Unit
  | [] => .ok ()
  | (fname, info) :: rest =>
    if info.constructs_error && !info.declared_can_throw then
      .error ("function " ++ fname ++ " constructs an Error but is not declared can-throw")
    else enforce_can_throw_invariants rest

/-- A block whose terminator is a bare `Return`. -/
def bareReturn (b : MBasicBlock) : Bool :=
  match b.terminator with
  | some (.Return none) => true
  | _ => false

def findBareReturn : List (String × MBasicBlock) → Option String
  | [] => none
  | (_, b) :: rest => if bareReturn b then some b.name else findBareReturn rest

/-- `enforce_return_shape_for_can_throw`. -/
def enforce_return_shape_for_can_throw (infos : List (String × FuncThrowInfo))
    (funcs : List (String × MirFunc)) : Except String Unit :=
  match infos with
  | [] => .ok ()
  | (fname, info) :: rest =>
    if !info.declared_can_throw then enforce_return_shape_for_can_throw rest funcs
    else
      match assocGet funcs fname with
      | none => enforce_return_shape_for_can_throw rest funcs
      | some fn =>
        match findBareReturn fn.blocks with
        | some bname =>
          .error ("function " ++ fname ++ " is declared can-throw but has a bare return in block "
            ++ bname)
        | none => enforce_return_shape_for_can_throw rest funcs

/-- Does an instruction `ConstructResultOk/Err`-define `v`? -/
def definesResult (v : String) : MInstr → Bool
  | .ConstructResultOk d _ => d = v
  | .ConstructResultErr d _ => d = v
  | _ => false

/-- The scan over all blocks' instructions for a result constructor with
`dest` equal to the returned value. -/
def resultDefined (fn : MirFunc) (v : String) : Bool :=
  fn.blocks.any (fun nb => nb.2.instructions.any (definesResult v))

/-- The per-function block scan of `enforce_fnresult_returns_for_can_throw`:
the first `Return value` whose value no result constructor defines. -/
def findBadReturn (fn : MirFunc) : List (String × MBasicBlock) → Option (String × String)
  | [] => none
  | (_, b) :: rest =>
    match b.terminator with
    | some (.Return (some v)) =>
      if resultDefined fn v then findBadReturn fn rest else some (b.name, v)
    | _ => findBadReturn fn rest

/-- `enforce_fnresult_returns_for_can_throw` (the structural check). -/
def enforce_fnresult_returns_for_can_throw (infos : List (String × FuncThrowInfo))
    (funcs : List (String × MirFunc)) : Except String Unit :=
  match infos with
  | [] => .ok ()
  | (fname, info) :: rest =>
    if !info.declared_can_throw then enforce_fnresult_returns_for_can_throw rest funcs
    else
      match assocGet funcs fname with
      | none => enforce_fnresult_returns_for_can_throw rest funcs
      | some fn =>
        match findBadReturn fn fn.blocks with
        | some bv =>
          .error ("function " ++ fname ++ " is declared can-throw but return in block " ++ bv.1
            ++ " does not return a FnResult (no ConstructResultOk/Err defines " ++ bv.2 ++ ")")
        | none => enforce_fnresult_returns_for_can_throw rest funcs

/-- The block scan of `enforce_fnresult_returns_typeaware`: the first
returned value whose type the environment does not deem a FnResult. -/
def findBadTypedReturn (tenv : TypeEnvM) (fname : String) :
    List (String × MBasicBlock) → Option (String × String)
  | [] => none
  | (_, b) :: rest =>
    match b.terminator with
    | some (.Return (some v)) =>
      let ty := tenv.type_of_ssa_value fname v
      if !tenv.is_fnresult ty then some (b.name, ty) else findBadTypedReturn tenv fname rest
    | _ => findBadTypedReturn tenv fname rest

/-- `enforce_fnresult_returns_typeaware` (`\x7bty!r\x7d` renders the type
string quoted). -/
def enforce_fnresult_returns_typeaware (infos : List (String × FuncThrowInfo))
    (ssa_funcs : List (String × SsaFunc)) (tenv : TypeEnvM) : Except String Unit :=
  match infos with
  | [] => .ok ()
  | (fname, info) :: rest =>
    if !info.declared_can_throw then enforce_fnresult_returns_typeaware rest ssa_funcs tenv
    else
      match assocGet ssa_funcs fname with
      | none => enforce_fnresult_returns_typeaware rest ssa_funcs tenv
      | some sfn =>
        match findBadTypedReturn tenv fname sfn.func.blocks with
        | some bt =>
          .error ("function " ++ fname ++ " is declared can-throw but return in block " ++ bt.1
            ++ " has non-FnResult type '" ++ bt.2 ++ "'")
        | none => enforce_fnresult_returns_typeaware rest ssa_funcs tenv

/-- Step 4 of `run_throw_checks`: per-function type-aware invocation when
both the SSA map and the type environment are supplied. -/
def runTypeawareLoop (funcs : List (String × MirFunc)) (ssa_funcs : List (String × SsaFunc))
    (tenv : TypeEnvM) : List (String × FuncThrowInfo) → Except String Unit
  | [] => .ok ()
  | (fname, info) :: rest =>
    match assocGet funcs fname, assocGet ssa_funcs fname with
    | some _, some sfn =>
      match enforce_fnresult_returns_typeaware [(fname, info)] [(fname, sfn)] tenv with
      | .error e => .error e
      | .ok () => runTypeawareLoop funcs ssa_funcs tenv rest
    | _, _ => runTypeawareLoop funcs ssa_funcs tenv rest

/-- `run_throw_checks`: infos, can-throw invariants, bare-return shape,
the structural FnResult check — run unconditionally — then the
type-aware loop when SSA and TypeEnv are both supplied. -/
def run_throw_checks (funcs : List (String × MirFunc))
    (summaries : List (String × ThrowSummary)) (declared : List (String × Bool))
    (ssa_funcs : Option (List (String × SsaFunc))) (type_env : Option TypeEnvM) :
    Except String (List (String × FuncThrowInfo)) :=
  let infos := build_func_throw_info summaries declared
  match enforce_can_throw_invariants infos with
  | .error e => .error e
  | .ok () =>
    match enforce_return_shape_for_can_throw infos funcs with
    | .error e => .error e
    | .ok () =>
      match enforce_fnresult_returns_for_can_throw infos funcs with
      | .error e => .error e
      | .ok () =>
        match ssa_funcs, type_env with
        | some sf, some te =>
          match runTypeawareLoop funcs sf te infos with
          | .error e => .error e
          | .ok () => .ok infos
        | _, _ => .ok infos

/-- A can-throw function returning `r0` with no result constructor in
sight: one block, no instructions, `Return r0`. -/
def c4fn : MirFunc :=
  { name := "f", params := [], locals := [],
    blocks := [("entry", { name := "entry", instructions := [],
                           terminator := some (.Return (some "r0")) })],
    entry := "entry" }

def c4infos : List (String × FuncThrowInfo) :=
  build_func_throw_info [("f", ⟨false, [], []⟩)] [("f", true)]

/-- A type environment under which every SSA value has the result-carrier
type. -/
def c4tenv : TypeEnvM :=
  { type_of_ssa_value := fun _ _ => "FnResult<Int, Error>",
    is_fnresult := fun t => pyStartswith "FnResult" t }

/-! # Stage 4 SSA skeleton (src/lang2/stage4/ssa.py) -/
/-- `MirToSSA.run`'s failures: `NotImplementedError` for multi-block
functions, `RuntimeError` for a load before any store, `KeyError` when
the entry block is not in the block map. -/
inductive SsaErr where
  | notImplemented (msg : String)
  | runtime (msg : String)
  | keyError (key : String)

/-- The instruction loop of `MirToSSA.run`: versions on `StoreLocal`,
defined-local guard on `LoadLocal`, everything else passes through
(instructions themselves are not rewritten). -/
def ssaLoop : List MInstr → List (String × Nat) → List (String × String) →
    Except SsaErr (List (String × Nat) × List (String × String))
  | [], version, current => .ok (version, current)
  | .StoreLocal l _ :: rest, version, current =>
    let idx := (assocGet version l).getD 0 + 1
    ssaLoop rest (assocSet version l idx) (assocSet current l (l ++ "_" ++ strOfNat idx))
  | .LoadLocal _ l :: rest, version, current =>
    if assocHas version l then ssaLoop rest version current
    else .error (.runtime ("SSA: load before store for local '" ++ l ++ "'"))
  | _ :: rest, version, current => ssaLoop rest version current

/-- `MirToSSA.run`. -/
def MirToSSA_run (func : MirFunc) : Except SsaErr SsaFunc :=
  if func.blocks.length ≠ 1 then
    .error (.notImplemented "SSA: only single-block functions are supported in this skeleton")
  else
    match assocGet func.blocks func.entry with
    | none => .error (.keyError func.entry)
    | some block =>
      match ssaLoop block.instructions [] [] with
      | .error e => .error e
      | .ok vc => .ok { func := func, local_versions := vc.1, current_value := vc.2 }

/-- Membership in a name list (Python `in` on the version dict's keys). -/
def elemStr (x : String) : List String → Bool
  | [] => false
  | y :: ys => if y = x then true else elemStr x ys

/-- "No local is loaded before a store to it": the property the
instruction loop enforces, tracked with the set of stored locals. -/
def loadSafe : List MInstr → List String → Bool
  | [], _ => true
  | .StoreLocal l _ :: rest, seen => loadSafe rest (l :: seen)
  | .LoadLocal _ l :: rest, seen => elemStr l seen && loadSafe rest seen
  | _ :: rest, seen => loadSafe rest seen

/-- The number of `StoreLocal` instructions for a given local. -/
def countStores (l : String) (instrs : List MInstr) : Nat :=
  instrs.countP (fun i => match i with
    | .StoreLocal l2 _ => decide (l2 = l)
    | _ => false)

/-- A four-block acyclic if/else diamond. -/
def c5diamond : MirFunc :=
  { name := "g", params := [], locals := [],
    blocks :=
      [("entry", ⟨"entry", [], some (.CondBr "c" "b1" "b2")⟩),
       ("b1", ⟨"b1", [], some (.Goto "join")⟩),
       ("b2", ⟨"b2", [], some (.Goto "join")⟩),
       ("join", ⟨"join", [], some (.Return none)⟩)],
    entry := "entry" }

/-- The straight-line single-block function of the stage-4 tests. -/
def c5lineBlock : MBasicBlock :=
  { name := "entry",
    instructions := [.StoreLocal "x" "v0", .LoadLocal "t0" "x", .ConstInt "c1" 1],
    terminator := some (.Return (some "t0")) }

def c5line : MirFunc :=
  { name := "f", params := [], locals := ["x"],
    blocks := [("entry", c5lineBlock)], entry := "entry" }

/-! # Legacy MIR and its verifier (src/lang/mir_verifier.py, src/lang/types.py)

Modelled from the spec: the `lang.mir` node module is absent from the
tree, so the node shapes follow spec §"MIR" and the verifier's own field
accesses (`Function(name, entry, blocks, return_type)`,
`BasicBlock(name, params, instructions, terminator)`, `Edge(target,
args)`, the instruction set the verifier dispatches on, and terminators
`Br/CondBr/Return/Raise` with optional source locations).  `types.py`
types are name-keyed (`Type.__str__` is the name, `ERROR =
Type("Error")`); `array_of`, imported by the verifier but absent from
types.py, is modelled as an injective array-type constructor.  The
verifier raises three kinds of exceptions, kept apart: its own
`VerificationError`, the `KeyError` escaping
`_compute_incoming_args` on an edge to an unknown block, and the
`TypeError` from `_verify_cfg`'s final loop calling `_ensure_edge`
with three of its six required positional arguments. -/
structure LParam where
  name : String
  type : String

structure LEdge where
  target : String
  args : List String

structure LLoc where
  file : String
  line : Nat

inductive LInstr where
  | Const (dest : String) (type : String)
  | Move (dest source : String)
  | Copy (dest source : String)
  | Call (dest callee : String) (args : List String) (normal error : Option LEdge)
  | StructInit (dest : String) (type : String) (args : List String)
  | FieldGet (dest base : String)
  | ArrayInit (dest : String) (element_type : String) (elements : List String)
  | ArrayGet (dest base index : String)
  | ArraySet (base index value : String)
  | Unary (dest operand : String)
  | Binary (dest left right : String)
  | Drop (value : String)

inductive LTerm where
  | Br (target : LEdge)
  | CondBr (cond : String) (thenEdge elsEdge : LEdge) (loc : Option LLoc)
  | Return (value : Option String) (loc : Option LLoc)
  | Raise (error : String) (loc : Option LLoc)

structure LBlock where
  name : String
  params : List LParam
  instructions : List LInstr
  terminator : Option LTerm

structure LFunction where
  name : String
  entry : String
  blocks : List (String × LBlock)
  return_type : String

structure LProgram where
  functions : List (String × LFunction)

def ERRORT : String := "Error"

def array_of (elem : String) : String := "Array[" ++ elem ++ "]"

/-- The verifier's exception classes. -/
inductive VErr where
  | verification (msg : String)
  | keyError (key : String)
  | typeError (msg : String)

/-- Python `set.add` on a name set kept as a list. -/
def setAdd (s : List String) (x : String) : List String :=
  if elemStr x s then s else s ++ [x]

/-- One instruction step of `_compute_defs_and_types`' per-block scan. -/
def defsStep (program : Option LProgram)
    (acc : List String × List (String × String)) : LInstr →
    List String × List (String × String)
  | .Const d ty => (setAdd acc.1 d, assocSet acc.2 d ty)
  | .Move d src =>
    (setAdd acc.1 d,
     match assocGet acc.2 src with
     | some t => assocSet acc.2 d t
     | none => acc.2)
  | .Copy d src =>
    (setAdd acc.1 d,
     match assocGet acc.2 src with
     | some t => assocSet acc.2 d t
     | none => acc.2)
  | .Call d callee _ _ _ =>
    (setAdd acc.1 d,
     match program with
     | some prog =>
       match assocGet prog.functions callee with
       | some cf => assocSet acc.2 d cf.return_type
       | none => acc.2
     | none => acc.2)
  | .StructInit d ty _ => (setAdd acc.1 d, assocSet acc.2 d ty)
  | .FieldGet d _ => (setAdd acc.1 d, acc.2)
  | .ArrayInit d ety _ => (setAdd acc.1 d, assocSet acc.2 d (array_of ety))
  | .ArrayGet d _ _ => (setAdd acc.1 d, acc.2)
  | .Unary d _ => (setAdd acc.1 d, acc.2)
  | .Binary d _ _ => (setAdd acc.1 d, acc.2)
  | .ArraySet _ _ _ => acc
  | .Drop _ => acc

/-- `_compute_defs_and_types` for one block: params first, then the
instruction scan. -/
def computeBlockDefs (program : Option LProgram) (b : LBlock) :
    List String × List (String × String) :=
  b.instructions.foldl (defsStep program)
    (b.params.map (fun p => p.name), b.params.map (fun p => (p.name, p.type)))

/-- `_compute_defs_and_types`: both maps are keyed by `block.name`. -/
def compute_defs_and_types (program : Option LProgram) (fn : LFunction) :
    List (String × (List String × List (String × String))) :=
  fn.blocks.map (fun nb => (nb.2.name, computeBlockDefs program nb.2))

def defsOf (dm : List (String × (List String × List (String × String))))
    (k : String) : List String :=
  ((assocGet dm k).getD ([], [])).1

def typesOf (dm : List (String × (List String × List (String × String))))
    (k : String) : List (String × String) :=
  ((assocGet dm k).getD ([], [])).2

/-- An incoming record: the edge's argument names paired with their
types in the source block, `none` when untyped there. -/
def IncEntry : Type := List String × List (Option String)

/-- `incoming[k].append(e)`; Python raises `KeyError` when `k` is not a
key, which happens exactly when an edge targets an unknown block. -/
def incAppend (m : List (String × List IncEntry)) (k : String) (e : IncEntry) :
    Except VErr (List (String × List IncEntry)) :=
  match m with
  | [] => .error (.keyError k)
  | (k0, l) :: r =>
    if k0 = k then .ok ((k0, l ++ [e]) :: r)
    else
      match incAppend r k e with
      | .error er => .error er
      | .ok r2 => .ok ((k0, l) :: r2)

/-- The per-source-block body of `_compute_incoming_args`. -/
def incomingStep (dm : List (String × (List String × List (String × String))))
    (acc : List (String × List IncEntry)) (src : String × LBlock) :
    Except VErr (List (String × List IncEntry)) :=
  match src.2.terminator with
  | some (.Br e) =>
    incAppend acc e.target (e.args, e.args.map (fun a => assocGet (typesOf dm src.1) a))
  | some (.CondBr _ e1 e2 _) =>
    match incAppend acc e1.target
        (e1.args, e1.args.map (fun a => assocGet (typesOf dm src.1) a)) with
    | .error er => .error er
    | .ok acc2 =>
      incAppend acc2 e2.target (e2.args, e2.args.map (fun a => assocGet (typesOf dm src.1) a))
  | _ => .ok acc

def incomingFold (dm : List (String × (List String × List (String × String)))) :
    List (String × LBlock) → List (String × List IncEntry) →
    Except VErr (List (String × List IncEntry))
  | [], acc => .ok acc
  | src :: rest, acc =>
    match incomingStep dm acc src with
    | .error er => .error er
    | .ok acc2 => incomingFold dm rest acc2

/-- `_compute_incoming_args`, initialized with an empty list per block
key. -/
def compute_incoming_args (fn : LFunction)
    (dm : List (String × (List String × List (String × String)))) :
    Except VErr (List (String × List IncEntry)) :=
  incomingFold dm fn.blocks (fn.blocks.map (fun nb => (nb.1, ([] : List IncEntry))))

/-- The merge step of `_dataflow_defs_types` for one block.  The merged
sets depend only on the fixed `incoming`/`defs`/`types` inputs, so the
`while changed` loop is stable after a single pass; the model computes
that fixed point directly. -/
def dataflowIn (incoming : List (String × List IncEntry)) (b : LBlock) (k : String) :
    List String × List (String × String) :=
  let entries := (assocGet incoming k).getD []
  let mergedDefs := entries.foldl (fun s e => e.1.foldl setAdd s) []
  let mergedTypes := entries.foldl (fun tm e =>
    (e.1.zip e.2).foldl (fun tm2 at2 =>
      match at2.2 with
      | some t => assocSet tm2 at2.1 t
      | none => tm2) tm) []
  if entries.isEmpty then
    (b.params.map (fun p => p.name), b.params.map (fun p => (p.name, p.type)))
  else
    (mergedDefs.foldl setAdd (b.params.map (fun p => p.name)),
     mergedTypes.foldl (fun tm kv => assocSet tm kv.1 kv.2)
       (b.params.map (fun p => (p.name, p.type))))

def dataflow_defs_types (fn : LFunction) (incoming : List (String × List IncEntry)) :
    List (String × (List String × List (String × String))) :=
  fn.blocks.map (fun nb => (nb.1, dataflowIn incoming nb.2 nb.1))

/-- `_ensure_edge` with all six positional arguments. -/
def ensure_edge (fn : LFunction) (edge : LEdge) (blockName : String)
    (dm : List (String × (List String × List (String × String))))
    (source_block : String) (isError : Bool) : Except VErr Unit :=
  match assocGet fn.blocks edge.target with
  | none =>
    .error (.verification (fn.name ++ ":" ++ blockName ++ ": edge to unknown block '"
      ++ edge.target ++ "'"))
  | some tb =>
    if edge.args.length ≠ tb.params.length then
      .error (.verification (fn.name ++ ":" ++ blockName ++ ": edge to '" ++ edge.target
        ++ "' expects " ++ strOfNat tb.params.length ++ " args, got "
        ++ strOfNat edge.args.length))
    else
      match edge.args.find? (fun a => !elemStr a (defsOf dm source_block)) with
      | some a =>
        .error (.verification (fn.name ++ ":" ++ blockName ++ ": edge to '" ++ edge.target
          ++ "' references undefined '" ++ a ++ "'"))
      | none =>
        match (edge.args.zip tb.params).find? (fun ap =>
            match assocGet (typesOf dm source_block) ap.1 with
            | some t => decide (t ≠ ap.2.type)
            | none => false) with
        | some ap =>
          .error (.verification (fn.name ++ ":" ++ blockName ++ ": edge to '" ++ edge.target
            ++ "' param '" ++ ap.2.name ++ "' type mismatch"))
        | none =>
          if isError then
            match edge.args, tb.params with
            | _ :: _, p0 :: _ =>
              if p0.type ≠ ERRORT then
                .error (.verification (fn.name ++ ":" ++ blockName ++ ": error edge '"
                  ++ edge.target ++ "' first param must be Error"))
              else .ok ()
            | _, _ => .ok ()
          else .ok ()

/-- The recursive `walk` of `_verify_cfg`, with fuel bounding the
recursion depth (each level of genuine recursion first adds an unseen
block key to `seen`, so `blocks.length + 2` levels always suffice). -/
def walkF (fn : LFunction)
    (dm : List (String × (List String × List (String × String)))) :
    Nat → List String → String → Except VErr (List String)
  | 0, _, _ => .error (.verification (fn.name ++ ": recursion limit in cfg walk"))
  | fuel + 1, seen, name =>
    if elemStr name seen then .ok seen
    else
      match assocGet fn.blocks name with
      | none =>
        .error (.verification (fn.name ++ ": edge to unknown block '" ++ name ++ "'"))
      | some block =>
        let seen1 := seen ++ [name]
        match block.terminator with
        | some (.Br e) =>
          match ensure_edge fn e block.name dm name false with
          | .error er => .error er
          | .ok () => walkF fn dm fuel seen1 e.target
        | some (.CondBr _ e1 e2 _) =>
          match ensure_edge fn e1 block.name dm name false with
          | .error er => .error er
          | .ok () =>
            match ensure_edge fn e2 block.name dm name false with
            | .error er => .error er
            | .ok () =>
              match walkF fn dm fuel seen1 e1.target with
              | .error er => .error er
              | .ok seen2 => walkF fn dm fuel seen2 e2.target
        | some (.Return _ _) => .ok seen1
        | some (.Raise _ _) => .ok seen1
        | none =>
          .error (.verification (fn.name ++ ":" ++ name ++ ": unsupported terminator"))

/-- The incoming-args-vs-params validation loop of `_verify_cfg`. -/
def checkIncEntry (fn : LFunction) (blockName : String) (paramTypes : List String) :
    List IncEntry → Except VErr Unit
  | [] => .ok ()
  | (args, argTypes) :: rest =>
    if args.length ≠ paramTypes.length then
      .error (.verification (fn.name ++ ":" ++ blockName ++ ": predecessor passed "
        ++ strOfNat args.length ++ " args, expected " ++ strOfNat paramTypes.length))
    else
      match ((argTypes.zip paramTypes).enum.find? (fun ai =>
          match ai.2.1 with
          | some t => decide (t ≠ ai.2.2)
          | none => false)) with
      | some ai =>
        .error (.verification (fn.name ++ ":" ++ blockName ++ ": arg "
          ++ strOfNat ai.1 ++ " type mismatch from predecessor"))
      | none => checkIncEntry fn blockName paramTypes rest

def validateIncoming (fn : LFunction)
    (dm : List (String × (List String × List (String × String))))
    (incoming : List (String × List IncEntry)) :
    List (String × LBlock) → Except VErr Unit
  | [] => .ok ()
  | (k, block) :: rest =>
    match checkIncEntry fn k (block.params.map (fun p => p.type))
        ((assocGet incoming k).getD []) with
    | .error er => .error er
    | .ok () =>
      match block.params.find? (fun p => !elemStr p.name (defsOf dm k)) with
      | some p =>
        .error (.verification (fn.name ++ ":" ++ k ++ ": param '" ++ p.name
          ++ "' not available at block entry"))
      | none => validateIncoming fn dm incoming rest

/-- The final loop of `_verify_cfg`: `_ensure_edge(fn,
block.terminator.target, block)` passes three of six required positional
arguments, so any `Br`/`CondBr` terminator raises `TypeError` here. -/
def cfgFinalLoop : List (String × LBlock) → Except VErr Unit
  | [] => .ok ()
  | (_, b) :: rest =>
    match b.terminator with
    | some (.Br _) =>
      .error (.typeError
        "_ensure_edge() missing 3 required positional arguments: 'defs', 'types', and 'source_block'")
    | some (.CondBr _ _ _ _) =>
      .error (.typeError
        "_ensure_edge() missing 3 required positional arguments: 'defs', 'types', and 'source_block'")
    | _ => cfgFinalLoop rest

/-- `_verify_cfg`. -/
def verify_cfg (fn : LFunction)
    (dm : List (String × (List String × List (String × String))))
    (incoming : List (String × List IncEntry)) : Except VErr Unit :=
  match walkF fn dm (fn.blocks.length + 2) [] fn.entry with
  | .error er => .error er
  | .ok seen =>
    if seen.length ≠ fn.blocks.length then
      .error (.verification (fn.name ++ ": unreachable blocks: " ++
        String.intercalate ", "
          (sortStr ((fn.blocks.map Prod.fst).filter (fun k => !elemStr k seen)))))
    else
      match validateIncoming fn dm incoming fn.blocks with
      | .error er => .error er
      | .ok () => cfgFinalLoop fn.blocks

/-- `State` of `_verify_block`. -/
structure VState where
  defined : List String
  moved : List String
  dropped : List String
  types : List (String × String)

def loc_for (bname : String) (loc : Option LLoc) : String :=
  match loc with
  | some l => l.file ++ ":" ++ strOfNat l.line
  | none => "<unknown>:0"

def ensure_defined (st : VState) (name bname ctx : String) (loc : Option LLoc) :
    Except VErr Unit :=
  if !elemStr name st.defined then
    .error (.verification (bname ++ ": " ++ ctx ++ ": '" ++ name ++ "' is undefined at "
      ++ loc_for bname loc))
  else .ok ()

def ensure_not_defined (st : VState) (name bname ctx : String) (loc : Option LLoc) :
    Except VErr Unit :=
  if elemStr name st.defined then
    .error (.verification (bname ++ ": " ++ ctx ++ ": '" ++ name ++ "' already defined at "
      ++ loc_for bname loc))
  else .ok ()

def ensure_not_moved_or_dropped (st : VState) (name bname ctx : String)
    (loc : Option LLoc) : Except VErr Unit :=
  if elemStr name st.moved then
    .error (.verification (bname ++ ": " ++ ctx ++ ": '" ++ name ++ "' was moved at "
      ++ loc_for bname loc))
  else if elemStr name st.dropped then
    .error (.verification (bname ++ ": " ++ ctx ++ ": '" ++ name ++ "' was dropped at "
      ++ loc_for bname loc))
  else .ok ()

/-- Use-then-define for a whole operand list (`call`/`struct_init`/
`array_init` argument loops). -/
def ensureUses (st : VState) (bname ctx : String) : List String → Except VErr Unit
  | [] => .ok ()
  | a :: rest =>
    match ensure_defined st a bname ctx none with
    | .error er => .error er
    | .ok () =>
      match ensure_not_moved_or_dropped st a bname ctx none with
      | .error er => .error er
      | .ok () => ensureUses st bname ctx rest

/-- One instruction of `_verify_block`. -/
def verifyInstr (fn : LFunction) (bname : String) (st : VState) :
    LInstr → Except VErr VState
  | .Const d _ =>
    match ensure_not_defined st d bname "const" none with
    | .error er => .error er
    | .ok () => .ok { st with defined := setAdd st.defined d }
  | .Move d src =>
    match ensure_defined st src bname "move" none with
    | .error er => .error er
    | .ok () =>
      match ensure_not_moved_or_dropped st src bname "move" none with
      | .error er => .error er
      | .ok () =>
        match ensure_not_defined st d bname "move" none with
        | .error er => .error er
        | .ok () =>
          .ok { st with defined := setAdd st.defined d, moved := setAdd st.moved src }
  | .Copy d src =>
    match ensure_defined st src bname "copy" none with
    | .error er => .error er
    | .ok () =>
      match ensure_not_moved_or_dropped st src bname "copy" none with
      | .error er => .error er
      | .ok () =>
        match ensure_not_defined st d bname "copy" none with
        | .error er => .error er
        | .ok () => .ok { st with defined := setAdd st.defined d }
  | .Call d _ args normal errorEdge =>
    match ensureUses st bname "call" args with
    | .error er => .error er
    | .ok () =>
      match ensure_not_defined st d bname "call" none with
      | .error er => .error er
      | .ok () =>
        let st2 : VState := { st with defined := setAdd st.defined d }
        match (match normal with
               | some e => ensure_edge fn e bname [] bname false
               | none => .ok ()) with
        | .error er => .error er
        | .ok () =>
          match (match errorEdge with
                 | some e => ensure_edge fn e bname [] bname true
                 | none => .ok ()) with
          | .error er => .error er
          | .ok () => .ok st2
  | .StructInit d _ args =>
    match ensureUses st bname "struct_init" args with
    | .error er => .error er
    | .ok () =>
      match ensure_not_defined st d bname "struct_init" none with
      | .error er => .error er
      | .ok () => .ok { st with defined := setAdd st.defined d }
  | .FieldGet d base =>
    match ensureUses st bname "field_get" [base] with
    | .error er => .error er
    | .ok () =>
      match ensure_not_defined st d bname "field_get" none with
      | .error er => .error er
      | .ok () => .ok { st with defined := setAdd st.defined d }
  | .ArrayInit d _ elems =>
    match ensureUses st bname "array_init" elems with
    | .error er => .error er
    | .ok () =>
      match ensure_not_defined st d bname "array_init" none with
      | .error er => .error er
      | .ok () => .ok { st with defined := setAdd st.defined d }
  | .ArrayGet d base idx =>
    match ensureUses st bname "array_get" [base, idx] with
    | .error er => .error er
    | .ok () =>
      match ensure_not_defined st d bname "array_get" none with
      | .error er => .error er
      | .ok () => .ok { st with defined := setAdd st.defined d }
  | .ArraySet base idx value =>
    match ensureUses st bname "array_set" [base, idx, value] with
    | .error er => .error er
    | .ok () => .ok st
  | .Unary d operand =>
    match ensureUses st bname "unary" [operand] with
    | .error er => .error er
    | .ok () =>
      match ensure_not_defined st d bname "unary" none with
      | .error er => .error er
      | .ok () => .ok { st with defined := setAdd st.defined d }
  | .Binary d l r =>
    match ensureUses st bname "binary" [l, r] with
    | .error er => .error er
    | .ok () =>
      match ensure_not_defined st d bname "binary" none with
      | .error er => .error er
      | .ok () => .ok { st with defined := setAdd st.defined d }
  | .Drop v =>
    match ensure_defined st v bname "drop" none with
    | .error er => .error er
    | .ok () =>
      match ensure_not_moved_or_dropped st v bname "drop" none with
      | .error er => .error er
      | .ok () => .ok { st with dropped := setAdd st.dropped v }

def verifyInstrs (fn : LFunction) (bname : String) :
    List LInstr → VState → Except VErr VState
  | [], st => .ok st
  | i :: rest, st =>
    match verifyInstr fn bname st i with
    | .error er => .error er
    | .ok st2 => verifyInstrs fn bname rest st2

/-- `_verify_block`. -/
def verify_block (fn : LFunction) (block : LBlock)
    (in_state : List (String × (List String × List (String × String)))) :
    Except VErr Unit :=
  let st0 : VState :=
    match (if in_state.isEmpty then none else assocGet in_state block.name) with
    | some dt => { defined := dt.1, moved := [], dropped := [], types := dt.2 }
    | none =>
      { defined := block.params.map (fun p => p.name), moved := [], dropped := [],
        types := block.params.map (fun p => (p.name, p.type)) }
  match verifyInstrs fn block.name block.instructions st0 with
  | .error er => .error er
  | .ok st =>
    match block.terminator with
    | some (.Br e) => ensure_edge fn e block.name [] block.name false
    | some (.CondBr cond e1 e2 loc) =>
      match ensure_defined st cond block.name "condbr" loc with
      | .error er => .error er
      | .ok () =>
        match ensure_not_moved_or_dropped st cond block.name "condbr" loc with
        | .error er => .error er
        | .ok () =>
          match ensure_edge fn e1 block.name [] block.name false with
          | .error er => .error er
          | .ok () => ensure_edge fn e2 block.name [] block.name false
    | some (.Return value loc) =>
      match value with
      | none => .ok ()
      | some v =>
        match ensure_defined st v block.name "return" loc with
        | .error er => .error er
        | .ok () => ensure_not_moved_or_dropped st v block.name "return" loc
    | some (.Raise err loc) =>
      match ensure_defined st err block.name "raise" loc with
      | .error er => .error er
      | .ok () => ensure_not_moved_or_dropped st err block.name "raise" loc
    | none =>
      .error (.verification (fn.name ++ ":" ++ block.name
        ++ ": missing or unsupported terminator"))

def verifyBlocksLoop (fn : LFunction)
    (in_state : List (String × (List String × List (String × String)))) :
    List (String × LBlock) → Except VErr Unit
  | [] => .ok ()
  | (_, b) :: rest =>
    match verify_block fn b in_state with
    | .error er => .error er
    | .ok () => verifyBlocksLoop fn in_state rest

/-- The `for name, block in fn.blocks.items()` missing-terminator scan. -/
def findMissingTerm : List (String × LBlock) → Option String
  | [] => none
  | (k, b) :: rest =>
    match b.terminator with
    | none => some k
    | some _ => findMissingTerm rest

/-- `verify_function`. -/
def verify_function (fn : LFunction) (program : Option LProgram) : Except VErr Unit :=
  if !(assocHas fn.blocks fn.entry) then
    .error (.verification (fn.name ++ ": entry block '" ++ fn.entry ++ "' missing"))
  else
    match findMissingTerm fn.blocks with
    | some bname => .error (.verification (fn.name ++ ":" ++ bname ++ ": missing terminator"))
    | none =>
      let dm := compute_defs_and_types program fn
      match compute_incoming_args fn dm with
      | .error er => .error er
      | .ok incoming =>
        let in_state := dataflow_defs_types fn incoming
        match verify_cfg fn dm incoming with
        | .error er => .error er
        | .ok () => verifyBlocksLoop fn in_state fn.blocks

/-- The claim's edge conditions for one edge, read off the spec: the
target block exists, the argument arity equals the target's parameter
arity, and every argument whose type is known in the source block's
type map agrees with the corresponding parameter type. -/
def edgeOKB (fn : LFunction)
    (dm : List (String × (List String × List (String × String))))
    (sourceKey : String) (e : LEdge) : Bool :=
  match assocGet fn.blocks e.target with
  | none => false
  | some tb =>
    decide (e.args.length = tb.params.length) &&
    (e.args.zip tb.params).all (fun ap =>
      match assocGet (typesOf dm sourceKey) ap.1 with
      | some t => decide (t = ap.2.type)
      | none => true)

/-- The claim's conditions over a whole function: every `Br`/`CondBr`
edge of every block satisfies `edgeOKB` against the verifier's computed
per-block type maps. -/
def edgeCondsB (program : Option LProgram) (fn : LFunction) : Bool :=
  fn.blocks.all (fun kb =>
    match kb.2.terminator with
    | some (.Br e) => edgeOKB fn (compute_defs_and_types program fn) kb.1 e
    | some (.CondBr _ e1 e2 _) =>
      edgeOKB fn (compute_defs_and_types program fn) kb.1 e1 &&
      edgeOKB fn (compute_defs_and_types program fn) kb.1 e2
    | _ => true)

/-- The branch targets a terminator names. -/
def branchTargets : Option LTerm → List String
  | some (.Br e) => [e.target]
  | some (.CondBr _ e1 e2 _) => [e1.target, e2.target]
  | _ => []

/-- Every branch edge of every block targets an existing block key. -/
def targetsExistB (fn : LFunction) : Bool :=
  fn.blocks.all (fun kb =>
    (branchTargets kb.2.terminator).all (fun t => assocHas fn.blocks t))

/-- Which blocks a successful walk has edge-checked. -/
def blockEdgesOK (fn : LFunction)
    (dm : List (String × (List String × List (String × String))))
    (b : String) (block : LBlock) : Prop :=
  match block.terminator with
  | some (.Br e) => ensure_edge fn e block.name dm b false = .ok ()
  | some (.CondBr _ e1 e2 _) =>
    ensure_edge fn e1 block.name dm b false = .ok () ∧
    ensure_edge fn e2 block.name dm b false = .ok ()
  | _ => True

/-- A function whose only block branches to a non-existent block. -/
def c6badFn : LFunction :=
  { name := "f", entry := "entry",
    blocks := [("entry", { name := "entry", params := [], instructions := [],
                           terminator := some (.Br ⟨"nowhere", []⟩) })],
    return_type := "Void" }

/-- An accepted straight-line function. -/
def c6okFn : LFunction :=
  { name := "h", entry := "e",
    blocks := [("e", { name := "e", params := [], instructions := [],
                       terminator := some (.Return none none) })],
    return_type := "Void" }

/-- An arity-violating `Br`: one argument against zero parameters. -/
def c6arityFn : LFunction :=
  { name := "g", entry := "e0",
    blocks :=
      [("e0", { name := "e0", params := [LParam.mk "x" "Int64"],
                instructions := [],
                terminator := some (.Br ⟨"e1", ["x"]⟩) }),
       ("e1", { name := "e1", params := [], instructions := [],
                terminator := some (.Return none none) })],
    return_type := "Void" }

/-! ## UTF-8 round-trip -/
theorem toNatOfNatV (n : Nat) (h : n < 55296 ∨ (57343 < n ∧ n < 1114112)) :
    (Char.ofNat n).toNat = n := by
  have hv : n.isValidChar := by
    unfold Nat.isValidChar
    omega
  rw [Char.ofNat, dif_pos hv]
  simp [Char.ofNatAux, Char.toNat, UInt32.toNat, BitVec.ofNatLt]

theorem charRange (c : Char) : c.toNat < 55296 ∨ (57343 < c.toNat ∧ c.toNat < 1114112) := by
  have h := c.valid
  unfold UInt32.isValidChar Nat.isValidChar at h
  have he : c.toNat = c.val.toNat := rfl
  omega

theorem utf8Ch_cons (n : Nat) : ∃ b t, utf8Ch n = b :: t := by
  rw [utf8Ch]
  by_cases h1 : n < 128
  · rw [if_pos h1]; exact ⟨_, _, rfl⟩
  · rw [if_neg h1]
    by_cases h2 : n < 2048
    · rw [if_pos h2]; exact ⟨_, _, rfl⟩
    · rw [if_neg h2]
      by_cases h3 : n < 65536
      · rw [if_pos h3]; exact ⟨_, _, rfl⟩
      · rw [if_neg h3]; exact ⟨_, _, rfl⟩

theorem utf8Step_ch (c : Char) (bs : List Nat) :
    utf8Step (utf8Ch c.toNat ++ bs) = some (c, bs) := by
  have hr := charRange c
  set n := c.toNat with hn
  have hofn : Char.ofNat n = c := by rw [hn, Char.ofNat_toNat]
  by_cases h1 : n < 128
  · rw [utf8Ch, if_pos h1]
    show utf8Step (n :: bs) = _
    rw [utf8Step.eq_def]
    dsimp only
    rw [if_pos h1, hofn]
  · by_cases h2 : n < 2048
    · rw [utf8Ch, if_neg h1, if_pos h2]
      show utf8Step ((192 + n / 64) :: (128 + n % 64) :: bs) = _
      rw [utf8Step.eq_def]
      dsimp only
      rw [if_neg (by omega), if_neg (by omega), if_pos (by omega)]
      rw [if_pos (by simp [contB]; omega)]
      have harith : (192 + n / 64 - 192) * 64 + (128 + n % 64 - 128) = n := by omega
      rw [harith, hofn]
    · by_cases h3 : n < 65536
      · rw [utf8Ch, if_neg h1, if_neg h2, if_pos h3]
        show utf8Step ((224 + n / 4096) :: (128 + n / 64 % 64) :: (128 + n % 64) :: bs) = _
        rw [utf8Step.eq_def]
        dsimp only
        rw [if_neg (by omega), if_neg (by omega), if_neg (by omega), if_pos (by omega)]
        rw [if_pos (by simp [u3ok, contB]; omega)]
        have harith : (224 + n / 4096 - 224) * 4096 + (128 + n / 64 % 64 - 128) * 64 + (128 + n % 64 - 128) = n := by
          omega
        rw [harith, hofn]
      · rw [utf8Ch, if_neg h1, if_neg h2, if_neg h3]
        show utf8Step ((240 + n / 262144) :: (128 + n / 4096 % 64) :: (128 + n / 64 % 64) :: (128 + n % 64) :: bs) = _
        rw [utf8Step.eq_def]
        dsimp only
        rw [if_neg (by omega), if_neg (by omega), if_neg (by omega), if_neg (by omega), if_pos (by omega)]
        rw [if_pos (by simp [u4ok, contB]; omega)]
        have harith : (240 + n / 262144 - 240) * 262144 + (128 + n / 4096 % 64 - 128) * 4096 +
            (128 + n / 64 % 64 - 128) * 64 + (128 + n % 64 - 128) = n := by omega
        rw [harith, hofn]

theorem utf8DecodeF_encode (cs : List Char) : ∀ fuel bs, cs.length < fuel →
    utf8DecodeF fuel (utf8Encode cs ++ bs) = (utf8DecodeF (fuel - cs.length) bs).map (fun l => cs ++ l) := by
  induction cs with
  | nil =>
    intro fuel bs h
    simp [utf8Encode]
  | cons c cs ih =>
    intro fuel bs h
    simp only [List.length_cons] at h
    match fuel, h with
    | fuel + 1, h =>
      have he : utf8Encode (c :: cs) ++ bs = utf8Ch c.toNat ++ (utf8Encode cs ++ bs) := by
        simp [utf8Encode]
      rw [he]
      obtain ⟨b, t, hbt⟩ := utf8Ch_cons c.toNat
      rw [hbt, List.cons_append, utf8DecodeF, ← List.cons_append, ← hbt, utf8Step_ch]
      dsimp only
      rw [ih fuel _ (by omega)]
      have hf : fuel + 1 - (c :: cs).length = fuel - cs.length := by
        simp only [List.length_cons]
        omega
      rw [hf]
      cases utf8DecodeF (fuel - cs.length) bs <;> simp

theorem utf8Encode_len (cs : List Char) : cs.length ≤ (utf8Encode cs).length := by
  induction cs with
  | nil => simp [utf8Encode]
  | cons c cs ih =>
    have he : utf8Encode (c :: cs) = utf8Ch c.toNat ++ utf8Encode cs := by simp [utf8Encode]
    obtain ⟨b, t, hbt⟩ := utf8Ch_cons c.toNat
    rw [he, hbt]
    simp
    omega

theorem utf8_roundtrip (cs : List Char) : utf8Decode (utf8Encode cs) = some cs := by
  rw [utf8Decode]
  have h1 : utf8Encode cs = utf8Encode cs ++ [] := by simp
  rw [h1, utf8DecodeF_encode cs _ [] (by have := utf8Encode_len cs; simp; omega)]
  have h2 : (utf8Encode cs ++ []).length + 1 - cs.length = ((utf8Encode cs).length - cs.length) + 1 := by
    have := utf8Encode_len cs
    simp
    omega
  rw [h2]
  simp [utf8DecodeF]

/-! ## Decimal/string/object round-trip lemmas and claim C9 -/
/-! ## Decimal integers round-trip -/
theorem digCh_toNat (k : Nat) (h : k < 10) : (digCh k).toNat = 48 + k := by
  rw [digCh, toNatOfNatV]
  omega

theorem digitB_digCh (k : Nat) (h : k < 10) : digitB (digCh k) = true := by
  simp [digitB, digCh_toNat k h]
  omega

theorem natDecGo_shift : ∀ fuel n acc, natDecGo fuel n acc = natDecGo fuel n [] ++ acc := by
  intro fuel
  induction fuel with
  | zero => intro n acc; rfl
  | succ fuel ih =>
    intro n acc
    by_cases h : n < 10
    · rw [natDecGo, natDecGo, if_pos h, if_pos h]
      rfl
    · rw [natDecGo, natDecGo, if_neg h, if_neg h]
      rw [ih (n / 10) (digCh (n % 10) :: acc), ih (n / 10) [digCh (n % 10)]]
      simp

theorem natDecGo_fuelInv (n : Nat) : ∀ f1 f2 acc, n < f1 → n < f2 →
    natDecGo f1 n acc = natDecGo f2 n acc := by
  induction n using Nat.strong_induction_on with
  | _ n ih =>
    intro f1 f2 acc h1 h2
    match f1, f2, h1, h2 with
    | f1 + 1, f2 + 1, h1, h2 =>
      by_cases h : n < 10
      · rw [natDecGo, natDecGo, if_pos h, if_pos h]
      · rw [natDecGo, natDecGo, if_neg h, if_neg h]
        exact ih (n / 10) (by omega) f1 f2 _ (by omega) (by omega)

theorem natDec_peel (n : Nat) :
    natDec n = (if n < 10 then [] else natDec (n / 10)) ++ [digCh (n % 10)] := by
  rw [natDec, natDecGo]
  by_cases h : n < 10
  · simp [h]
  · simp only [if_neg h]
    rw [natDecGo_shift n (n / 10) [digCh (n % 10)],
      natDecGo_fuelInv (n / 10) n (n / 10 + 1) [] (by omega) (by omega)]
    rfl

theorem natDec_ne_nil (n : Nat) : natDec n ≠ [] := by
  rw [natDec_peel]
  simp

theorem natDec_digits (n : Nat) : ∀ c ∈ natDec n, digitB c = true := by
  induction n using Nat.strong_induction_on with
  | _ n ih =>
    rw [natDec_peel]
    intro c hc
    rcases List.mem_append.mp hc with h | h
    · by_cases h10 : n < 10
      · simp [h10] at h
      · exact ih (n / 10) (by omega) c (by simpa [h10] using h)
    · rw [List.mem_singleton] at h
      subst h
      exact digitB_digCh _ (by omega)

theorem natDec_headNonzero (n : Nat) (hn : 1 ≤ n) :
    ∃ c t, natDec n = c :: t ∧ digitB c = true ∧ c ≠ '0' ∧ c ≠ '-' := by
  induction n using Nat.strong_induction_on with
  | _ n ih =>
    by_cases h : n < 10
    · refine ⟨digCh (n % 10), [], ?_, digitB_digCh _ (by omega), ?_, ?_⟩
      · rw [natDec_peel, if_pos h]
        rfl
      · intro hc
        have := congrArg Char.toNat hc
        rw [digCh_toNat _ (by omega)] at this
        have h0 : ('0' : Char).toNat = 48 := by decide
        omega
      · intro hc
        have := congrArg Char.toNat hc
        rw [digCh_toNat _ (by omega)] at this
        have h0 : ('-' : Char).toNat = 45 := by decide
        omega
    · obtain ⟨c, t, hct, hd, h0, hm⟩ := ih (n / 10) (by omega) (by omega)
      refine ⟨c, t ++ [digCh (n % 10)], ?_, hd, h0, hm⟩
      rw [natDec_peel, if_neg h, hct]
      rfl

theorem digitsVal_snoc (ds : List Char) (c : Char) :
    digitsVal (ds ++ [c]) = digitsVal ds * 10 + (c.toNat - 48) := by
  simp [digitsVal]

theorem digitsVal_natDec (n : Nat) : digitsVal (natDec n) = n := by
  induction n using Nat.strong_induction_on with
  | _ n ih =>
    rw [natDec_peel]
    by_cases h : n < 10
    · simp only [if_pos h, List.nil_append]
      have : digitsVal [digCh (n % 10)] = (digCh (n % 10)).toNat - 48 := by
        simp [digitsVal]
      rw [this, digCh_toNat _ (by omega)]
      omega
    · simp only [if_neg h]
      rw [digitsVal_snoc, ih (n / 10) (by omega), digCh_toNat _ (by omega)]
      omega

theorem digitsTake_stop (rest : List Char) (h : intStop rest = true) :
    digitsTake rest = ([], rest) := by
  match rest with
  | [] => rfl
  | c :: t =>
    simp only [intStop, Bool.not_eq_eq_eq_not, Bool.not_true] at h
    rw [digitsTake, if_neg (by simp [h])]

theorem digitsTake_run (ds : List Char) (hds : ∀ c ∈ ds, digitB c = true)
    (rest : List Char) (hrest : intStop rest = true) :
    digitsTake (ds ++ rest) = (ds, rest) := by
  induction ds with
  | nil => simpa using digitsTake_stop rest hrest
  | cons c t ih =>
    have hc : digitB c = true := hds c (by simp)
    rw [List.cons_append, digitsTake, if_pos hc, ih (fun x hx => hds x (by simp [hx]))]

theorem intDec_parse (i : Int) (rest : List Char) (hrest : intStop rest = true) :
    parseJInt (intDec i ++ rest) = some (i, rest) := by
  rcases lt_trichotomy i 0 with hneg | hz | hpos
  · have h1 : 1 ≤ i.natAbs := by omega
    obtain ⟨c, t, hct, hd, h0, hm⟩ := natDec_headNonzero i.natAbs h1
    have he : intDec i ++ rest = '-' :: (c :: (t ++ rest)) := by
      rw [intDec, if_pos hneg, hct]
      rfl
    rw [he, parseJInt.eq_def]
    dsimp only
    rw [if_pos rfl, if_neg h0, if_pos hd]
    have htk : digitsTake (t ++ rest) = (t, rest) := by
      refine digitsTake_run t (fun x hx => natDec_digits i.natAbs x ?_) rest hrest
      rw [hct]
      exact List.mem_cons_of_mem _ hx
    simp only [htk]
    have hv : digitsVal (c :: t) = i.natAbs := by
      rw [← hct, digitsVal_natDec]
    rw [hv]
    have hofn : -(Int.ofNat i.natAbs) = i := by
      rw [Int.ofNat_eq_natCast]
      omega
    rw [hofn]
  · subst hz
    have he : intDec 0 ++ rest = '0' :: rest := by
      rw [intDec, if_neg (by omega)]
      rfl
    rw [he, parseJInt.eq_def]
    dsimp only
    rw [if_neg (by decide), if_pos rfl]

  · have h1 : 1 ≤ i.natAbs := by omega
    obtain ⟨c, t, hct, hd, h0, hm⟩ := natDec_headNonzero i.natAbs h1
    have he : intDec i ++ rest = c :: (t ++ rest) := by
      rw [intDec, if_neg (by omega), hct]
      rfl
    rw [he, parseJInt.eq_def]
    dsimp only
    rw [if_neg hm, if_neg h0, if_pos hd]
    have htk : digitsTake (t ++ rest) = (t, rest) := by
      refine digitsTake_run t (fun x hx => natDec_digits i.natAbs x ?_) rest hrest
      rw [hct]
      exact List.mem_cons_of_mem _ hx
    simp only [htk]
    have hv : digitsVal (c :: t) = i.natAbs := by
      rw [← hct, digitsVal_natDec]
    rw [hv]
    have hofn : Int.ofNat i.natAbs = i := by
      rw [Int.ofNat_eq_natCast]
      omega
    rw [hofn]

/-! ## String escapes round-trip -/
theorem hexCh_val (k : Nat) (h : k < 16) : hexDigVal (hexCh k) = some k := by
  interval_cases k <;> decide

theorem escStep_u (a b c d : Char) (X : List Char) :
    escStep ('u' :: a :: b :: c :: d :: X)
      = match hexQuad a b c d with
        | none => none
        | some n =>
          if n < 55296 || 57344 ≤ n then some (Char.ofNat n, X)
          else if n ≤ 56319 then surrPair n X
          else none := rfl

theorem escPy_shape (c : Char) :
    (escPy c = [c] ∧ c ≠ '"' ∧ c ≠ '\\' ∧ ¬(c.toNat < 32)) ∨
    (∃ t, escPy c = '\\' :: t ∧ ∀ X, escStep (t ++ X) = some (c, X)) := by
  rw [escPy]
  by_cases h1 : c = '"'
  · right
    subst h1
    exact ⟨_, if_pos rfl, fun X => rfl⟩
  · rw [if_neg h1]
    by_cases h2 : c = '\\'
    · right
      subst h2
      exact ⟨_, if_pos rfl, fun X => rfl⟩
    · rw [if_neg h2]
      by_cases h3 : c = Char.ofNat 8
      · right
        subst h3
        exact ⟨_, if_pos rfl, fun X => rfl⟩
      · rw [if_neg h3]
        by_cases h4 : c = Char.ofNat 9
        · right
          subst h4
          exact ⟨_, if_pos rfl, fun X => rfl⟩
        · rw [if_neg h4]
          by_cases h5 : c = Char.ofNat 10
          · right
            subst h5
            exact ⟨_, if_pos rfl, fun X => rfl⟩
          · rw [if_neg h5]
            by_cases h6 : c = Char.ofNat 12
            · right
              subst h6
              exact ⟨_, if_pos rfl, fun X => rfl⟩
            · rw [if_neg h6]
              by_cases h7 : c = Char.ofNat 13
              · right
                subst h7
                exact ⟨_, if_pos rfl, fun X => rfl⟩
              · rw [if_neg h7]
                by_cases h8 : c.toNat < 32
                · right
                  rw [if_pos h8]
                  refine ⟨_, rfl, fun X => ?_⟩
                  show escStep ('u' :: '0' :: '0' :: hexCh (c.toNat / 16) :: hexCh (c.toNat % 16) :: X) = _
                  rw [escStep_u]
                  have hq : hexQuad '0' '0' (hexCh (c.toNat / 16)) (hexCh (c.toNat % 16)) = some c.toNat := by
                    rw [hexQuad.eq_def]
                    rw [hexCh_val _ (by omega), hexCh_val _ (by omega)]
                    have hz : hexDigVal '0' = some 0 := by decide
                    rw [hz]
                    dsimp only
                    have : ((0 * 16 + 0) * 16 + c.toNat / 16) * 16 + c.toNat % 16 = c.toNat := by omega
                    rw [this]
                  rw [hq]
                  try dsimp only
                  rw [if_pos (by simp; omega), Char.ofNat_toNat]
                · left
                  rw [if_neg h8]
                  exact ⟨rfl, h1, h2, h8⟩

theorem parseJStrF_quote (cs : List Char) : ∀ fuel acc rest, cs.length < fuel →
    parseJStrF fuel acc (cs.flatMap escPy ++ '"' :: rest) = some (String.mk (acc.reverse ++ cs), rest) := by
  induction cs with
  | nil =>
    intro fuel acc rest h
    match fuel, h with
    | fuel + 1, _ =>
      simp only [List.flatMap_nil, List.nil_append]
      rw [parseJStrF, if_pos rfl]
      simp
  | cons c cs ih =>
    intro fuel acc rest h
    simp only [List.length_cons] at h
    match fuel, h with
    | fuel + 1, h =>
      have he : (c :: cs).flatMap escPy ++ '"' :: rest = escPy c ++ (cs.flatMap escPy ++ '"' :: rest) := by
        simp
      rw [he]
      rcases escPy_shape c with ⟨hp, hq, hb, hc⟩ | ⟨t, ht, hstep⟩
      · rw [hp]
        show parseJStrF (fuel + 1) acc (c :: _) = _
        rw [parseJStrF, if_neg hq, if_neg hb, if_neg hc]
        simp only [List.append_eq, List.nil_append]
        rw [ih fuel _ rest (by omega)]
        simp
      · rw [ht]
        show parseJStrF (fuel + 1) acc ('\\' :: (t ++ _)) = _
        rw [parseJStrF, if_neg (by decide), if_pos rfl, hstep]
        try dsimp only
        rw [ih fuel _ rest (by omega)]
        simp

theorem strMk_toList (s : String) : String.mk s.toList = s := rfl

theorem escPy_len_le (cs : List Char) : cs.length ≤ (cs.flatMap escPy).length := by
  induction cs with
  | nil => simp
  | cons c cs ih =>
    rw [List.flatMap_cons]
    rcases escPy_shape c with ⟨hp, _, _, _⟩ | ⟨t, ht, _⟩
    · rw [hp]
      simp only [List.length_append, List.length_cons, List.singleton_append]
      omega
    · rw [ht]
      simp only [List.length_append, List.length_cons]
      omega

theorem parseJStr_quote (s : String) (rest : List Char) :
    parseJStr [] (s.toList.flatMap escPy ++ '"' :: rest) = some (s, rest) := by
  rw [parseJStr, parseJStrF_quote s.toList _ [] rest ?_]
  · simp [strMk_toList]
  · have h := escPy_len_le s.toList
    simp only [List.length_append, List.length_cons]
    omega

/-! ## Sorted objects are fixed by `sortPairs`; unique keys by `dictify` -/
theorem chLtB_asymm : ∀ a b : List Char, chLtB a b = true → chLtB b a = false := by
  intro a
  induction a with
  | nil =>
    intro b h
    cases b with
    | nil => simp [chLtB] at h
    | cons x xs => simp [chLtB]
  | cons x xs ih =>
    intro b h
    cases b with
    | nil => simp [chLtB] at h
    | cons y ys =>
      rw [chLtB] at h ⊢
      by_cases hxy : x.toNat < y.toNat
      · rw [if_neg (by omega), if_pos hxy]
      · rw [if_neg hxy] at h
        by_cases hyx : y.toNat < x.toNat
        · rw [if_pos hyx] at h
          exact absurd h (by simp)
        · rw [if_neg hyx] at h
          rw [if_neg hyx, if_neg hxy]
          exact ih ys h

theorem chLtB_ne : ∀ a b : List Char, chLtB a b = true → a ≠ b := by
  intro a b h heq
  subst heq
  induction a with
  | nil => simp [chLtB] at h
  | cons x xs ih =>
    rw [chLtB, if_neg (by omega), if_neg (by omega)] at h
    exact ih h

theorem keyLtB_asymm (a b : String) (h : keyLtB a b = true) : keyLtB b a = false :=
  chLtB_asymm _ _ h

theorem andE {a b : Bool} (h : (a && b) = true) : a = true ∧ b = true := by
  constructor <;> simp_all

theorem keyLtB_ne (a b : String) (h : keyLtB a b = true) : a ≠ b := by
  intro heq
  subst heq
  exact (chLtB_ne _ _ h) rfl

theorem chLtB_trans : ∀ a b c : List Char, chLtB a b = true → chLtB b c = true → chLtB a c = true := by
  intro a
  induction a with
  | nil =>
    intro b c hab hbc
    cases b with
    | nil => simp [chLtB] at hab
    | cons y ys =>
      cases c with
      | nil => simp [chLtB] at hbc
      | cons z zs => simp [chLtB]
  | cons x xs ih =>
    intro b c hab hbc
    cases b with
    | nil => simp [chLtB] at hab
    | cons y ys =>
      cases c with
      | nil => simp [chLtB] at hbc
      | cons z zs =>
        rw [chLtB] at hab hbc ⊢
        by_cases hxy : x.toNat < y.toNat
        · by_cases hyz : y.toNat < z.toNat
          · rw [if_pos (by omega)]
          · rw [if_neg hyz] at hbc
            by_cases hzy : z.toNat < y.toNat
            · rw [if_pos hzy] at hbc
              exact absurd hbc (by simp)
            · rw [if_pos (by omega)]
        · rw [if_neg hxy] at hab
          by_cases hyx : y.toNat < x.toNat
          · rw [if_pos hyx] at hab
            exact absurd hab (by simp)
          · rw [if_neg hyx] at hab
            by_cases hyz : y.toNat < z.toNat
            · rw [if_pos (by omega)]
            · rw [if_neg hyz] at hbc
              by_cases hzy : z.toNat < y.toNat
              · rw [if_pos hzy] at hbc
                exact absurd hbc (by simp)
              · rw [if_neg hzy] at hbc
                rw [if_neg (by omega), if_neg (by omega)]
                exact ih ys zs hab hbc

theorem keyLtB_trans (a b c : String) (hab : keyLtB a b = true) (hbc : keyLtB b c = true) :
    keyLtB a c = true :=
  chLtB_trans _ _ _ hab hbc

theorem ascKeysB_tail (x : String × JVal) (ms : List (String × JVal))
    (h : ascKeysB (x :: ms) = true) : ascKeysB ms = true := by
  cases ms with
  | nil => rfl
  | cons y r =>
    rw [ascKeysB] at h
    exact (andE h).2

theorem ascKeysB_head_lt (x : String × JVal) : ∀ ms, ascKeysB (x :: ms) = true →
    ∀ p ∈ ms, keyLtB x.1 p.1 = true := by
  intro ms
  induction ms generalizing x with
  | nil => intro _ p hp; simp at hp
  | cons y r ih =>
    intro h p hp
    rw [ascKeysB] at h
    obtain ⟨hxy, hr⟩ := andE h
    rcases List.mem_cons.mp hp with rfl | hp'
    · exact hxy
    · exact keyLtB_trans _ _ _ hxy (ih y hr p hp')

theorem insPair_head (x y : String × JVal) (ys : List (String × JVal))
    (h : keyLtB x.1 y.1 = true) : insPair x (y :: ys) = x :: y :: ys := by
  rw [insPair, if_neg (by simp [keyLtB_asymm _ _ h])]

theorem sortPairs_sorted (ms : List (String × JVal)) (h : ascKeysB ms = true) :
    sortPairs ms = ms := by
  induction ms with
  | nil => rfl
  | cons x xs ih =>
    rw [sortPairs, ih (ascKeysB_tail x xs h)]
    cases xs with
    | nil => rfl
    | cons y r =>
      rw [ascKeysB] at h
      exact insPair_head x y r (andE h).1

theorem dictUpd_fresh (k : String) (v : JVal) : ∀ acc, (∀ p ∈ acc, p.1 ≠ k) →
    dictUpd acc k v = acc ++ [(k, v)] := by
  intro acc
  induction acc with
  | nil => intro _; rfl
  | cons p ps ih =>
    intro h
    obtain ⟨k0, v0⟩ := p
    rw [dictUpd, if_neg (h (k0, v0) (by simp))]
    rw [ih (fun q hq => h q (by simp [hq]))]
    rfl

theorem dictifyAux_app (ms : List (String × JVal)) : ∀ acc,
    (∀ p ∈ acc, ∀ q ∈ ms, p.1 ≠ q.1) → ascKeysB ms = true →
    dictifyAux acc ms = acc ++ ms := by
  induction ms with
  | nil => intro acc _ _; simp [dictifyAux]
  | cons x xs ih =>
    intro acc hsep hasc
    obtain ⟨k, v⟩ := x
    rw [dictifyAux, dictUpd_fresh k v acc (fun p hp => hsep p hp (k, v) (by simp))]
    rw [ih (acc ++ [(k, v)]) ?_ (ascKeysB_tail _ _ hasc)]
    · simp
    · intro p hp q hq
      rcases List.mem_append.mp hp with hp' | hp'
      · exact hsep p hp' q (by simp [hq])
      · rw [List.mem_singleton] at hp'
        subst hp'
        have := ascKeysB_head_lt (k, v) xs hasc q hq
        exact keyLtB_ne _ _ this

theorem dictify_sorted (ms : List (String × JVal)) (h : ascKeysB ms = true) :
    dictify ms = ms := by
  rw [dictify, dictifyAux_app ms [] (by simp) h]
  rfl

/-! ## Canonical trees are fixed by `sortAllJ` -/
mutual
theorem sortAllJ_id : ∀ v, canonicalB v = true → sortAllJ v = v
  | .jnull, _ => rfl
  | .jbool _, _ => rfl
  | .jint _, _ => rfl
  | .jstr _, _ => rfl
  | .jarr xs, h => by
    rw [sortAllJ, sortAllArr_id xs (by simpa [canonicalB] using h)]
  | .jobj ms, h => by
    have h2 : ascKeysB ms = true ∧ canonicalObjB ms = true := by
      simpa [canonicalB] using andE (by simpa [canonicalB] using h)
    rw [sortAllJ, sortAllObj_id ms h2.2, sortPairs_sorted ms h2.1]
theorem sortAllArr_id : ∀ xs, canonicalArrB xs = true → sortAllArr xs = xs
  | [], _ => rfl
  | x :: xs, h => by
    have h2 := andE (by simpa [canonicalArrB] using h)
    rw [sortAllArr, sortAllJ_id x h2.1, sortAllArr_id xs h2.2]
theorem sortAllObj_id : ∀ ms, canonicalObjB ms = true → sortAllObj ms = ms
  | [], _ => rfl
  | (k, v) :: ms, h => by
    have h2 := andE (by simpa [canonicalObjB] using h)
    rw [sortAllObj, sortAllJ_id v h2.1, sortAllObj_id ms h2.2]
end

/-! ## Heads of rendered output -/
theorem digitB_notLit (c : Char) (h : digitB c = true) :
    c ≠ 'n' ∧ c ≠ 't' ∧ c ≠ 'f' ∧ c ≠ '"' ∧ c ≠ '[' ∧ c ≠ lbrace ∧
    c ≠ ']' ∧ c ≠ rbrace ∧ c ≠ ',' ∧ c ≠ '-' := by
  refine ⟨?_, ?_, ?_, ?_, ?_, ?_, ?_, ?_, ?_, ?_⟩ <;>
    (rintro rfl; exact absurd h (by decide))

theorem digitB_notWs (c : Char) (h : digitB c = true) : pyWs c = false := by
  rw [pyWs]
  have h1 : c ≠ ' ' := by rintro rfl; exact absurd h (by decide)
  have h2 : c ≠ Char.ofNat 9 := by rintro rfl; exact absurd h (by decide)
  have h3 : c ≠ Char.ofNat 10 := by rintro rfl; exact absurd h (by decide)
  have h4 : c ≠ Char.ofNat 13 := by rintro rfl; exact absurd h (by decide)
  simp [h1, h2, h3, h4]

theorem natDec_head (n : Nat) : ∃ c t, natDec n = c :: t ∧ digitB c = true := by
  by_cases hz : n = 0
  · subst hz
    exact ⟨'0', [], rfl, by decide⟩
  · obtain ⟨c, t, hct, hd, _, _⟩ := natDec_headNonzero n (by omega)
    exact ⟨c, t, hct, hd⟩

theorem intDec_head (i : Int) :
    ∃ c t, intDec i = c :: t ∧ (c = '-' ∨ digitB c = true) := by
  by_cases hneg : i < 0
  · refine ⟨'-', natDec i.natAbs, ?_, Or.inl rfl⟩
    rw [intDec, if_pos hneg]
    rfl
  · obtain ⟨c, t, hct, hd⟩ := natDec_head i.natAbs
    refine ⟨c, t, ?_, Or.inr hd⟩
    rw [intDec, if_neg hneg, hct]
    rfl

theorem dropWs_cons (c : Char) (t : List Char) (h : pyWs c = false) :
    dropWs (c :: t) = c :: t := by
  rw [dropWs, if_neg (by simp [h])]

theorem renderJ_head (v : JVal) :
    ∃ c t, renderJ v = c :: t ∧ pyWs c = false ∧ c ≠ ']' ∧ c ≠ rbrace := by
  cases v with
  | jnull => refine ⟨'n', _, rfl, ?_, ?_, ?_⟩ <;> decide
  | jbool b =>
    cases b
    · refine ⟨'f', _, rfl, ?_, ?_, ?_⟩ <;> decide
    · refine ⟨'t', _, rfl, ?_, ?_, ?_⟩ <;> decide
  | jint i =>
    obtain ⟨c, t, hct, hc⟩ := intDec_head i
    refine ⟨c, t, hct, ?_, ?_, ?_⟩
    · rcases hc with rfl | hd
      · decide
      · exact digitB_notWs c hd
    · rcases hc with rfl | hd
      · decide
      · exact (digitB_notLit c hd).2.2.2.2.2.2.1
    · rcases hc with rfl | hd
      · decide
      · exact (digitB_notLit c hd).2.2.2.2.2.2.2.1
  | jstr s => refine ⟨'"', _, rfl, ?_, ?_, ?_⟩ <;> decide
  | jarr xs => refine ⟨'[', _, rfl, ?_, ?_, ?_⟩ <;> decide
  | jobj ms => refine ⟨lbrace, _, rfl, ?_, ?_, ?_⟩ <;> decide

theorem dropWs_renderApp (v : JVal) (X : List Char) :
    dropWs (renderJ v ++ X) = renderJ v ++ X := by
  obtain ⟨c, t, hct, hws, _, _⟩ := renderJ_head v
  rw [hct, List.cons_append, dropWs_cons _ _ hws]

/-! ## Step lemmas for the scanner -/
theorem pvStep_quote (fuel : Nat) (r : List Char) : parseJVal (fuel + 1) ('"' :: r)
    = match parseJStr [] r with
      | some (s, r2) => some (.jstr s, r2)
      | none => none := rfl

theorem pvStep_lbracket (fuel : Nat) (r : List Char) : parseJVal (fuel + 1) ('[' :: r)
    = match dropWs r with
      | ']' :: r2 => some (.jarr [], r2)
      | r2 =>
        match parseJArr fuel r2 with
        | some (xs, r3) => some (.jarr xs, r3)
        | none => none := rfl

theorem pvStep_other (fuel : Nat) (c : Char) (r : List Char) (h1 : c ≠ 'n') (h2 : c ≠ 't')
    (h3 : c ≠ 'f') (h4 : c ≠ '"') (h5 : c ≠ '[') :
    parseJVal (fuel + 1) (c :: r)
    = (if c = lbrace then
        match dropWs r with
        | c2 :: r2 =>
          if c2 = rbrace then some (.jobj [], r2)
          else
            match parseJObj fuel (c2 :: r2) with
            | some (ms, r3) => some (.jobj (dictify ms), r3)
            | none => none
        | [] => none
      else if c = '-' || digitB c then
        match parseJInt (c :: r) with
        | some (i, r2) => some (.jint i, r2)
        | none => none
      else none) := by
  simp only [parseJVal]
  split
  · rename_i heq; rw [List.cons.injEq] at heq; exact absurd heq.1 h1
  · rename_i heq; rw [List.cons.injEq] at heq; exact absurd heq.1 h2
  · rename_i heq; rw [List.cons.injEq] at heq; exact absurd heq.1 h3
  · rename_i heq; rw [List.cons.injEq] at heq; exact absurd heq.1 h4
  · rename_i heq; rw [List.cons.injEq] at heq; exact absurd heq.1 h5
  · rename_i heq; rw [List.cons.injEq] at heq; obtain ⟨rfl, rfl⟩ := heq; rfl
  · rename_i heq; exact absurd heq (by simp)

theorem paStep (fuel : Nat) (cs : List Char) : parseJArr (fuel + 1) cs
    = match parseJVal fuel cs with
      | none => none
      | some (v, r) =>
        match dropWs r with
        | ',' :: r2 =>
          match parseJArr fuel (dropWs r2) with
          | some (vs, r3) => some (v :: vs, r3)
          | none => none
        | ']' :: r2 => some ([v], r2)
        | _ => none := rfl

theorem poStep (fuel : Nat) (r : List Char) : parseJObj (fuel + 1) ('"' :: r)
    = match parseJStr [] r with
      | none => none
      | some (k, r1) =>
        match dropWs r1 with
        | ':' :: r2 =>
          match parseJVal fuel (dropWs r2) with
          | none => none
          | some (v, r3) =>
            match dropWs r3 with
            | ',' :: r4 =>
              match parseJObj fuel (dropWs r4) with
              | some (ms, r5) => some ((k, v) :: ms, r5)
              | none => none
            | c :: r4 => if c = rbrace then some ([(k, v)], r4) else none
            | [] => none
        | _ => none := rfl

theorem renderArrTail_cons (y : JVal) (ys : List JVal) :
    renderArrTail (y :: ys) = ',' :: renderArr (y :: ys) := rfl

theorem renderObjTail_cons (k : String) (v : JVal) (ms : List (String × JVal)) :
    renderObjTail ((k, v) :: ms) = ',' :: renderObj ((k, v) :: ms) := rfl

theorem arrDispatch (fuel : Nat) (c : Char) (X : List Char) (hc : c ≠ ']') :
    (match c :: X with
     | ']' :: r2 => some (JVal.jarr [], r2)
     | r2 =>
       match parseJArr fuel r2 with
       | some (xs, r3) => some (JVal.jarr xs, r3)
       | none => none)
    = match parseJArr fuel (c :: X) with
      | some (xs, r3) => some (JVal.jarr xs, r3)
      | none => none := by
  split
  · rename_i heq
    rw [List.cons.injEq] at heq
    exact absurd heq.1 hc
  · rfl

theorem paComma (fuel : Nat) (x : JVal) (X : List Char) :
    (match ',' :: X with
     | ',' :: r2 =>
       match parseJArr fuel (dropWs r2) with
       | some (vs, r3) => some (x :: vs, r3)
       | none => none
     | ']' :: r2 => some ([x], r2)
     | _ => none)
    = match parseJArr fuel (dropWs X) with
      | some (vs, r3) => some (x :: vs, r3)
      | none => none := rfl

theorem poColon (fuel : Nat) (k : String) (X : List Char) :
    (match ':' :: X with
     | ':' :: r2 =>
       match parseJVal fuel (dropWs r2) with
       | none => none
       | some (v, r3) =>
         match dropWs r3 with
         | ',' :: r4 =>
           match parseJObj fuel (dropWs r4) with
           | some (ms, r5) => some ((k, v) :: ms, r5)
           | none => none
         | c :: r4 => if c = rbrace then some ([(k, v)], r4) else none
         | [] => none
     | _ => none)
    = match parseJVal fuel (dropWs X) with
      | none => none
      | some (v, r3) =>
        match dropWs r3 with
        | ',' :: r4 =>
          match parseJObj fuel (dropWs r4) with
          | some (ms, r5) => some ((k, v) :: ms, r5)
          | none => none
        | c :: r4 => if c = rbrace then some ([(k, v)], r4) else none
        | [] => none := rfl

theorem poAfterRb (fuel : Nat) (k : String) (v : JVal) (X : List Char) :
    (match rbrace :: X with
     | ',' :: r4 =>
       match parseJObj fuel (dropWs r4) with
       | some (ms, r5) => some ((k, v) :: ms, r5)
       | none => none
     | c :: r4 => if c = rbrace then some ([(k, v)], r4) else none
     | [] => none)
    = some ([(k, v)], X) := rfl

theorem poAfterComma (fuel : Nat) (k : String) (v : JVal) (X : List Char) :
    (match ',' :: X with
     | ',' :: r4 =>
       match parseJObj fuel (dropWs r4) with
       | some (ms, r5) => some ((k, v) :: ms, r5)
       | none => none
     | c :: r4 => if c = rbrace then some ([(k, v)], r4) else none
     | [] => none)
    = match parseJObj fuel (dropWs X) with
      | some (ms, r5) => some ((k, v) :: ms, r5)
      | none => none := rfl

/-! ## The scanner inverts the canonical encoder -/
mutual
theorem rtV : ∀ (v : JVal) (fuel : Nat) (rest : List Char),
    canonicalB v = true → (renderJ v).length < fuel → intStop rest = true →
    parseJVal fuel (renderJ v ++ rest) = some (v, rest)
  | .jnull, fuel, rest, _, hf, _ => by
    match fuel, hf with
    | fuel + 1, _ => rfl
  | .jbool true, fuel, rest, _, hf, _ => by
    match fuel, hf with
    | fuel + 1, _ => rfl
  | .jbool false, fuel, rest, _, hf, _ => by
    match fuel, hf with
    | fuel + 1, _ => rfl
  | .jint i, fuel, rest, _, hf, hrest => by
    match fuel, hf with
    | fuel + 1, _ =>
      obtain ⟨c, t, hct, hc⟩ := intDec_head i
      have he : renderJ (.jint i) ++ rest = c :: (t ++ rest) := by
        show intDec i ++ rest = _
        rw [hct]
        rfl
      have hlit : c ≠ 'n' ∧ c ≠ 't' ∧ c ≠ 'f' ∧ c ≠ '"' ∧ c ≠ '[' ∧ c ≠ lbrace := by
        rcases hc with rfl | hd
        · exact ⟨by decide, by decide, by decide, by decide, by decide, by decide⟩
        · obtain ⟨a1, a2, a3, a4, a5, a6, _⟩ := digitB_notLit c hd
          exact ⟨a1, a2, a3, a4, a5, a6⟩
      rw [he, pvStep_other fuel c (t ++ rest) hlit.1 hlit.2.1 hlit.2.2.1 hlit.2.2.2.1 hlit.2.2.2.2.1]
      rw [if_neg hlit.2.2.2.2.2]
      rw [if_pos (by rcases hc with rfl | hd
                     · decide
                     · simp [hd])]
      rw [show c :: (t ++ rest) = (c :: t) ++ rest from rfl, ← hct, intDec_parse i rest hrest]
  | .jstr s, fuel, rest, _, hf, _ => by
    match fuel, hf with
    | fuel + 1, _ =>
      have he : renderJ (.jstr s) ++ rest = '"' :: (s.toList.flatMap escPy ++ '"' :: rest) := by
        show quoteStr s ++ rest = _
        rw [quoteStr]
        simp
      rw [he, pvStep_quote, parseJStr_quote]
  | .jarr [], fuel, rest, _, hf, _ => by
    match fuel, hf with
    | fuel + 1, _ =>
      have he : renderJ (.jarr []) ++ rest = '[' :: (']' :: rest) := rfl
      rw [he, pvStep_lbracket]
      rw [dropWs_cons ']' rest (by decide)]
      rfl
  | .jarr (x :: xs), fuel, rest, hcan, hf, _ => by
    match fuel, hf with
    | fuel + 1, hf =>
      have hcs : canonicalArrB (x :: xs) = true := by simpa [canonicalB] using hcan
      have he : renderJ (.jarr (x :: xs)) ++ rest = '[' :: (renderArr (x :: xs) ++ ']' :: rest) := by
        show '[' :: (renderArr (x :: xs) ++ [']']) ++ rest = _
        simp
      rw [he, pvStep_lbracket]
      obtain ⟨c, t, hct, hws, hbr, _⟩ := renderJ_head x
      have hx : renderArr (x :: xs) ++ ']' :: rest = c :: (t ++ renderArrTail xs ++ ']' :: rest) := by
        show (renderJ x ++ renderArrTail xs) ++ ']' :: rest = _
        rw [hct]
        simp
      rw [hx, dropWs_cons _ _ hws, arrDispatch fuel c _ hbr, ← hx]
      have hlen : (renderArr (x :: xs)).length + 1 < fuel := by
        have : (renderJ (.jarr (x :: xs))).length = (renderArr (x :: xs)).length + 2 := by
          show ('[' :: (renderArr (x :: xs) ++ [']'])).length = _
          simp
        omega
      rw [rtA x xs fuel rest hcs hlen]
  | .jobj [], fuel, rest, _, hf, _ => by
    match fuel, hf with
    | fuel + 1, _ =>
      have he : renderJ (.jobj []) ++ rest = lbrace :: (rbrace :: rest) := rfl
      rw [he, pvStep_other fuel lbrace _ (by decide) (by decide) (by decide) (by decide) (by decide)]
      rw [if_pos rfl, dropWs_cons rbrace rest (by decide)]
      try dsimp only
      rw [if_pos rfl]
  | .jobj ((k, v) :: ms), fuel, rest, hcan, hf, _ => by
    match fuel, hf with
    | fuel + 1, hf =>
      have hsplit := andE (by simpa [canonicalB] using hcan :
        (ascKeysB ((k, v) :: ms) && canonicalObjB ((k, v) :: ms)) = true)
      have he : renderJ (.jobj ((k, v) :: ms)) ++ rest
          = lbrace :: (renderObj ((k, v) :: ms) ++ rbrace :: rest) := by
        show lbrace :: (renderObj ((k, v) :: ms) ++ [rbrace]) ++ rest = _
        simp
      rw [he, pvStep_other fuel lbrace _ (by decide) (by decide) (by decide) (by decide) (by decide)]
      rw [if_pos rfl]
      have hx : renderObj ((k, v) :: ms) ++ rbrace :: rest
          = '"' :: ((k.toList.flatMap escPy ++ ['"']) ++ (':' :: (renderJ v ++ renderObjTail ms) ++ rbrace :: rest)) := by
        show (quoteStr k ++ ':' :: (renderJ v ++ renderObjTail ms)) ++ rbrace :: rest = _
        rw [quoteStr]
        simp
      rw [hx, dropWs_cons '"' _ (by decide)]
      try dsimp only
      rw [if_neg (by decide)]
      rw [← hx]
      have hlen : (renderObj ((k, v) :: ms)).length + 1 < fuel := by
        have : (renderJ (.jobj ((k, v) :: ms))).length = (renderObj ((k, v) :: ms)).length + 2 := by
          show (lbrace :: (renderObj ((k, v) :: ms) ++ [rbrace])).length = _
          simp
        omega
      rw [rtO (k, v) ms fuel rest hsplit.2 hlen]
      try dsimp only
      rw [dictify_sorted _ hsplit.1]
  termination_by v _ _ _ _ _ => sizeOf v
theorem rtA : ∀ (x : JVal) (xs : List JVal) (fuel : Nat) (rest : List Char),
    canonicalArrB (x :: xs) = true → (renderArr (x :: xs)).length + 1 < fuel →
    parseJArr fuel (renderArr (x :: xs) ++ ']' :: rest) = some (x :: xs, rest)
  | x, [], fuel, rest, hcan, hf => by
    match fuel, hf with
    | fuel + 1, hf =>
      have hcx : canonicalB x = true := by simpa [canonicalArrB] using hcan
      have he : renderArr (x :: []) ++ ']' :: rest = renderJ x ++ ']' :: rest := by
        show (renderJ x ++ renderArrTail []) ++ ']' :: rest = _
        show (renderJ x ++ []) ++ ']' :: rest = _
        simp
      have hlx : (renderJ x).length < fuel := by
        have : (renderArr (x :: [])).length = (renderJ x).length := by
          show (renderJ x ++ renderArrTail []).length = _
          show (renderJ x ++ []).length = _
          simp
        omega
      rw [he, paStep, rtV x fuel (']' :: rest) hcx hlx (by rfl)]
      try dsimp only
      rw [dropWs_cons ']' rest (by decide)]
      rfl
  | x, y :: ys, fuel, rest, hcan, hf => by
    match fuel, hf with
    | fuel + 1, hf =>
      have hc2 := andE (by simpa [canonicalArrB] using hcan :
        (canonicalB x && canonicalArrB (y :: ys)) = true)
      have he : renderArr (x :: y :: ys) ++ ']' :: rest
          = renderJ x ++ (',' :: (renderArr (y :: ys) ++ ']' :: rest)) := by
        show (renderJ x ++ renderArrTail (y :: ys)) ++ ']' :: rest = _
        rw [renderArrTail_cons]
        simp
      have hlen : (renderArr (x :: y :: ys)).length
          = (renderJ x).length + 1 + (renderArr (y :: ys)).length := by
        show (renderJ x ++ renderArrTail (y :: ys)).length = _
        rw [renderArrTail_cons]
        simp
        omega
      have hlx : (renderJ x).length < fuel := by omega
      rw [he, paStep, rtV x fuel (',' :: (renderArr (y :: ys) ++ ']' :: rest)) hc2.1 hlx (by rfl)]
      try dsimp only
      rw [dropWs_cons ',' _ (by decide)]
      rw [paComma]
      have hy : renderArr (y :: ys) ++ ']' :: rest = renderJ y ++ (renderArrTail ys ++ ']' :: rest) := by
        show (renderJ y ++ renderArrTail ys) ++ ']' :: rest = _
        simp
      rw [hy, dropWs_renderApp y (renderArrTail ys ++ ']' :: rest), ← hy]
      rw [rtA y ys fuel rest hc2.2 (by omega)]
  termination_by x xs _ _ _ _ => sizeOf x + sizeOf xs
theorem rtO : ∀ (kv : String × JVal) (ms : List (String × JVal)) (fuel : Nat) (rest : List Char),
    canonicalObjB (kv :: ms) = true → (renderObj (kv :: ms)).length + 1 < fuel →
    parseJObj fuel (renderObj (kv :: ms) ++ rbrace :: rest) = some (kv :: ms, rest)
  | (k, v), [], fuel, rest, hcan, hf => by
    match fuel, hf with
    | fuel + 1, hf =>
      have hcv : canonicalB v = true := by simpa [canonicalObjB] using hcan
      have he : renderObj ((k, v) :: []) ++ rbrace :: rest
          = '"' :: (k.toList.flatMap escPy ++ '"' :: (':' :: (renderJ v ++ rbrace :: rest))) := by
        show (quoteStr k ++ ':' :: (renderJ v ++ renderObjTail [])) ++ rbrace :: rest = _
        show (quoteStr k ++ ':' :: (renderJ v ++ [])) ++ rbrace :: rest = _
        rw [quoteStr]
        simp
      have hlv : (renderJ v).length < fuel := by
        have : (renderObj ((k, v) :: [])).length = (quoteStr k).length + 1 + (renderJ v).length := by
          show (quoteStr k ++ ':' :: (renderJ v ++ renderObjTail [])).length = _
          show (quoteStr k ++ ':' :: (renderJ v ++ [])).length = _
          simp
          omega
        omega
      rw [he, poStep, parseJStr_quote k (':' :: (renderJ v ++ rbrace :: rest))]
      try dsimp only
      rw [dropWs_cons ':' _ (by decide)]
      rw [poColon]
      rw [dropWs_renderApp v (rbrace :: rest), rtV v fuel (rbrace :: rest) hcv hlv (by rfl)]
      try dsimp only
      rw [dropWs_cons rbrace rest (by decide)]
      rw [poAfterRb]
  | (k, v), (k2, v2) :: ms2, fuel, rest, hcan, hf => by
    match fuel, hf with
    | fuel + 1, hf =>
      have hc2 := andE (by simpa [canonicalObjB] using hcan :
        (canonicalB v && canonicalObjB ((k2, v2) :: ms2)) = true)
      have he : renderObj ((k, v) :: (k2, v2) :: ms2) ++ rbrace :: rest
          = '"' :: (k.toList.flatMap escPy ++ '"' ::
              (':' :: (renderJ v ++ (',' :: (renderObj ((k2, v2) :: ms2) ++ rbrace :: rest))))) := by
        show (quoteStr k ++ ':' :: (renderJ v ++ renderObjTail ((k2, v2) :: ms2))) ++ rbrace :: rest = _
        rw [renderObjTail_cons, quoteStr]
        simp
      have hlen : (renderObj ((k, v) :: (k2, v2) :: ms2)).length
          = (quoteStr k).length + 1 + (renderJ v).length + 1 + (renderObj ((k2, v2) :: ms2)).length := by
        show (quoteStr k ++ ':' :: (renderJ v ++ renderObjTail ((k2, v2) :: ms2))).length = _
        rw [renderObjTail_cons]
        simp
        omega
      have hqk : 1 ≤ (quoteStr k).length := by
        rw [quoteStr]
        simp
      have hlv : (renderJ v).length < fuel := by omega
      rw [he, poStep, parseJStr_quote k _]
      try dsimp only
      rw [dropWs_cons ':' _ (by decide)]
      rw [poColon]
      rw [dropWs_renderApp v _, rtV v fuel _ hc2.1 hlv (by rfl)]
      try dsimp only
      rw [dropWs_cons ',' _ (by decide)]
      rw [poAfterComma]
      have hq2 : renderObj ((k2, v2) :: ms2) ++ rbrace :: rest
          = '"' :: ((k2.toList.flatMap escPy ++ ['"']) ++ (':' :: (renderJ v2 ++ renderObjTail ms2) ++ rbrace :: rest)) := by
        show (quoteStr k2 ++ ':' :: (renderJ v2 ++ renderObjTail ms2)) ++ rbrace :: rest = _
        rw [quoteStr]
        simp
      rw [hq2, dropWs_cons '"' _ (by decide), ← hq2]
      rw [rtO (k2, v2) ms2 fuel rest hc2.2 (by omega)]
  termination_by kv ms _ _ _ _ => sizeOf kv + sizeOf ms
end

theorem jsonLoads_render (v : JVal) (h : canonicalB v = true) :
    jsonLoads (renderJ v) = some v := by
  rw [jsonLoads]
  have hd : dropWs (renderJ v) = renderJ v := by
    have := dropWs_renderApp v []
    simpa using this
  simp only [hd]
  have hr : renderJ v ++ [] = renderJ v := by simp
  have := rtV v ((renderJ v).length + 1) [] h (by omega) (by rfl)
  rw [hr] at this
  rw [this]
  rfl

/-- C9: decoding the output of `canonical_json_bytes` yields an object
equal to the input, and `canonical_json_bytes` is a fixed point on its
own output: re-encoding whatever its output decodes to reproduces the
same bytes.  `canonicalB` is the canonical-document condition (objects
sorted by key at every level), matching the claim's "for every
canonical-JSON document". -/
theorem C9_canonical_json_roundtrip (v : JVal) (h : canonicalB v = true) :
    jsonLoadsBytes (canonical_json_bytes v) = some v ∧
    ∀ w, jsonLoadsBytes (canonical_json_bytes v) = some w →
      canonical_json_bytes w = canonical_json_bytes v := by
  have h1 : canonical_json_bytes v = utf8Encode (renderJ v) := by
    rw [canonical_json_bytes, sortAllJ_id v h]
  have h2 : jsonLoadsBytes (canonical_json_bytes v) = some v := by
    rw [h1, jsonLoadsBytes, utf8_roundtrip]
    show jsonLoads (renderJ v) = some v
    exact jsonLoads_render v h
  refine ⟨h2, fun w hw => ?_⟩
  rw [h2] at hw
  cases hw
  rfl

/-- C9 witness: the round-trip at a concrete two-key document. -/
theorem C9_canonical_json_roundtrip_witness :
    canonicalB (.jobj [("a", .jint 1), ("b", .jarr [.jnull, .jstr "x"])]) = true ∧
    (jsonLoadsBytes (canonical_json_bytes (.jobj [("a", .jint 1), ("b", .jarr [.jnull, .jstr "x"])]))
        = some (.jobj [("a", .jint 1), ("b", .jarr [.jnull, .jstr "x"])]) ∧
      ∀ w, jsonLoadsBytes (canonical_json_bytes (.jobj [("a", .jint 1), ("b", .jarr [.jnull, .jstr "x"])])) = some w →
        canonical_json_bytes w = canonical_json_bytes (.jobj [("a", .jint 1), ("b", .jarr [.jnull, .jstr "x"])])) :=
  ⟨rfl, C9_canonical_json_roundtrip _ rfl⟩

/-! ## Claim C10 -/
theorem seg_agree (d1 d2 : List Nat) (h : d1.take 56 = d2.take 56)
    (off len : Nat) (hb : off + len ≤ 56) :
    (d1.drop off).take len = (d2.drop off).take len := by
  have k1 : (d1.drop off).take len = ((d1.take 56).drop off).take len := by
    rw [List.drop_take]
    rw [List.take_take]
    congr 1
    omega
  have k2 : (d2.drop off).take len = ((d2.take 56).drop off).take len := by
    rw [List.drop_take]
    rw [List.take_take]
    congr 1
    omega
  rw [k1, k2, h]

/-- C10: `read_manifest_v0` fails exactly on the six header/manifest
conditions (short file, bad magic, bad version, manifest out of range,
manifest hash mismatch, manifest not a JSON object), and it never reads
the TOC: any file agreeing on the first 56 header bytes and on the
manifest region is accepted with the same manifest, whatever its TOC
header fields `[56,164)` and its bytes past the manifest (the TOC and
payload) contain. -/
theorem C10_read_manifest_toc_blind (sha : List Nat → List Nat) :
    (∀ data : List Nat,
      (∃ e, read_manifest_v0 sha data = .error e) ↔
        (data.length < 164 ∨ data.take 8 ≠ pkgMagic ∨
          leNat ((data.drop 8).take 2) ≠ 0 ∨
          data.length < 164 + manLen data ∨
          sha ((data.drop 164).take (manLen data)) ≠ (data.drop 24).take 32 ∨
          ∀ ms, (utf8Decode ((data.drop 164).take (manLen data))).bind jsonLoads ≠ some (.jobj ms))) ∧
    (∀ d1 d2 : List Nat, ∀ m,
      read_manifest_v0 sha d1 = .ok m →
      d1.take 56 = d2.take 56 →
      (d1.drop 164).take (manLen d1) = (d2.drop 164).take (manLen d1) →
      164 + manLen d1 ≤ d2.length →
      read_manifest_v0 sha d2 = .ok m) := by
  constructor
  · intro data
    rw [read_manifest_v0]
    by_cases h1 : data.length < 164
    · simp [h1]
    · rw [if_neg h1]
      by_cases h2 : data.take 8 ≠ pkgMagic
      · simp [h1, h2]
      · rw [if_neg h2]
        by_cases h3 : leNat ((data.drop 8).take 2) ≠ 0
        · simp [h1, h2, h3]
        · rw [if_neg h3]
          by_cases h4 : data.length < 164 + manLen data
          · simp [h1, h2, h3, h4]
          · rw [if_neg h4]
            by_cases h5 : sha ((data.drop 164).take (manLen data)) ≠ (data.drop 24).take 32
            · simp [h1, h2, h3, h4, h5]
            · rw [if_neg h5]
              rcases hj : (utf8Decode ((data.drop 164).take (manLen data))).bind jsonLoads with _ | w
              · simp [h1, h2, h3, h4, h5, hj]
              · cases w with
                | jobj ms => simp [h1, h2, h3, h4, h5, hj]
                | jnull => simp [h1, h2, h3, h4, h5, hj]
                | jbool b => simp [h1, h2, h3, h4, h5, hj]
                | jint i => simp [h1, h2, h3, h4, h5, hj]
                | jstr s => simp [h1, h2, h3, h4, h5, hj]
                | jarr xs => simp [h1, h2, h3, h4, h5, hj]
  · intro d1 d2 m hok hhead hman hlen
    have e8 : d2.take 8 = d1.take 8 := (seg_agree d2 d1 hhead.symm 0 8 (by omega))
    have e2 : (d2.drop 8).take 2 = (d1.drop 8).take 2 := seg_agree d2 d1 hhead.symm 8 2 (by omega)
    have eL : manLen d2 = manLen d1 := by
      rw [manLen, manLen, seg_agree d2 d1 hhead.symm 16 8 (by omega)]
    have eS : (d2.drop 24).take 32 = (d1.drop 24).take 32 := seg_agree d2 d1 hhead.symm 24 32 (by omega)
    rw [read_manifest_v0] at hok
    by_cases h1 : d1.length < 164
    · rw [if_pos h1] at hok
      cases hok
    · rw [if_neg h1] at hok
      by_cases h2 : d1.take 8 ≠ pkgMagic
      · rw [if_pos h2] at hok
        cases hok
      · rw [if_neg h2] at hok
        by_cases h3 : leNat ((d1.drop 8).take 2) ≠ 0
        · rw [if_pos h3] at hok
          cases hok
        · rw [if_neg h3] at hok
          by_cases h4 : d1.length < 164 + manLen d1
          · rw [if_pos h4] at hok
            cases hok
          · rw [if_neg h4] at hok
            by_cases h5 : sha ((d1.drop 164).take (manLen d1)) ≠ (d1.drop 24).take 32
            · rw [if_pos h5] at hok
              cases hok
            · rw [if_neg h5] at hok
              rw [read_manifest_v0]
              rw [if_neg (by omega), if_neg (by rw [e8]; exact h2), if_neg (by rw [e2]; exact h3),
                if_neg (by rw [eL]; omega), if_neg (by rw [eL, ← hman, eS]; exact h5)]
              rw [eL, ← hman]
              exact hok

set_option maxRecDepth 4096 in
/-- C10 witness: a corrupted-TOC package is still accepted, via the
insensitivity half of the claim theorem applied at concrete bytes. -/
theorem C10_read_manifest_toc_blind_witness :
    read_manifest_v0 shaZero c10pkg = .ok [] ∧
    read_manifest_v0 shaZero c10pkg2 = .ok [] :=
  ⟨rfl, (C10_read_manifest_toc_blind shaZero).2 c10pkg c10pkg2 [] rfl rfl rfl (by decide)⟩

theorem selectCands_none_single (pid : String) (c : Cand) :
    selectCands none [(pid, [c])] = .ok [(pid, c)] := by
  simp [selectCands, selectOne, candMin, candMinFold]

theorem append_sig_ne (s : String) : s ++ ".sig" ≠ s := by
  intro h
  have hl := congrArg String.length h
  rw [String.length_append] at hl
  have h4 : (".sig" : String).length = 4 := rfl
  omega

theorem fetch_tamper_run (shaB : List Nat → List Nat) (sha256hex : List Nat → String)
    (cd sid repoPath pid : String) (prio : Int) (rec : PkgRec) (bytes : List Nat)
    (ident : PackageIdentity)
    (hv : rec.package_version ≠ "") (ht : rec.target ≠ "") (hf : rec.filename ≠ "")
    (hs : rec.sha256 ≠ "")
    (hident : read_identity_v0 shaB bytes = .ok ident)
    (hip : ident.package_id = pid) (hiv : ident.package_version = rec.package_version)
    (hit : ident.target = rec.target)
    (htam : rec.sha256 ≠ "sha256:" ++ sha256hex bytes) :
    fetch_v0 shaB sha256hex
      { cacheDir := cd,
        sources := [⟨sid, prio, repoPath⟩],
        lock := none,
        repoIndex := fun p => if p = repoPath then [(pid, rec)] else [],
        repoFile := fun p f => if p = repoPath ∧ f = rec.filename then some bytes
                               else none,
        cacheIndex := [] } false
    = ({ cachePkgs := [(rec.filename, bytes)], cacheSigs := [], savedIndex := none },
        some ("sha256 mismatch for fetched package " ++ (cd ++ "/pkgs/" ++ rec.filename)
          ++ ": expected " ++ rec.sha256 ++ " from " ++ (repoPath ++ "/index.json")
          ++ ", got " ++ ("sha256:" ++ sha256hex bytes))) := by
  simp only [fetch_v0, sortSrc, insSrc, checkDupIds, collectCands, collectFromSource,
    addCand, selectCands_none_single, sortSel, insSel, fetchLoop, fetchOne,
    upsert_entry, assocGet, assocHas, assocSet, List.contains, List.elem, emptyFetchState,
    hident, hv, ht, hf, hs, hip, hiv, hit, htam,
    if_pos, ite_true, ite_false, eq_self_iff_true, ne_eq, not_false_eq_true, and_true,
    true_and, or_false, false_or, if_neg, not_true, not_false_iff, and_self,
    Bool.false_eq_true, Bool.true_eq_false, reduceIte, reduceCtorEq]
  rw [if_neg (append_sig_ne rec.filename)]

theorem fetch_lock_pkg_sha_run (shaB : List Nat → List Nat) (sha256hex : List Nat → String)
    (cd sid repoPath pid : String) (prio : Int) (rec : PkgRec) (lrec : LockRec)
    (hpid : pid ≠ "")
    (hv : rec.package_version ≠ "") (ht : rec.target ≠ "") (hf : rec.filename ≠ "")
    (hs : rec.sha256 ≠ "")
    (hlv : lrec.version = rec.package_version) (hltg : lrec.target = rec.target)
    (hpref : pyStartswith "sha256:" lrec.pkg_sha256 = true)
    (hsid : lrec.source_id = sid) (hsne : sid ≠ "") (hsnu : sid ≠ "unknown")
    (hlp : lrec.path ≠ "")
    (hmis : lrec.pkg_sha256 ≠ rec.sha256) :
    fetch_v0 shaB sha256hex
      { cacheDir := cd,
        sources := [⟨sid, prio, repoPath⟩],
        lock := some [(pid, lrec)],
        repoIndex := fun p => if p = repoPath then [(pid, rec)] else [],
        repoFile := fun _ _ => none,
        cacheIndex := [] } false
    = ({ cachePkgs := [], cacheSigs := [], savedIndex := none },
        some ("sha256 mismatch for package_id '" ++ pid ++ "' vs lock in source "
          ++ (repoPath ++ "/index.json"))) := by
  simp only [fetch_v0, lockValidate, sortSrc, insSrc, checkDupIds, collectCands,
    collectFromSource, addCand, selectCands, selectOne, candMin, candMinFold,
    sortSel, insSel, fetchLoop, fetchOne,
    upsert_entry, assocGet, assocHas, assocSet, List.contains, List.elem, emptyFetchState,
    List.filter,
    hpid, hv, ht, hf, hs, hlv, hltg, hpref, hsid, hsne, hsnu, hlp, hmis,
    if_pos, ite_true, ite_false, eq_self_iff_true, ne_eq, not_false_eq_true, and_true,
    true_and, or_false, false_or, if_neg, not_true, not_false_iff, and_self, or_self,
    Bool.false_eq_true, Bool.true_eq_false, reduceIte, reduceCtorEq,
    Bool.not_true, Bool.not_false, decide_eq_true_eq, decide_True, decide_False]

theorem fetch_lock_sig_sha_run (shaB : List Nat → List Nat) (sha256hex : List Nat → String)
    (cd sid repoPath pid : String) (prio : Int) (rec : PkgRec) (lrec : LockRec)
    (bytes sigBytes : List Nat) (ident : PackageIdentity) (s : String)
    (hpid : pid ≠ "")
    (hv : rec.package_version ≠ "") (ht : rec.target ≠ "") (hf : rec.filename ≠ "")
    (hs : rec.sha256 ≠ "")
    (hlv : lrec.version = rec.package_version) (hltg : lrec.target = rec.target)
    (hpref : pyStartswith "sha256:" rec.sha256 = true)
    (hlsha : lrec.pkg_sha256 = rec.sha256)
    (hsid : lrec.source_id = sid) (hsne : sid ≠ "") (hsnu : sid ≠ "unknown")
    (hlp : lrec.path = rec.filename)
    (hlsig : lrec.sig_sha256 = some s) (hsnz : s ≠ "")
    (hident : read_identity_v0 shaB bytes = .ok ident)
    (hip : ident.package_id = pid) (hiv : ident.package_version = rec.package_version)
    (hit : ident.target = rec.target)
    (hsmis : s ≠ "sha256:" ++ sha256hex sigBytes) :
    fetch_v0 shaB sha256hex
      { cacheDir := cd,
        sources := [⟨sid, prio, repoPath⟩],
        lock := some [(pid, lrec)],
        repoIndex := fun p => if p = repoPath then [(pid, rec)] else [],
        repoFile := fun p f => if p = repoPath ∧ f = rec.filename then some bytes
                               else if p = repoPath ∧ f = rec.filename ++ ".sig" then some sigBytes
                               else none,
        cacheIndex := [] } false
    = ({ cachePkgs := [(rec.filename, bytes)],
         cacheSigs := [(rec.filename ++ ".sig", sigBytes)], savedIndex := none },
        some ("sig sha256 mismatch for fetched package " ++ (cd ++ "/pkgs/" ++ rec.filename))) := by
  simp only [fetch_v0, lockValidate, sortSrc, insSrc, checkDupIds, collectCands,
    collectFromSource, addCand, selectCands, selectOne, candMin, candMinFold,
    sortSel, insSel, fetchLoop, fetchOne,
    upsert_entry, assocGet, assocHas, assocSet, List.contains, List.elem, emptyFetchState,
    List.filter,
    hpid, hv, ht, hf, hs, hlv, hltg, hpref, hlsha, hsid, hsne, hsnu, hlp, hlsig, hsnz,
    hident, hip, hiv, hit, hsmis,
    if_pos, ite_true, ite_false, eq_self_iff_true, ne_eq, not_false_eq_true, and_true,
    true_and, or_false, false_or, if_neg, not_true, not_false_iff, and_self, or_self,
    Bool.false_eq_true, Bool.true_eq_false, reduceIte, reduceCtorEq,
    Bool.not_true, Bool.not_false, decide_eq_true_eq, decide_True, decide_False]
  rw [if_neg (append_sig_ne rec.filename)]
  try dsimp only
  rw [if_pos hsmis]

theorem srcLe_of_lex (i1 i2 r1 r2 : String) (p1 p2 : Int)
    (h : p1 < p2 ∨ (p1 = p2 ∧ keyLtB i1 i2 = true)) :
    srcLe ⟨i1, p1, r1⟩ ⟨i2, p2, r2⟩ = true := by
  rcases h with h | ⟨he, hk⟩
  · simp [srcLe, h]
  · simp [srcLe, he, keyLtB_asymm _ _ hk]

theorem candLt_eq_false (p1 p2 : Int) (i1 i2 r1 r2 : String) (e1 e2 : IndexEntry)
    (h : p2 < p1 ∨ (p2 = p1 ∧ keyLtB i2 i1 = true)) :
    candLt ⟨p1, i1, r1, e1⟩ ⟨p2, i2, r2, e2⟩ = false := by
  rcases h with h | ⟨he, hk⟩
  · have h1 : ¬(p1 < p2) := by omega
    have h2 : ¬(p1 = p2) := by omega
    simp [candLt, h1, h2]
  · have h1 : ¬(p1 < p2) := by omega
    simp [candLt, h1, he, keyLtB_asymm _ _ hk]

theorem fetch_two_sources_run (shaB : List Nat → List Nat) (sha256hex : List Nat → String)
    (cd pid : String) (sid1 sid2 path1 path2 : String) (prio1 prio2 : Int)
    (rec1 rec2 : PkgRec) (bytes : List Nat) (ident : PackageIdentity)
    (hpp : path1 ≠ path2) (hss : sid1 ≠ sid2)
    (hlex : prio2 < prio1 ∨ (prio2 = prio1 ∧ keyLtB sid2 sid1 = true))
    (hv1 : rec1.package_version ≠ "") (ht1 : rec1.target ≠ "") (hf1 : rec1.filename ≠ "")
    (hs1 : rec1.sha256 ≠ "")
    (hv2 : rec2.package_version ≠ "") (ht2 : rec2.target ≠ "") (hf2 : rec2.filename ≠ "")
    (hs2 : rec2.sha256 ≠ "")
    (hsne2 : sid2 ≠ "")
    (hident : read_identity_v0 shaB bytes = .ok ident)
    (hip : ident.package_id = pid) (hiv : ident.package_version = rec2.package_version)
    (hit : ident.target = rec2.target)
    (hsha : rec2.sha256 = "sha256:" ++ sha256hex bytes) :
    fetch_v0 shaB sha256hex
      { cacheDir := cd,
        sources := [⟨sid1, prio1, path1⟩, ⟨sid2, prio2, path2⟩],
        lock := none,
        repoIndex := fun p => if p = path1 then [(pid, rec1)]
                              else if p = path2 then [(pid, rec2)] else [],
        repoFile := fun p f => if p = path2 ∧ f = rec2.filename then some bytes else none,
        cacheIndex := [] } false
    = ({ cachePkgs := [(rec2.filename, bytes)], cacheSigs := [],
         savedIndex := some [(pid,
           { package_version := rec2.package_version, target := rec2.target,
             sha256 := rec2.sha256, filename := rec2.filename,
             signers := sortedSet rec2.signers, unsigned := rec2.unsigned,
             source_id := some sid2, path := some rec2.filename })] },
        none) := by
  have hsle : srcLe ⟨sid2, prio2, path2⟩ ⟨sid1, prio1, path1⟩ = true :=
    srcLe_of_lex sid2 sid1 path2 path1 prio2 prio1 hlex
  have hbe : (sid1 == sid2) = false := by simp [hss]
  have hpp2 : path2 ≠ path1 := fun hq => hpp hq.symm
  have hclt : candLt
      ⟨prio1, sid1, path1,
        { package_id := pid, package_version := rec1.package_version, target := rec1.target,
          sha256 := rec1.sha256, filename := rec1.filename, signers := rec1.signers,
          unsigned := rec1.unsigned, source_id := some sid1, path := some rec1.filename }⟩
      ⟨prio2, sid2, path2,
        { package_id := pid, package_version := rec2.package_version, target := rec2.target,
          sha256 := rec2.sha256, filename := rec2.filename, signers := rec2.signers,
          unsigned := rec2.unsigned, source_id := some sid2, path := some rec2.filename }⟩ = false :=
    candLt_eq_false _ _ _ _ _ _ _ _ hlex
  simp only [hbe, hpp2, hclt, List.cons_append, List.nil_append,
fetch_v0, sortSrc, insSrc, checkDupIds, collectCands,
    collectFromSource, addCand, selectCands, selectOne, candMin, candMinFold,
    sortSel, insSel, fetchLoop, fetchOne,
    upsert_entry, assocGet, assocHas, assocSet, List.contains, List.elem, emptyFetchState,
    List.filter, sortedSet, hsle,
    hpp, hss, hv1, ht1, hf1, hs1, hv2, ht2, hf2, hs2, hsne2,
    hident, hip, hiv, hit,
    if_pos, ite_true, ite_false, eq_self_iff_true, ne_eq, not_false_eq_true, and_true,
    true_and, or_false, false_or, if_neg, not_true, not_false_iff, and_self, or_self,
    Bool.false_eq_true, Bool.true_eq_false, reduceIte, reduceCtorEq,
    Bool.not_true, Bool.not_false, decide_eq_true_eq, decide_True, decide_False]
  rw [if_neg (append_sig_ne rec2.filename)]
  try dsimp only
  rw [if_neg (not_not_intro hsha)]

theorem hasSubstr_of (sub pre post : String) : hasSubstr sub (pre ++ (sub ++ post)) :=
  ⟨pre, post, rfl⟩

theorem mem_assocSet {α : Type} (m : List (String × α)) (k : String) (v : α)
    (x : String × α) (h : x ∈ assocSet m k v) : x = (k, v) ∨ x ∈ m := by
  induction m with
  | nil =>
    rw [assocSet] at h
    rcases List.mem_singleton.mp h with h2
    exact Or.inl h2
  | cons p r ih =>
    rw [assocSet] at h
    by_cases h1 : p.1 = k
    · rw [if_pos h1] at h
      rcases List.mem_cons.mp h with h2 | h2
      · exact Or.inl (h1 ▸ h2)
      · exact Or.inr (List.mem_cons_of_mem _ h2)
    · rw [if_neg h1] at h
      rcases List.mem_cons.mp h with h2 | h2
      · exact Or.inr (h2 ▸ List.mem_cons_self _ _)
      · rcases ih h2 with h3 | h3
        · exact Or.inl h3
        · exact Or.inr (List.mem_cons_of_mem _ h3)

/-- A successful `fetchOne` reads the candidate's file, writes exactly
that file into the cache, and has passed the post-copy hash check: the
bytes hash to the index entry's `sha256`. -/
theorem fetchOne_ok_sha (shaB : List Nat → List Nat) (sha256hex : List Nat → String)
    (env : FetchEnv) (force : Bool) (pid : String) (cand : Cand) (st : FetchState)
    (merged : List (String × PkgRec)) (st2 : FetchState) (merged2 : List (String × PkgRec))
    (h : fetchOne shaB sha256hex env force pid cand st merged = (st2, .ok merged2)) :
    ∃ bytes, env.repoFile cand.repo cand.entry.filename = some bytes ∧
      st2.cachePkgs = assocSet st.cachePkgs cand.entry.filename bytes ∧
      cand.entry.sha256 = "sha256:" ++ sha256hex bytes := by
  rw [fetchOne] at h
  dsimp only at h
  split at h
  · cases h
  · rcases hrf : env.repoFile cand.repo cand.entry.filename with _ | bytes
    · rw [hrf] at h
      cases h
    · rw [hrf] at h
      dsimp only at h
      rcases hid : read_identity_v0 shaB bytes with er | ident
      · rw [hid] at h
        cases h
      · rw [hid] at h
        dsimp only at h
        split at h
        · cases h
        · split at h
          · rename_i st3 e hsig
            cases h
          · rename_i st3 hsig
            split at h
            · cases h
            · rename_i hsha
              split at h
              · cases h
              · rename_i m2 hup
                cases h
                refine ⟨bytes, rfl, ?_, ?_⟩
                · repeat' split at hsig
                  all_goals first
                    | (cases hsig; rfl)
                    | cases hsig
                · exact not_not.mp hsha

/-- Files a successful loop adds to the cache all hash to the `sha256`
of the selected index entry they were fetched for. -/
theorem fetchLoop_ok_sha (shaB : List Nat → List Nat) (sha256hex : List Nat → String)
    (env : FetchEnv) (force : Bool) :
    ∀ (items : List (String × Cand)) (st : FetchState) (merged : List (String × PkgRec))
      (st2 : FetchState) (merged2 : List (String × PkgRec)),
    fetchLoop shaB sha256hex env force items st merged = (st2, .ok merged2) →
    ∀ fb ∈ st2.cachePkgs, fb ∈ st.cachePkgs ∨
      ∃ pc, pc ∈ items ∧ (pc : String × Cand).2.entry.filename = fb.1 ∧
        pc.2.entry.sha256 = "sha256:" ++ sha256hex fb.2 := by
  intro items
  induction items with
  | nil =>
    intro st merged st2 merged2 h fb hfb
    rw [fetchLoop] at h
    cases h
    exact Or.inl hfb
  | cons pc0 rest ih =>
    intro st merged st2 merged2 h fb hfb
    obtain ⟨pid0, cand0⟩ := pc0
    rw [fetchLoop] at h
    rcases h1 : fetchOne shaB sha256hex env force pid0 cand0 st merged with ⟨stm, res⟩
    rw [h1] at h
    cases res with
    | error e =>
      dsimp only at h
      cases h
    | ok merged1 =>
      dsimp only at h
      obtain ⟨bytes, _, hcp, hsha⟩ :=
        fetchOne_ok_sha shaB sha256hex env force pid0 cand0 st merged stm merged1 h1
      rcases ih stm merged1 st2 merged2 h fb hfb with h2 | ⟨pc, hpc, hf1, hf2⟩
      · rw [hcp] at h2
        rcases mem_assocSet _ _ _ _ h2 with h3 | h3
        · refine Or.inr ⟨(pid0, cand0), List.mem_cons_self _ _, ?_, ?_⟩
          · rw [h3]
          · rw [h3]
            exact hsha
        · exact Or.inl h3
      · exact Or.inr ⟨pc, List.mem_cons_of_mem _ hpc, hf1, hf2⟩

/-- Any file present in the cache after a successful `fetch_v0` run was
fetched for a candidate selected from the collected sources, and its
bytes hash to that candidate's index-entry `sha256`. -/
theorem fetch_v0_ok_sha (shaB : List Nat → List Nat) (sha256hex : List Nat → String)
    (env : FetchEnv) (force : Bool) (st : FetchState)
    (h : fetch_v0 shaB sha256hex env force = (st, none)) :
    ∀ fb ∈ st.cachePkgs,
      ∃ cands sel pc,
        collectCands env (sortSrc env.sources) [] = .ok cands ∧
        selectCands env.lock cands = .ok sel ∧
        pc ∈ sortSel sel ∧
        (pc : String × Cand).2.entry.filename = fb.1 ∧
        pc.2.entry.sha256 = "sha256:" ++ sha256hex fb.2 := by
  intro fb hfb
  rw [fetch_v0] at h
  dsimp only at h
  split at h
  · cases h
  · split at h
    · cases h
    · split at h
      · cases h
      · rename_i cands hcands
        split at h
        · cases h
        · rename_i sel hsel
          split at h
          · cases h
          · rename_i st0 merged hloop
            have hfb0 : fb ∈ st0.cachePkgs := by
              split at h
              · cases h
                exact hfb
              · split at h
                · cases h
                  exact hfb
                · cases h
            rcases fetchLoop_ok_sha shaB sha256hex env force (sortSel sel)
                emptyFetchState env.cacheIndex st0 merged hloop fb hfb0 with
              hemp | ⟨pc, hpc, hfn, hsha⟩
            · cases hemp
            · exact ⟨cands, sel, pc, hcands, hsel, hpc, hfn, hsha⟩

/-- C1: `fetch_v0` verifies the bytes it copied against the source
index entry's SHA-256, and, when a lockfile pins the package, against
the lock's `pkg_sha256` and `sig_sha256`; each disagreement raises an
error whose message contains "sha256 mismatch".  Conjunct one is the
tampered-repository scenario (package file changed, index entry
unchanged), conjunct two a lock `pkg_sha256` that disagrees with the
index entry, conjunct three a pinned `sig_sha256` that disagrees with
the fetched sidecar bytes.  Conjunct four is the positive guarantee:
after any successful run, every file in the cache was fetched for a
selected candidate and its bytes hash to that candidate's index-entry
`sha256`. -/
theorem C1_fetch_sha256_mismatch_errors :
    (∀ (shaB : List Nat → List Nat) (sha256hex : List Nat → String)
       (cd sid repoPath pid : String) (prio : Int) (rec : PkgRec) (bytes : List Nat)
       (ident : PackageIdentity),
       rec.package_version ≠ "" → rec.target ≠ "" → rec.filename ≠ "" → rec.sha256 ≠ "" →
       read_identity_v0 shaB bytes = .ok ident →
       ident.package_id = pid → ident.package_version = rec.package_version →
       ident.target = rec.target →
       rec.sha256 ≠ "sha256:" ++ sha256hex bytes →
       ∃ msg, (fetch_v0 shaB sha256hex
         { cacheDir := cd,
           sources := [⟨sid, prio, repoPath⟩],
           lock := none,
           repoIndex := fun p => if p = repoPath then [(pid, rec)] else [],
           repoFile := fun p f => if p = repoPath ∧ f = rec.filename then some bytes
                                  else none,
           cacheIndex := [] } false).2 = some msg ∧ hasSubstr "sha256 mismatch" msg)
  ∧ (∀ (shaB : List Nat → List Nat) (sha256hex : List Nat → String)
       (cd sid repoPath pid : String) (prio : Int) (rec : PkgRec) (lrec : LockRec),
       pid ≠ "" →
       rec.package_version ≠ "" → rec.target ≠ "" → rec.filename ≠ "" → rec.sha256 ≠ "" →
       lrec.version = rec.package_version → lrec.target = rec.target →
       pyStartswith "sha256:" lrec.pkg_sha256 = true →
       lrec.source_id = sid → sid ≠ "" → sid ≠ "unknown" →
       lrec.path ≠ "" →
       lrec.pkg_sha256 ≠ rec.sha256 →
       ∃ msg, (fetch_v0 shaB sha256hex
         { cacheDir := cd,
           sources := [⟨sid, prio, repoPath⟩],
           lock := some [(pid, lrec)],
           repoIndex := fun p => if p = repoPath then [(pid, rec)] else [],
           repoFile := fun _ _ => none,
           cacheIndex := [] } false).2 = some msg ∧ hasSubstr "sha256 mismatch" msg)
  ∧ (∀ (shaB : List Nat → List Nat) (sha256hex : List Nat → String)
       (cd sid repoPath pid : String) (prio : Int) (rec : PkgRec) (lrec : LockRec)
       (bytes sigBytes : List Nat) (ident : PackageIdentity) (s : String),
       pid ≠ "" →
       rec.package_version ≠ "" → rec.target ≠ "" → rec.filename ≠ "" → rec.sha256 ≠ "" →
       lrec.version = rec.package_version → lrec.target = rec.target →
       pyStartswith "sha256:" rec.sha256 = true →
       lrec.pkg_sha256 = rec.sha256 →
       lrec.source_id = sid → sid ≠ "" → sid ≠ "unknown" →
       lrec.path = rec.filename →
       lrec.sig_sha256 = some s → s ≠ "" →
       read_identity_v0 shaB bytes = .ok ident →
       ident.package_id = pid → ident.package_version = rec.package_version →
       ident.target = rec.target →
       s ≠ "sha256:" ++ sha256hex sigBytes →
       ∃ msg, (fetch_v0 shaB sha256hex
         { cacheDir := cd,
           sources := [⟨sid, prio, repoPath⟩],
           lock := some [(pid, lrec)],
           repoIndex := fun p => if p = repoPath then [(pid, rec)] else [],
           repoFile := fun p f => if p = repoPath ∧ f = rec.filename then some bytes
                                  else if p = repoPath ∧ f = rec.filename ++ ".sig" then some sigBytes
                                  else none,
           cacheIndex := [] } false).2 = some msg ∧ hasSubstr "sha256 mismatch" msg)
  ∧ (∀ (shaB : List Nat → List Nat) (sha256hex : List Nat → String) (env : FetchEnv)
       (force : Bool) (st : FetchState),
       fetch_v0 shaB sha256hex env force = (st, none) →
       ∀ fb ∈ st.cachePkgs,
         ∃ cands sel pc,
           collectCands env (sortSrc env.sources) [] = .ok cands ∧
           selectCands env.lock cands = .ok sel ∧
           pc ∈ sortSel sel ∧
           (pc : String × Cand).2.entry.filename = fb.1 ∧
           pc.2.entry.sha256 = "sha256:" ++ sha256hex fb.2) := by
  refine ⟨?_, ?_, ?_, ?_⟩
  · intro shaB sha256hex cd sid repoPath pid prio rec bytes ident hv ht hf hs hident hip hiv hit htam
    refine ⟨"sha256 mismatch for fetched package " ++ (cd ++ "/pkgs/" ++ rec.filename)
      ++ ": expected " ++ rec.sha256 ++ " from " ++ (repoPath ++ "/index.json")
      ++ ", got " ++ ("sha256:" ++ sha256hex bytes), ?_, ?_⟩
    · rw [fetch_tamper_run shaB sha256hex cd sid repoPath pid prio rec bytes ident
        hv ht hf hs hident hip hiv hit htam]
    · exact hasSubstr_of "sha256 mismatch" ""
        (" for fetched package " ++ ((cd ++ "/pkgs/" ++ rec.filename) ++ ": expected "
          ++ rec.sha256 ++ " from " ++ (repoPath ++ "/index.json") ++ ", got "
          ++ ("sha256:" ++ sha256hex bytes)))
  · intro shaB sha256hex cd sid repoPath pid prio rec lrec hpid hv ht hf hs hlv hltg hpref
      hsid hsne hsnu hlp hmis
    refine ⟨"sha256 mismatch for package_id '" ++ pid ++ "' vs lock in source "
      ++ (repoPath ++ "/index.json"), ?_, ?_⟩
    · rw [fetch_lock_pkg_sha_run shaB sha256hex cd sid repoPath pid prio rec lrec
        hpid hv ht hf hs hlv hltg hpref hsid hsne hsnu hlp hmis]
    · exact hasSubstr_of "sha256 mismatch" ""
        (" for package_id '" ++ ((pid ++ "' vs lock in source ") ++ (repoPath ++ "/index.json")))
  · intro shaB sha256hex cd sid repoPath pid prio rec lrec bytes sigBytes ident s hpid hv ht hf hs
      hlv hltg hpref hlsha hsid hsne hsnu hlp hlsig hsnz hident hip hiv hit hsmis
    refine ⟨"sig sha256 mismatch for fetched package " ++ (cd ++ "/pkgs/" ++ rec.filename),
      ?_, ?_⟩
    · rw [fetch_lock_sig_sha_run shaB sha256hex cd sid repoPath pid prio rec lrec
        bytes sigBytes ident s hpid hv ht hf hs hlv hltg hpref hlsha hsid hsne hsnu hlp
        hlsig hsnz hident hip hiv hit hsmis]
    · exact hasSubstr_of "sha256 mismatch" "sig "
        (" for fetched package " ++ (cd ++ "/pkgs/" ++ rec.filename))
  · exact fun shaB sha256hex env force st h =>
      fetch_v0_ok_sha shaB sha256hex env force st h

/-- C2: with no lockfile and two configured sources both providing the
same package id — listed with the lexicographically lowest
`(priority, source_id)` pair second, so listing order cannot explain the
pick — `fetch_v0` caches that lowest source's bytes and records its
`source_id` in the saved cache index. -/
theorem C2_fetch_picks_lex_lowest_source (shaB : List Nat → List Nat)
    (sha256hex : List Nat → String)
    (cd pid : String) (sid1 sid2 path1 path2 : String) (prio1 prio2 : Int)
    (rec1 rec2 : PkgRec) (bytes : List Nat) (ident : PackageIdentity)
    (hpp : path1 ≠ path2) (hss : sid1 ≠ sid2)
    (hlex : prio2 < prio1 ∨ (prio2 = prio1 ∧ keyLtB sid2 sid1 = true))
    (hv1 : rec1.package_version ≠ "") (ht1 : rec1.target ≠ "") (hf1 : rec1.filename ≠ "")
    (hs1 : rec1.sha256 ≠ "")
    (hv2 : rec2.package_version ≠ "") (ht2 : rec2.target ≠ "") (hf2 : rec2.filename ≠ "")
    (hs2 : rec2.sha256 ≠ "")
    (hsne2 : sid2 ≠ "")
    (hident : read_identity_v0 shaB bytes = .ok ident)
    (hip : ident.package_id = pid) (hiv : ident.package_version = rec2.package_version)
    (hit : ident.target = rec2.target)
    (hsha : rec2.sha256 = "sha256:" ++ sha256hex bytes) :
    fetch_v0 shaB sha256hex
      { cacheDir := cd,
        sources := [⟨sid1, prio1, path1⟩, ⟨sid2, prio2, path2⟩],
        lock := none,
        repoIndex := fun p => if p = path1 then [(pid, rec1)]
                              else if p = path2 then [(pid, rec2)] else [],
        repoFile := fun p f => if p = path2 ∧ f = rec2.filename then some bytes else none,
        cacheIndex := [] } false
    = ({ cachePkgs := [(rec2.filename, bytes)], cacheSigs := [],
         savedIndex := some [(pid,
           { package_version := rec2.package_version, target := rec2.target,
             sha256 := rec2.sha256, filename := rec2.filename,
             signers := sortedSet rec2.signers, unsigned := rec2.unsigned,
             source_id := some sid2, path := some rec2.filename })] },
        none) :=
  fetch_two_sources_run shaB sha256hex cd pid sid1 sid2 path1 path2 prio1 prio2
    rec1 rec2 bytes ident hpp hss hlex hv1 ht1 hf1 hs1 hv2 ht2 hf2 hs2 hsne2
    hident hip hiv hit hsha

set_option maxRecDepth 8192 in
/-- C1 witness: the three mismatch scenarios at concrete inputs — a
tampered package under an unchanged index entry, a lock `pkg_sha256`
disagreeing with the index, and a pinned `sig_sha256` disagreeing with
the sidecar — plus the positive guarantee instantiated at a successful
run. -/
theorem C1_fetch_sha256_mismatch_errors_witness :
    (∃ msg, (fetch_v0 shaZero hexLen (envLib "sha256:bogus") false).2 = some msg ∧
      hasSubstr "sha256 mismatch" msg) ∧
    (∃ msg, (fetch_v0 shaZero hexLen envB false).2 = some msg ∧
      hasSubstr "sha256 mismatch" msg) ∧
    (∃ msg, (fetch_v0 shaZero hexLen envC false).2 = some msg ∧
      hasSubstr "sha256 mismatch" msg) ∧
    (∃ cands sel pc,
      collectCands (envLib "sha256:223") (sortSrc (envLib "sha256:223").sources) []
        = .ok cands ∧
      selectCands (envLib "sha256:223").lock cands = .ok sel ∧
      pc ∈ sortSel sel ∧
      (pc : String × Cand).2.entry.filename = ("lib-0.0.0-t.dmp", pkgLib).1 ∧
      pc.2.entry.sha256 = "sha256:" ++ hexLen ("lib-0.0.0-t.dmp", pkgLib).2) :=
  ⟨C1_fetch_sha256_mismatch_errors.1 shaZero hexLen "cache/driftpm" "repo" "repo" "lib" 0
      (recLib "sha256:bogus") pkgLib identLib
      (by decide) (by decide) (by decide) (by decide) rfl rfl rfl rfl (by decide),
   C1_fetch_sha256_mismatch_errors.2.1 shaZero hexLen "cache/driftpm" "repo" "repo" "lib" 0
      (recLib "sha256:22") lrecB
      (by decide) (by decide) (by decide) (by decide) (by decide) rfl rfl (by decide)
      rfl (by decide) (by decide) (by decide) (by decide),
   C1_fetch_sha256_mismatch_errors.2.2.1 shaZero hexLen "cache/driftpm" "repo" "repo" "lib" 0
      (recLib "sha256:aaaa") lrecC pkgLib [1, 2, 3] identLib "sha256:bad"
      (by decide) (by decide) (by decide) (by decide) (by decide) rfl rfl (by decide)
      rfl rfl (by decide) (by decide) rfl rfl (by decide) rfl rfl rfl rfl (by decide),
   C1_fetch_sha256_mismatch_errors.2.2.2 shaZero hexLen (envLib "sha256:223") false
      (fetch_v0 shaZero hexLen (envLib "sha256:223") false).1 rfl
      ("lib-0.0.0-t.dmp", pkgLib) (List.mem_singleton.mpr rfl)⟩

set_option maxRecDepth 8192 in
/-- C8 counterexample: fetching a tampered package fails with an error,
yet the package bytes copied into the cache by this failed run are still
there — `fetch_v0` copies with `shutil.copyfile` before hashing and
never uses a create-new-then-rename scheme. -/
theorem C8_counterexample :
    (fetch_v0 shaZero hexLen (envLib "sha256:bogus") false).2.isSome = true ∧
    (fetch_v0 shaZero hexLen (envLib "sha256:bogus") false).1.cachePkgs
      = [("lib-0.0.0-t.dmp", pkgLib)] :=
  ⟨rfl, rfl⟩

/-- C8 (amended): when the post-copy hash check fails, the failed
`fetch_v0` run errors but leaves the package file it copied in the
cache directory (and no cache index is saved): outputs are written
directly, not via create-new-file-then-atomic-rename. -/
theorem C8_failed_fetch_keeps_copied_file (shaB : List Nat → List Nat)
    (sha256hex : List Nat → String)
    (cd sid repoPath pid : String) (prio : Int) (rec : PkgRec) (bytes : List Nat)
    (ident : PackageIdentity)
    (hv : rec.package_version ≠ "") (ht : rec.target ≠ "") (hf : rec.filename ≠ "")
    (hs : rec.sha256 ≠ "")
    (hident : read_identity_v0 shaB bytes = .ok ident)
    (hip : ident.package_id = pid) (hiv : ident.package_version = rec.package_version)
    (hit : ident.target = rec.target)
    (htam : rec.sha256 ≠ "sha256:" ++ sha256hex bytes) :
    (fetch_v0 shaB sha256hex
      { cacheDir := cd,
        sources := [⟨sid, prio, repoPath⟩],
        lock := none,
        repoIndex := fun p => if p = repoPath then [(pid, rec)] else [],
        repoFile := fun p f => if p = repoPath ∧ f = rec.filename then some bytes
                               else none,
        cacheIndex := [] } false).1.cachePkgs = [(rec.filename, bytes)] ∧
    (fetch_v0 shaB sha256hex
      { cacheDir := cd,
        sources := [⟨sid, prio, repoPath⟩],
        lock := none,
        repoIndex := fun p => if p = repoPath then [(pid, rec)] else [],
        repoFile := fun p f => if p = repoPath ∧ f = rec.filename then some bytes
                               else none,
        cacheIndex := [] } false).1.savedIndex = none ∧
    (fetch_v0 shaB sha256hex
      { cacheDir := cd,
        sources := [⟨sid, prio, repoPath⟩],
        lock := none,
        repoIndex := fun p => if p = repoPath then [(pid, rec)] else [],
        repoFile := fun p f => if p = repoPath ∧ f = rec.filename then some bytes
                               else none,
        cacheIndex := [] } false).2 ≠ none := by
  rw [fetch_tamper_run shaB sha256hex cd sid repoPath pid prio rec bytes ident
    hv ht hf hs hident hip hiv hit htam]
  exact ⟨rfl, rfl, by simp⟩

set_option maxRecDepth 8192 in
/-- C8 amended-claim witness: the concrete tampered run, leaving the
copied package bytes behind. -/
theorem C8_failed_fetch_keeps_copied_file_witness :
    (fetch_v0 shaZero hexLen (envLib "sha256:bogus") false).1.cachePkgs
        = [((recLib "sha256:bogus").filename, pkgLib)] ∧
    (fetch_v0 shaZero hexLen (envLib "sha256:bogus") false).1.savedIndex = none ∧
    (fetch_v0 shaZero hexLen (envLib "sha256:bogus") false).2 ≠ none :=
  C8_failed_fetch_keeps_copied_file shaZero hexLen "cache/driftpm" "repo" "repo" "lib" 0
    (recLib "sha256:bogus") pkgLib identLib
    (by decide) (by decide) (by decide) (by decide) rfl rfl rfl rfl (by decide)

set_option maxRecDepth 8192 in
/-- C2 witness: two sources `b` and `a` with equal priority both provide
`lib`; the tie breaks to the lexicographically lower id `a` even though
`b` is listed first, and the saved cache index records `source_id = "a"`. -/
theorem C2_fetch_picks_lex_lowest_source_witness :
    fetch_v0 shaZero hexLen
      { cacheDir := "cache/driftpm",
        sources := [⟨"b", 0, "rb"⟩, ⟨"a", 0, "ra"⟩],
        lock := none,
        repoIndex := fun p => if p = "rb" then [("lib", recLib "sha256:zz")]
                              else if p = "ra" then [("lib", recLib "sha256:223")] else [],
        repoFile := fun p f => if p = "ra" ∧ f = (recLib "sha256:223").filename then some pkgLib
                               else none,
        cacheIndex := [] } false
    = ({ cachePkgs := [("lib-0.0.0-t.dmp", pkgLib)], cacheSigs := [],
         savedIndex := some [("lib",
           { package_version := "0.0.0", target := "t", sha256 := "sha256:223",
             filename := "lib-0.0.0-t.dmp", signers := [], unsigned := true,
             source_id := some "a", path := some "lib-0.0.0-t.dmp" })] },
        none) :=
  C2_fetch_picks_lex_lowest_source shaZero hexLen "cache/driftpm" "lib" "b" "a" "rb" "ra" 0 0
    (recLib "sha256:zz") (recLib "sha256:223") pkgLib identLib
    (by decide) (by decide) (Or.inr ⟨rfl, by decide⟩)
    (by decide) (by decide) (by decide) (by decide)
    (by decide) (by decide) (by decide) (by decide)
    (by decide) rfl rfl rfl rfl (by decide)

/-- C3: `sign_package_v0` either writes a fresh single-entry sidecar or
appends to an existing one; the append succeeds exactly when the stored
`package_sha256` equals the hash of the package bytes being signed. -/
theorem C3_sign_emit_or_append (sha256hex : List Nat → String)
    (mkEntry : List Nat → SigEntry) (pkg : List Nat) (add_signature : Bool)
    (existing : Option SigSidecar) :
    (∀ sc, existing = some sc → add_signature = true →
       (sc.package_sha256 = "sha256:" ++ sha256hex pkg →
          sign_package_v0 sha256hex mkEntry pkg add_signature existing
            = .ok { sc with signatures := sc.signatures ++ [mkEntry pkg] }) ∧
       (sc.package_sha256 ≠ "sha256:" ++ sha256hex pkg →
          ∃ e, sign_package_v0 sha256hex mkEntry pkg add_signature existing = .error e)) ∧
    (add_signature = false ∨ existing = none →
       sign_package_v0 sha256hex mkEntry pkg add_signature existing
         = .ok { package_sha256 := "sha256:" ++ sha256hex pkg,
                 signatures := [mkEntry pkg] }) := by
  constructor
  · intro sc hex hadd
    subst hex hadd
    constructor
    · intro hmatch
      simp [sign_package_v0, hmatch]
    · intro hmis
      refine ⟨"sidecar package_sha256 mismatch for " ++ sc.package_sha256
        ++ ": package bytes hash to " ++ ("sha256:" ++ sha256hex pkg), ?_⟩
      simp [sign_package_v0, hmis]
  · intro h
    rcases h with h | h
    · subst h
      cases existing <;> simp [sign_package_v0]
    · subst h
      cases add_signature <;> simp [sign_package_v0]

/-- C3 witness: a fresh write, a matching append and a mismatching
append at concrete inputs. -/
theorem C3_sign_emit_or_append_witness :
    (sign_package_v0 hexLen (fun _ => ⟨"ed25519", "k1", "s1", none⟩) [7, 7] true
        (some ⟨"sha256:2", [⟨"ed25519", "k0", "s0", none⟩]⟩)
      = .ok ⟨"sha256:2", [⟨"ed25519", "k0", "s0", none⟩, ⟨"ed25519", "k1", "s1", none⟩]⟩) ∧
    (∃ e, sign_package_v0 hexLen (fun _ => ⟨"ed25519", "k1", "s1", none⟩) [7, 7] true
        (some ⟨"sha256:9", []⟩) = .error e) ∧
    (sign_package_v0 hexLen (fun _ => ⟨"ed25519", "k1", "s1", none⟩) [7, 7] false
        (some ⟨"sha256:9", []⟩)
      = .ok ⟨"sha256:2", [⟨"ed25519", "k1", "s1", none⟩]⟩) :=
  ⟨((C3_sign_emit_or_append hexLen (fun _ => ⟨"ed25519", "k1", "s1", none⟩) [7, 7] true
      (some ⟨"sha256:2", [⟨"ed25519", "k0", "s0", none⟩]⟩)).1
      ⟨"sha256:2", [⟨"ed25519", "k0", "s0", none⟩]⟩ rfl rfl).1 (by decide),
   ((C3_sign_emit_or_append hexLen (fun _ => ⟨"ed25519", "k1", "s1", none⟩) [7, 7] true
      (some ⟨"sha256:9", []⟩)).1 ⟨"sha256:9", []⟩ rfl rfl).2 (by decide),
   (C3_sign_emit_or_append hexLen (fun _ => ⟨"ed25519", "k1", "s1", none⟩) [7, 7] false
      (some ⟨"sha256:9", []⟩)).2 (Or.inl rfl)⟩

/-- C7 counterexample: on a module with two type violations the checker
reports only the first (`1:1`) and aborts — the second statement is a
violation in its own right (it fails even alone), but the run's single
`CheckError` never mentions it. -/
theorem C7_counterexample :
    check_stmts c7prog [] = .error "1:1: Expected type Bool, got Int64" ∧
    check_stmt [] (.letStmt "y" false (some "Bool") (.lit (.vint 2) ⟨2, 1⟩) ⟨2, 1⟩)
      = .error "2:1: Expected type Bool, got Int64" :=
  ⟨rfl, rfl⟩

/-- C7 (amended): the legacy checker aborts at the first violation: when
every statement before `s` checks and `s` raises `CheckError e`, the
whole run reports exactly `e`, whatever violations the remaining
statements hold. -/
theorem C7_checker_aborts_at_first_violation (pre : List CStmt) (s : CStmt)
    (post : List CStmt) (vars vars2 : List (String × String)) (e : String)
    (hpre : check_stmts pre vars = .ok vars2)
    (hs : check_stmt vars2 s = .error e) :
    check_stmts (pre ++ s :: post) vars = .error e := by
  induction pre generalizing vars with
  | nil =>
    rw [check_stmts] at hpre
    cases hpre
    simp only [List.nil_append, check_stmts, hs]
  | cons p ps ih =>
    rw [check_stmts] at hpre
    rcases hp : check_stmt vars p with e0 | vars1
    · rw [hp] at hpre
      cases hpre
    · rw [hp] at hpre
      simp only [List.cons_append, check_stmts, hp]
      exact ih vars1 hpre

/-- C7 amended-claim witness: the two-violation module, via the
abort-at-first theorem with the second violation in the untouched
tail. -/
theorem C7_checker_aborts_at_first_violation_witness :
    check_stmts c7prog [] = .error "1:1: Expected type Bool, got Int64" :=
  C7_checker_aborts_at_first_violation []
    (.letStmt "x" false (some "Bool") (.lit (.vint 1) ⟨1, 1⟩) ⟨1, 1⟩)
    [.letStmt "y" false (some "Bool") (.lit (.vint 2) ⟨2, 1⟩) ⟨2, 1⟩]
    [] [] "1:1: Expected type Bool, got Int64" rfl rfl

/-- C4 counterexample: with SSA and a type environment supplied under
which the returned value has FnResult type, `run_throw_checks` still
fails with the structural check's error — the type-aware check (which
accepts, second conjunct) does not supersede it. -/
theorem C4_counterexample :
    run_throw_checks [("f", c4fn)] [("f", ⟨false, [], []⟩)] [("f", true)]
        (some [("f", ⟨c4fn, [], []⟩)]) (some c4tenv)
      = .error ("function f is declared can-throw but return in block entry "
        ++ "does not return a FnResult (no ConstructResultOk/Err defines r0)") ∧
    enforce_fnresult_returns_typeaware c4infos [("f", ⟨c4fn, [], []⟩)] c4tenv = .ok () :=
  ⟨rfl, rfl⟩

/-- C4 (amended): the structural FnResult return check runs
unconditionally in `run_throw_checks`: whenever the earlier invariants
pass and the structural check fails, the run fails with the structural
error for every supplied SSA map and type environment — the type-aware
check never supersedes it. -/
theorem C4_structural_check_not_superseded (funcs : List (String × MirFunc))
    (summaries : List (String × ThrowSummary)) (declared : List (String × Bool))
    (ssa_funcs : List (String × SsaFunc)) (tenv : TypeEnvM) (e : String)
    (h1 : enforce_can_throw_invariants (build_func_throw_info summaries declared) = .ok ())
    (h2 : enforce_return_shape_for_can_throw (build_func_throw_info summaries declared) funcs
      = .ok ())
    (h3 : enforce_fnresult_returns_for_can_throw (build_func_throw_info summaries declared) funcs
      = .error e) :
    run_throw_checks funcs summaries declared (some ssa_funcs) (some tenv) = .error e := by
  rw [run_throw_checks]
  simp only [h1, h2, h3]

/-- C4 amended-claim witness: the concrete one-function module, with the
invariant hypotheses discharged by evaluation. -/
theorem C4_structural_check_not_superseded_witness :
    run_throw_checks [("f", c4fn)] [("f", ⟨false, [], []⟩)] [("f", true)]
        (some [("f", ⟨c4fn, [], []⟩)]) (some c4tenv)
      = .error ("function f is declared can-throw but return in block entry "
        ++ "does not return a FnResult (no ConstructResultOk/Err defines r0)") :=
  C4_structural_check_not_superseded [("f", c4fn)] [("f", ⟨false, [], []⟩)] [("f", true)]
    [("f", ⟨c4fn, [], []⟩)] c4tenv
    ("function f is declared can-throw but return in block entry "
      ++ "does not return a FnResult (no ConstructResultOk/Err defines r0)")
    rfl rfl rfl

theorem assocHas_assocSet {α : Type} (m : List (String × α)) (k x : String) (v : α) :
    assocHas (assocSet m k v) x = (assocHas m x || decide (k = x)) := by
  induction m with
  | nil =>
    rw [assocSet]
    by_cases h : k = x <;> simp [assocHas, h]
  | cons p r ih =>
    obtain ⟨k0, v0⟩ := p
    rw [assocSet]
    by_cases h1 : k0 = k
    · rw [if_pos h1]
      by_cases h2 : k0 = x
      · simp [assocHas, h2]
      · have hkx : k ≠ x := fun hq => h2 (h1.trans hq)
        simp [assocHas, h2, hkx]
    · rw [if_neg h1]
      by_cases h2 : k0 = x
      · simp [assocHas, h2]
      · simp [assocHas, h2, ih]

theorem assocGet_assocSet_same {α : Type} (m : List (String × α)) (k : String) (v : α) :
    assocGet (assocSet m k v) k = some v := by
  induction m with
  | nil =>
    rw [assocSet]
    simp [assocGet]
  | cons p r ih =>
    obtain ⟨k0, v0⟩ := p
    rw [assocSet]
    by_cases h1 : k0 = k
    · rw [if_pos h1]
      simp [assocGet, h1]
    · rw [if_neg h1]
      simp [assocGet, h1, ih]

theorem assocGet_assocSet_other {α : Type} (m : List (String × α)) (k x : String) (v : α)
    (h : k ≠ x) : assocGet (assocSet m k v) x = assocGet m x := by
  induction m with
  | nil =>
    rw [assocSet]
    simp [assocGet, h]
  | cons p r ih =>
    obtain ⟨k0, v0⟩ := p
    rw [assocSet]
    by_cases h1 : k0 = k
    · rw [if_pos h1]
      have h2 : k0 ≠ x := fun hq => h (h1 ▸ hq)
      simp [assocGet, h2]
    · rw [if_neg h1]
      simp [assocGet, ih]

/-- The loop succeeds exactly on load-safe instruction sequences. -/
theorem ssaLoop_ok_iff (insts : List MInstr) (version : List (String × Nat))
    (current : List (String × String)) (seen : List String)
    (hseen : ∀ x, assocHas version x = elemStr x seen) :
    (∃ vc, ssaLoop insts version current = .ok vc) ↔ loadSafe insts seen = true := by
  induction insts generalizing version current seen with
  | nil => simp [ssaLoop, loadSafe]
  | cons i rest ih =>
    cases i with
    | StoreLocal l v =>
      simp only [ssaLoop, loadSafe]
      exact ih _ _ (l :: seen) (fun x => by
        rw [assocHas_assocSet, hseen]
        by_cases hx : l = x <;> simp [elemStr, hx])
    | LoadLocal d l =>
      simp only [ssaLoop, loadSafe, hseen]
      by_cases hl : elemStr l seen = true
      · simp only [hl, if_true, Bool.true_and]
        exact ih _ _ seen hseen
      · rw [Bool.not_eq_true] at hl
        simp [hl]
    | ConstInt d v =>
      simp only [ssaLoop, loadSafe]
      exact ih _ _ seen hseen
    | ConstructResultOk d v =>
      simp only [ssaLoop, loadSafe]
      exact ih _ _ seen hseen
    | ConstructResultErr d v =>
      simp only [ssaLoop, loadSafe]
      exact ih _ _ seen hseen

/-- On success each local's final version count is its incoming count
plus the number of stores to it. -/
theorem ssaLoop_counts (insts : List MInstr) (version : List (String × Nat))
    (current : List (String × String)) (vc : List (String × Nat) × List (String × String))
    (h : ssaLoop insts version current = .ok vc) (l : String) :
    (assocGet vc.1 l).getD 0 = (assocGet version l).getD 0 + countStores l insts := by
  induction insts generalizing version current with
  | nil =>
    simp only [ssaLoop] at h
    cases h
    simp [countStores]
  | cons i rest ih =>
    cases i with
    | StoreLocal l2 v =>
      simp only [ssaLoop] at h
      have := ih _ _ h
      rw [this]
      by_cases he : l2 = l
      · subst he
        rw [assocGet_assocSet_same]
        simp only [countStores, List.countP_cons]
        simp [countStores, Option.getD]
        omega
      · rw [assocGet_assocSet_other _ _ _ _ he]
        simp only [countStores, List.countP_cons]
        simp [countStores, he]
    | LoadLocal d l2 =>
      simp only [ssaLoop] at h
      by_cases hl : assocHas version l2 = true
      · rw [hl] at h
        simp only [if_true] at h
        have := ih _ _ h
        rw [this]
        simp [countStores, List.countP_cons]
      · rw [Bool.not_eq_true] at hl
        rw [hl] at h
        simp at h
    | ConstInt d v =>
      simp only [ssaLoop] at h
      have := ih _ _ h
      rw [this]
      simp [countStores, List.countP_cons]
    | ConstructResultOk d v =>
      simp only [ssaLoop] at h
      have := ih _ _ h
      rw [this]
      simp [countStores, List.countP_cons]
    | ConstructResultErr d v =>
      simp only [ssaLoop] at h
      have := ih _ _ h
      rw [this]
      simp [countStores, List.countP_cons]

/-- C5 (amended): `MirToSSA.run` rejects every function with more than
one block — cyclic or not, if/else diamonds included — with
`NotImplementedError` and performs no backedge detection; a single-block
function is accepted exactly when no local is loaded before a store to
it, and then each local's `local_versions` entry counts its stores. -/
theorem C5_ssa_single_block_skeleton (func : MirFunc) :
    (func.blocks.length ≠ 1 →
       MirToSSA_run func
         = .error (.notImplemented
             "SSA: only single-block functions are supported in this skeleton")) ∧
    (∀ bname block, func.blocks = [(bname, block)] → func.entry = bname →
       ((∃ sf, MirToSSA_run func = .ok sf) ↔ loadSafe block.instructions [] = true) ∧
       (∀ sf, MirToSSA_run func = .ok sf → ∀ l,
          (assocGet sf.local_versions l).getD 0 = countStores l block.instructions)) := by
  constructor
  · intro h
    rw [MirToSSA_run, if_pos h]
  · intro bname block hb he
    have hone : ¬(func.blocks.length ≠ 1) := by rw [hb]; simp
    have hget : assocGet func.blocks func.entry = some block := by
      rw [hb, he, assocGet]
      simp
    constructor
    · rw [MirToSSA_run, if_neg hone, hget]
      rcases hl : ssaLoop block.instructions [] [] with e | vc
      · simp only [hl]
        constructor
        · intro hex
          rcases hex with ⟨sf, hsf⟩
          cases hsf
        · intro hsafe
          have := (ssaLoop_ok_iff block.instructions [] [] [] (fun x => by
            simp [assocHas, elemStr])).mpr hsafe
          rcases this with ⟨vc, hvc⟩
          rw [hvc] at hl
          cases hl
      · simp only [hl]
        constructor
        · intro _
          exact (ssaLoop_ok_iff block.instructions [] [] [] (fun x => by
            simp [assocHas, elemStr])).mp ⟨vc, hl⟩
        · intro _
          exact ⟨_, rfl⟩
    · intro sf hsf l
      rw [MirToSSA_run, if_neg hone, hget] at hsf
      dsimp only at hsf
      rcases hl : ssaLoop block.instructions [] [] with e | vc
      · rw [hl] at hsf
        cases hsf
      · rw [hl] at hsf
        cases hsf
        have := ssaLoop_counts block.instructions [] [] vc hl l
        rw [this]
        simp [assocGet]

/-- C5 counterexample: the acyclic four-block if/else diamond — which the
claim says SSA construction succeeds on — is rejected with
`NotImplementedError`'s message; no reverse-postorder backedge detection
exists to distinguish it from a loop. -/
theorem C5_counterexample :
    MirToSSA_run c5diamond
      = .error (.notImplemented
          "SSA: only single-block functions are supported in this skeleton") := rfl

/-- C5 amended-claim witness: the diamond is rejected via the multi-block
half, and the straight-line single-block function is accepted via the
load-safety half. -/
theorem C5_ssa_single_block_skeleton_witness :
    MirToSSA_run c5diamond
      = .error (.notImplemented
          "SSA: only single-block functions are supported in this skeleton") ∧
    (∃ sf, MirToSSA_run c5line = .ok sf) :=
  ⟨(C5_ssa_single_block_skeleton c5diamond).1 (by decide),
   ((C5_ssa_single_block_skeleton c5line).2 "entry" c5lineBlock rfl rfl).1.mpr (by decide)⟩

theorem elemStr_iff (x : String) (s : List String) : elemStr x s = true ↔ x ∈ s := by
  induction s with
  | nil => simp [elemStr]
  | cons y ys ih =>
    rw [elemStr]
    by_cases h : y = x
    · simp [h]
    · simp [h, ih]
      intro hq
      exact absurd hq.symm h

theorem assocGet_mem_keys {α : Type} (m : List (String × α)) (k : String) (v : α)
    (h : assocGet m k = some v) : k ∈ m.map Prod.fst := by
  induction m with
  | nil => rw [assocGet] at h; cases h
  | cons p r ih =>
    rw [assocGet] at h
    by_cases h1 : p.1 = k
    · simp [h1]
    · rw [if_neg h1] at h
      simp [ih h]

theorem assocGet_of_mem_nodup {α : Type} (m : List (String × α)) (k : String) (v : α)
    (hnd : (m.map Prod.fst).Nodup) (h : (k, v) ∈ m) : assocGet m k = some v := by
  induction m with
  | nil => cases h
  | cons p r ih =>
    rcases List.mem_cons.mp h with h1 | h1
    · rw [← h1, assocGet]
      simp
    · rw [assocGet]
      by_cases h2 : p.1 = k
      · exfalso
        rw [List.map_cons, List.nodup_cons] at hnd
        exact hnd.1 (h2 ▸ (List.mem_map.mpr ⟨(k, v), h1, rfl⟩))
      · rw [if_neg h2]
        rw [List.map_cons, List.nodup_cons] at hnd
        exact ih hnd.2 h1

/-- An `ensure_edge` success implies the claim's conditions on that
edge. -/
theorem ensure_edge_ok_edgeOKB (fn : LFunction)
    (dm : List (String × (List String × List (String × String))))
    (e : LEdge) (bn src : String)
    (h : ensure_edge fn e bn dm src false = .ok ()) :
    edgeOKB fn dm src e = true := by
  rw [ensure_edge] at h
  rw [edgeOKB]
  rcases ht : assocGet fn.blocks e.target with _ | tb
  · rw [ht] at h
    cases h
  · rw [ht] at h
    dsimp only at h
    by_cases hl : e.args.length = tb.params.length
    · rw [if_neg (by simpa using hl)] at h
      simp only [decide_eq_true_eq, hl, decide_True, Bool.true_and]
      rcases hf : e.args.find? (fun a => !elemStr a (defsOf dm src)) with _ | a
      · rw [hf] at h
        rcases hf2 : (e.args.zip tb.params).find? (fun ap =>
            match assocGet (typesOf dm src) ap.1 with
            | some t => decide (t ≠ ap.2.type)
            | none => false) with _ | ap
        · rw [List.all_eq_true]
          intro ap hap
          have := List.find?_eq_none.mp hf2 ap hap
          rcases hty : assocGet (typesOf dm src) ap.1 with _ | t
          · simp
          · rw [hty] at this
            simp only [Bool.not_eq_true, decide_eq_false_iff_not, ne_eq, not_not] at this
            simp [this]
        · rw [hf2] at h
          cases h
      · rw [hf] at h
        cases h
    · rw [if_pos (by simpa using hl)] at h
      cases h

theorem ensure_edge_error_class (fn : LFunction) (e : LEdge) (bn : String)
    (dm : List (String × (List String × List (String × String))))
    (src : String) (isErr : Bool) (er : VErr)
    (h : ensure_edge fn e bn dm src isErr = .error er) : ∃ m, er = .verification m := by
  rw [ensure_edge] at h
  repeat' split at h
  all_goals first
    | (cases h; exact ⟨_, rfl⟩)
    | cases h

/-- What a successful walk guarantees: the seen set only grows, every
newly seen key is an existing block whose branch edges passed
`_ensure_edge`, and distinctness is preserved. -/
theorem walkF_ok_props (fn : LFunction)
    (dm : List (String × (List String × List (String × String)))) :
    ∀ (fuel : Nat) (seen : List String) (name : String) (seenF : List String),
    walkF fn dm fuel seen name = .ok seenF →
    (∀ x ∈ seen, x ∈ seenF) ∧
    (∀ b ∈ seenF, b ∈ seen ∨
      ∃ block, assocGet fn.blocks b = some block ∧ blockEdgesOK fn dm b block) ∧
    (seen.Nodup → seenF.Nodup) := by
  intro fuel
  induction fuel with
  | zero =>
    intro seen name seenF h
    rw [walkF] at h
    cases h
  | succ fuel ih =>
    intro seen name seenF h
    rw [walkF] at h
    by_cases hs : elemStr name seen = true
    · rw [if_pos hs] at h
      cases h
      exact ⟨fun x hx => hx, fun b hb => Or.inl hb, fun hnd => hnd⟩
    · rw [if_neg hs] at h
      have hnotin : name ∉ seen := fun hq => hs ((elemStr_iff name seen).mpr hq)
      rcases hblk : assocGet fn.blocks name with _ | block
      · rw [hblk] at h
        cases h
      · rw [hblk] at h
        dsimp only at h
        have hgrow : ∀ x ∈ seen, x ∈ seen ++ [name] := fun x hx => List.mem_append_left _ hx
        have hnd1 : seen.Nodup → (seen ++ [name]).Nodup := fun hnd => by
          simp [List.nodup_append, hnd, hnotin]
        rcases hterm : block.terminator with _ | term
        · rw [hterm] at h
          cases h
        · rw [hterm] at h
          cases term with
          | Br e =>
            dsimp only at h
            rcases hee : ensure_edge fn e block.name dm name false with er | u
            · rw [hee] at h
              cases h
            · cases u
              rw [hee] at h
              obtain ⟨s1, s2, s3⟩ := ih (seen ++ [name]) e.target seenF h
              refine ⟨fun x hx => s1 x (hgrow x hx), fun b hb => ?_, fun hnd => s3 (hnd1 hnd)⟩
              rcases s2 b hb with hb2 | hb2
              · rcases List.mem_append.mp hb2 with hb3 | hb3
                · exact Or.inl hb3
                · have hbn : b = name := by simpa using hb3
                  subst hbn
                  exact Or.inr ⟨block, hblk, by simp [blockEdgesOK, hterm, hee]⟩
              · exact Or.inr hb2
          | CondBr c e1 e2 loc =>
            dsimp only at h
            rcases hee1 : ensure_edge fn e1 block.name dm name false with er | u
            · rw [hee1] at h
              cases h
            · cases u
              rw [hee1] at h
              rcases hee2 : ensure_edge fn e2 block.name dm name false with er | u
              · rw [hee2] at h
                cases h
              · cases u
                rw [hee2] at h
                rcases hw1 : walkF fn dm fuel (seen ++ [name]) e1.target with er | seen2
                · rw [hw1] at h
                  cases h
                · rw [hw1] at h
                  obtain ⟨s1a, s2a, s3a⟩ := ih (seen ++ [name]) e1.target seen2 hw1
                  obtain ⟨s1b, s2b, s3b⟩ := ih seen2 e2.target seenF h
                  refine ⟨fun x hx => s1b x (s1a x (hgrow x hx)), fun b hb => ?_,
                    fun hnd => s3b (s3a (hnd1 hnd))⟩
                  rcases s2b b hb with hb2 | hb2
                  · rcases s2a b hb2 with hb3 | hb3
                    · rcases List.mem_append.mp hb3 with hb4 | hb4
                      · exact Or.inl hb4
                      · have hbn : b = name := by simpa using hb4
                        subst hbn
                        exact Or.inr ⟨block, hblk, by simp [blockEdgesOK, hterm, hee1, hee2]⟩
                    · exact Or.inr hb3
                  · exact Or.inr hb2
          | Return v loc =>
            dsimp only at h
            cases h
            refine ⟨hgrow, fun b hb => ?_, hnd1⟩
            rcases List.mem_append.mp hb with hb2 | hb2
            · exact Or.inl hb2
            · have hbn : b = name := by simpa using hb2
              subst hbn
              exact Or.inr ⟨block, hblk, by simp [blockEdgesOK, hterm]⟩
          | Raise v loc =>
            dsimp only at h
            cases h
            refine ⟨hgrow, fun b hb => ?_, hnd1⟩
            rcases List.mem_append.mp hb with hb2 | hb2
            · exact Or.inl hb2
            · have hbn : b = name := by simpa using hb2
              subst hbn
              exact Or.inr ⟨block, hblk, by simp [blockEdgesOK, hterm]⟩

/-- Every error the walk raises is a `VerificationError`. -/
theorem walkF_error_class (fn : LFunction)
    (dm : List (String × (List String × List (String × String)))) :
    ∀ (fuel : Nat) (seen : List String) (name : String) (er : VErr),
    walkF fn dm fuel seen name = .error er → ∃ m, er = .verification m := by
  intro fuel
  induction fuel with
  | zero =>
    intro seen name er h
    rw [walkF] at h
    cases h
    exact ⟨_, rfl⟩
  | succ fuel ih =>
    intro seen name er h
    rw [walkF] at h
    by_cases hs : elemStr name seen = true
    · rw [if_pos hs] at h
      cases h
    · rw [if_neg hs] at h
      rcases hblk : assocGet fn.blocks name with _ | block
      · rw [hblk] at h
        cases h
        exact ⟨_, rfl⟩
      · rw [hblk] at h
        dsimp only at h
        rcases hterm : block.terminator with _ | term
        · rw [hterm] at h
          cases h
          exact ⟨_, rfl⟩
        · rw [hterm] at h
          cases term with
          | Br e =>
            dsimp only at h
            rcases hee : ensure_edge fn e block.name dm name false with er2 | u
            · rw [hee] at h
              cases h
              exact ensure_edge_error_class _ _ _ _ _ _ _ hee
            · cases u
              rw [hee] at h
              exact ih _ _ _ h
          | CondBr c e1 e2 loc =>
            dsimp only at h
            rcases hee1 : ensure_edge fn e1 block.name dm name false with er2 | u
            · rw [hee1] at h
              cases h
              exact ensure_edge_error_class _ _ _ _ _ _ _ hee1
            · cases u
              rw [hee1] at h
              rcases hee2 : ensure_edge fn e2 block.name dm name false with er2 | u
              · rw [hee2] at h
                cases h
                exact ensure_edge_error_class _ _ _ _ _ _ _ hee2
              · cases u
                rw [hee2] at h
                rcases hw1 : walkF fn dm fuel (seen ++ [name]) e1.target with er2 | seen2
                · rw [hw1] at h
                  cases h
                  exact ih _ _ _ hw1
                · rw [hw1] at h
                  exact ih _ _ _ h
          | Return v loc =>
            dsimp only at h
            cases h
          | Raise v loc =>
            dsimp only at h
            cases h

theorem checkIncEntry_error_class (fn : LFunction) (bn : String) (pts : List String) :
    ∀ (entries : List IncEntry) (er : VErr),
    checkIncEntry fn bn pts entries = .error er → ∃ m, er = .verification m := by
  intro entries
  induction entries with
  | nil =>
    intro er h
    rw [checkIncEntry] at h
    cases h
  | cons e rest ih =>
    intro er h
    obtain ⟨args, argTypes⟩ := e
    rw [checkIncEntry] at h
    split at h
    · cases h
      exact ⟨_, rfl⟩
    · split at h
      · cases h
        exact ⟨_, rfl⟩
      · exact ih _ h

theorem validateIncoming_error_class (fn : LFunction)
    (dm : List (String × (List String × List (String × String))))
    (incoming : List (String × List IncEntry)) :
    ∀ (blocks : List (String × LBlock)) (er : VErr),
    validateIncoming fn dm incoming blocks = .error er → ∃ m, er = .verification m := by
  intro blocks
  induction blocks with
  | nil =>
    intro er h
    rw [validateIncoming] at h
    cases h
  | cons kb rest ih =>
    intro er h
    obtain ⟨k, block⟩ := kb
    rw [validateIncoming] at h
    rcases hce : checkIncEntry fn k (block.params.map (fun p => p.type))
        ((assocGet incoming k).getD []) with er2 | u
    · rw [hce] at h
      cases h
      exact checkIncEntry_error_class _ _ _ _ _ hce
    · cases u
      rw [hce] at h
      rcases hfp : block.params.find? (fun p => !elemStr p.name (defsOf dm k)) with _ | p
      · rw [hfp] at h
        exact ih _ h
      · rw [hfp] at h
        cases h
        exact ⟨_, rfl⟩

/-- The final loop accepts exactly branch-free block lists. -/
theorem cfgFinalLoop_ok_noBranch :
    ∀ (blocks : List (String × LBlock)), cfgFinalLoop blocks = .ok () →
    ∀ kb ∈ blocks, branchTargets kb.2.terminator = [] := by
  intro blocks
  induction blocks with
  | nil =>
    intro _ kb hkb
    cases hkb
  | cons b rest ih =>
    intro h kb hkb
    rw [cfgFinalLoop] at h
    rcases hterm : b.2.terminator with _ | term
    · rw [hterm] at h
      rcases List.mem_cons.mp hkb with hkb2 | hkb2
      · subst hkb2
        simp [branchTargets, hterm]
      · exact ih h kb hkb2
    · rw [hterm] at h
      cases term with
      | Br e => cases h
      | CondBr c e1 e2 loc => cases h
      | Return v loc =>
        rcases List.mem_cons.mp hkb with hkb2 | hkb2
        · subst hkb2
          simp [branchTargets, hterm]
        · exact ih h kb hkb2
      | Raise v loc =>
        rcases List.mem_cons.mp hkb with hkb2 | hkb2
        · subst hkb2
          simp [branchTargets, hterm]
        · exact ih h kb hkb2

/-- Nodup pigeonhole on lists: a duplicate-free sublist of equal length
covers the whole list. -/
theorem nodup_subset_full (keys seenF : List String)
    (hsub : ∀ b ∈ seenF, b ∈ keys) (hndS : seenF.Nodup) (hndK : keys.Nodup)
    (hlen : seenF.length = keys.length) : ∀ k ∈ keys, k ∈ seenF := by
  intro k hk
  have h1 : seenF.toFinset ⊆ keys.toFinset := by
    intro x hx
    exact List.mem_toFinset.mpr (hsub x (List.mem_toFinset.mp hx))
  have h2 : keys.toFinset.card ≤ seenF.toFinset.card := by
    rw [List.toFinset_card_of_nodup hndS, List.toFinset_card_of_nodup hndK]
    omega
  have h3 : seenF.toFinset = keys.toFinset := Finset.eq_of_subset_of_card_le h1 h2
  exact List.mem_toFinset.mp (h3 ▸ List.mem_toFinset.mpr hk)

theorem allCongr {α : Type} (l : List α) (f g : α → Bool) (h : ∀ x, f x = g x) :
    l.all f = l.all g := by
  induction l with
  | nil => rfl
  | cons x xs ih => simp [List.all_cons, h, ih]

theorem incAppend_missing (m : List (String × List IncEntry)) (k : String) (e : IncEntry)
    (h : assocHas m k = false) : incAppend m k e = .error (.keyError k) := by
  induction m with
  | nil => rfl
  | cons p r ih =>
    obtain ⟨k0, l⟩ := p
    rw [assocHas] at h
    rw [incAppend]
    by_cases h1 : k0 = k
    · rw [if_pos h1] at h
      cases h
    · rw [if_neg h1] at h
      rw [if_neg h1, ih h]

theorem incAppend_present (m : List (String × List IncEntry)) (k : String) (e : IncEntry)
    (h : assocHas m k = true) :
    ∃ m2, incAppend m k e = .ok m2 ∧ ∀ x, assocHas m2 x = assocHas m x := by
  induction m with
  | nil =>
    rw [assocHas] at h
    cases h
  | cons p r ih =>
    obtain ⟨k0, l⟩ := p
    rw [assocHas] at h
    rw [incAppend]
    by_cases h1 : k0 = k
    · rw [if_pos h1]
      exact ⟨(k0, l ++ [e]) :: r, rfl, fun x => by rw [assocHas, assocHas]⟩
    · rw [if_neg h1] at h
      obtain ⟨r2, hr2, hpres⟩ := ih h
      rw [if_neg h1, hr2]
      exact ⟨(k0, l) :: r2, rfl, fun x => by rw [assocHas, assocHas, hpres]⟩

theorem incomingStep_spec (dm : List (String × (List String × List (String × String))))
    (acc : List (String × List IncEntry)) (src : String × LBlock) :
    ((branchTargets src.2.terminator).all (fun t => assocHas acc t) = true →
       ∃ acc2, incomingStep dm acc src = .ok acc2 ∧
         ∀ x, assocHas acc2 x = assocHas acc x) ∧
    ((branchTargets src.2.terminator).all (fun t => assocHas acc t) = false →
       ∃ k, incomingStep dm acc src = .error (.keyError k)) := by
  rcases hterm : src.2.terminator with _ | term
  · refine ⟨fun _ => ⟨acc, ?_, fun x => rfl⟩, fun hbad => ?_⟩
    · simp only [incomingStep, hterm]
    · simp [branchTargets] at hbad
  · cases term with
    | Br e =>
      constructor
      · intro hok
        simp only [branchTargets, List.all_cons, List.all_nil, Bool.and_true] at hok
        obtain ⟨m2, hm2, hpres⟩ := incAppend_present acc e.target
          (e.args, e.args.map (fun a => assocGet (typesOf dm src.1) a)) hok
        exact ⟨m2, by simp only [incomingStep, hterm, hm2], hpres⟩
      · intro hbad
        simp only [branchTargets, List.all_cons, List.all_nil, Bool.and_true,
          Bool.not_eq_true] at hbad
        refine ⟨e.target, ?_⟩
        simp only [incomingStep, hterm, incAppend_missing acc e.target _ hbad]
    | CondBr c e1 e2 loc =>
      constructor
      · intro hok
        simp only [branchTargets, List.all_cons, List.all_nil, Bool.and_true,
          Bool.and_eq_true] at hok
        obtain ⟨m2, hm2, hpres2⟩ := incAppend_present acc e1.target
          (e1.args, e1.args.map (fun a => assocGet (typesOf dm src.1) a)) hok.1
        obtain ⟨m3, hm3, hpres3⟩ := incAppend_present m2 e2.target
          (e2.args, e2.args.map (fun a => assocGet (typesOf dm src.1) a))
          (by rw [hpres2]; exact hok.2)
        refine ⟨m3, ?_, fun x => by rw [hpres3, hpres2]⟩
        simp only [incomingStep, hterm, hm2, hm3]
      · intro hbad
        by_cases h1 : assocHas acc e1.target = true
        · have h2 : assocHas acc e2.target = false := by
            rcases hb : assocHas acc e2.target with _ | _
            · rfl
            · exfalso
              simp only [branchTargets, List.all_cons, List.all_nil, Bool.and_true] at hbad
              rw [h1, hb] at hbad
              simp at hbad
          obtain ⟨m2, hm2, hpres2⟩ := incAppend_present acc e1.target
            (e1.args, e1.args.map (fun a => assocGet (typesOf dm src.1) a)) h1
          refine ⟨e2.target, ?_⟩
          simp only [incomingStep, hterm, hm2,
            incAppend_missing m2 e2.target _ (by rw [hpres2]; exact h2)]
        · rw [Bool.not_eq_true] at h1
          refine ⟨e1.target, ?_⟩
          simp only [incomingStep, hterm, incAppend_missing acc e1.target _ h1]
    | Return v loc =>
      refine ⟨fun _ => ⟨acc, ?_, fun x => rfl⟩, fun hbad => ?_⟩
      · simp only [incomingStep, hterm]
      · simp [branchTargets] at hbad
    | Raise v loc =>
      refine ⟨fun _ => ⟨acc, ?_, fun x => rfl⟩, fun hbad => ?_⟩
      · simp only [incomingStep, hterm]
      · simp [branchTargets] at hbad

theorem incomingFold_spec (dm : List (String × (List String × List (String × String)))) :
    ∀ (blocks : List (String × LBlock)) (acc : List (String × List IncEntry)),
    ((blocks.all (fun kb => (branchTargets kb.2.terminator).all
        (fun t => assocHas acc t))) = true →
       ∃ inc, incomingFold dm blocks acc = .ok inc) ∧
    ((blocks.all (fun kb => (branchTargets kb.2.terminator).all
        (fun t => assocHas acc t))) = false →
       ∃ k, incomingFold dm blocks acc = .error (.keyError k)) := by
  intro blocks
  induction blocks with
  | nil =>
    intro acc
    refine ⟨fun _ => ⟨acc, rfl⟩, fun hbad => ?_⟩
    simp at hbad
  | cons src rest ih =>
    intro acc
    constructor
    · intro hok
      rw [List.all_cons, Bool.and_eq_true] at hok
      obtain ⟨acc2, hacc2, hpres⟩ := (incomingStep_spec dm acc src).1 hok.1
      have htail : (rest.all (fun kb => (branchTargets kb.2.terminator).all
          (fun t => assocHas acc2 t))) = true := by
        rw [allCongr rest _ _ (fun kb => allCongr _ _ _ (fun t => hpres t))]
        exact hok.2
      obtain ⟨inc, hinc⟩ := (ih acc2).1 htail
      exact ⟨inc, by simp only [incomingFold, hacc2, hinc]⟩
    · intro hbad
      rw [List.all_cons] at hbad
      by_cases h1 : (branchTargets src.2.terminator).all (fun t => assocHas acc t) = true
      · obtain ⟨acc2, hacc2, hpres⟩ := (incomingStep_spec dm acc src).1 h1
        have htail : (rest.all (fun kb => (branchTargets kb.2.terminator).all
            (fun t => assocHas acc2 t))) = false := by
          rw [allCongr rest _ _ (fun kb => allCongr _ _ _ (fun t => hpres t))]
          rw [h1] at hbad
          simpa using hbad
        obtain ⟨k, hk⟩ := (ih acc2).2 htail
        exact ⟨k, by simp only [incomingFold, hacc2, hk]⟩
      · rw [Bool.not_eq_true] at h1
        obtain ⟨k, hk⟩ := (incomingStep_spec dm acc src).2 h1
        exact ⟨k, by simp only [incomingFold, hk]⟩

theorem assocHas_initInc (m : List (String × LBlock)) (x : String) :
    assocHas (m.map (fun nb => (nb.1, ([] : List IncEntry)))) x = assocHas m x := by
  induction m with
  | nil => rfl
  | cons p r ih =>
    rw [List.map_cons, assocHas, assocHas, ih]

/-- `_verify_cfg` never raises `KeyError`; its `TypeError` arises only
after the walk, the coverage check and the incoming validation all
passed. -/
theorem verify_cfg_typeError_conds (fn : LFunction)
    (dm : List (String × (List String × List (String × String))))
    (inc : List (String × List IncEntry)) (m : String)
    (hk : (fn.blocks.map Prod.fst).Nodup)
    (h : verify_cfg fn dm inc = .error (.typeError m)) :
    ∀ kb ∈ fn.blocks, blockEdgesOK fn dm kb.1 kb.2 := by
  rw [verify_cfg] at h
  rcases hw : walkF fn dm (fn.blocks.length + 2) [] fn.entry with er | seen
  · rw [hw] at h
    dsimp only at h
    cases h
    obtain ⟨m2, hm2⟩ := walkF_error_class fn dm _ _ _ _ hw
    cases hm2
  · rw [hw] at h
    dsimp only at h
    split at h
    · cases h
    · rename_i hlenNe
      rcases hv : validateIncoming fn dm inc fn.blocks with er | u
      · rw [hv] at h
        dsimp only at h
        cases h
        obtain ⟨m2, hm2⟩ := validateIncoming_error_class fn dm inc fn.blocks _ hv
        cases hm2
      · obtain ⟨hsub, hadq, hnd⟩ := walkF_ok_props fn dm _ [] fn.entry seen hw
        have hseenK : ∀ b ∈ seen, b ∈ fn.blocks.map Prod.fst := by
          intro b hb
          rcases hadq b hb with hb2 | ⟨block, hget, _⟩
          · cases hb2
          · exact assocGet_mem_keys fn.blocks b block hget
        have hcov : ∀ k ∈ fn.blocks.map Prod.fst, k ∈ seen := by
          refine nodup_subset_full _ _ hseenK (hnd List.nodup_nil) hk ?_
          have hlen : seen.length = fn.blocks.length := not_not.mp hlenNe
          rw [hlen, List.length_map]
        intro kb hkb
        have hkey : kb.1 ∈ fn.blocks.map Prod.fst := List.mem_map.mpr ⟨kb, hkb, rfl⟩
        rcases hadq kb.1 (hcov kb.1 hkey) with hb2 | ⟨block, hget, hok⟩
        · cases hb2
        · have : assocGet fn.blocks kb.1 = some kb.2 :=
            assocGet_of_mem_nodup fn.blocks kb.1 kb.2 hk (by
              have : kb = (kb.1, kb.2) := rfl
              rw [← this]
              exact hkb)
          rw [this] at hget
          cases hget
          exact hok

theorem verify_cfg_ok_noBranch (fn : LFunction)
    (dm : List (String × (List String × List (String × String))))
    (inc : List (String × List IncEntry))
    (h : verify_cfg fn dm inc = .ok ()) :
    ∀ kb ∈ fn.blocks, branchTargets kb.2.terminator = [] := by
  rw [verify_cfg] at h
  rcases hw : walkF fn dm (fn.blocks.length + 2) [] fn.entry with er | seen
  · rw [hw] at h
    dsimp only at h
    cases h
  · rw [hw] at h
    dsimp only at h
    split at h
    · cases h
    · rcases hv : validateIncoming fn dm inc fn.blocks with er | u
      · rw [hv] at h
        dsimp only at h
        cases h
      · cases u
        rw [hv] at h
        dsimp only at h
        exact cfgFinalLoop_ok_noBranch fn.blocks h

theorem cfgFinalLoop_error_class :
    ∀ (blocks : List (String × LBlock)) (er : VErr),
    cfgFinalLoop blocks = .error er → ∃ m, er = .typeError m := by
  intro blocks
  induction blocks with
  | nil =>
    intro er h
    rw [cfgFinalLoop] at h
    cases h
  | cons b rest ih =>
    intro er h
    rw [cfgFinalLoop] at h
    rcases hterm : b.2.terminator with _ | term
    · rw [hterm] at h
      exact ih _ h
    · rw [hterm] at h
      cases term with
      | Br e =>
        cases h
        exact ⟨_, rfl⟩
      | CondBr c e1 e2 loc =>
        cases h
        exact ⟨_, rfl⟩
      | Return v loc => exact ih _ h
      | Raise v loc => exact ih _ h

theorem verify_cfg_error_class (fn : LFunction)
    (dm : List (String × (List String × List (String × String))))
    (inc : List (String × List IncEntry)) (er : VErr)
    (h : verify_cfg fn dm inc = .error er) :
    (∃ m, er = .verification m) ∨ (∃ m, er = .typeError m) := by
  rw [verify_cfg] at h
  rcases hw : walkF fn dm (fn.blocks.length + 2) [] fn.entry with er2 | seen
  · rw [hw] at h
    dsimp only at h
    cases h
    exact Or.inl (walkF_error_class fn dm _ _ _ _ hw)
  · rw [hw] at h
    dsimp only at h
    split at h
    · cases h
      exact Or.inl ⟨_, rfl⟩
    · rcases hv : validateIncoming fn dm inc fn.blocks with er2 | u
      · rw [hv] at h
        dsimp only at h
        cases h
        exact Or.inl (validateIncoming_error_class fn dm inc fn.blocks _ hv)
      · cases u
        rw [hv] at h
        dsimp only at h
        rcases hf : cfgFinalLoop fn.blocks with er2 | u2
        · rw [hf] at h
          cases h
          exact Or.inr (cfgFinalLoop_error_class fn.blocks _ hf)
        · rw [hf] at h
          cases h

theorem edgeConds_of_noBranch (program : Option LProgram) (fn : LFunction)
    (hnb : ∀ kb ∈ fn.blocks, branchTargets kb.2.terminator = []) :
    edgeCondsB program fn = true := by
  rw [edgeCondsB, List.all_eq_true]
  intro kb hkb
  have := hnb kb hkb
  rcases hterm : kb.2.terminator with _ | term
  · simp [hterm]
  · cases term with
    | Br e =>
      rw [hterm] at this
      simp [branchTargets] at this
    | CondBr c e1 e2 loc =>
      rw [hterm] at this
      simp [branchTargets] at this
    | Return v loc => simp [hterm]
    | Raise v loc => simp [hterm]

theorem edgeConds_of_checked (program : Option LProgram) (fn : LFunction)
    (hall : ∀ kb ∈ fn.blocks,
      blockEdgesOK fn (compute_defs_and_types program fn) kb.1 kb.2) :
    edgeCondsB program fn = true := by
  rw [edgeCondsB, List.all_eq_true]
  intro kb hkb
  have hc := hall kb hkb
  rcases hterm : kb.2.terminator with _ | term
  · simp [hterm]
  · cases term with
    | Br e =>
      rw [blockEdgesOK, hterm] at hc
      simp only [hterm]
      exact ensure_edge_ok_edgeOKB fn _ e kb.2.name kb.1 hc
    | CondBr c e1 e2 loc =>
      rw [blockEdgesOK, hterm] at hc
      simp only [hterm, Bool.and_eq_true]
      exact ⟨ensure_edge_ok_edgeOKB fn _ e1 kb.2.name kb.1 hc.1,
        ensure_edge_ok_edgeOKB fn _ e2 kb.2.name kb.1 hc.2⟩
    | Return v loc => simp [hterm]
    | Raise v loc => simp [hterm]

/-- C6 (amended): what `verify_function` actually guarantees about
`Br`/`CondBr` edges.  (1) Any accepted function satisfies the edge
conditions — vacuously, since the final loop of `_verify_cfg` raises
`TypeError` on every branch terminator, so accepted functions are
branch-free.  (2) An edge to a non-existent block raises `KeyError`
(escaping `_compute_incoming_args`), not `VerificationError`.  (3) When
every edge target exists but arity or types disagree, the verifier
raises a `VerificationError`. -/
theorem C6_verify_function_edge_checks (fn : LFunction) (program : Option LProgram)
    (hk : (fn.blocks.map Prod.fst).Nodup) :
    (verify_function fn program = .ok () → edgeCondsB program fn = true) ∧
    (assocHas fn.blocks fn.entry = true → findMissingTerm fn.blocks = none →
       targetsExistB fn = false →
       ∃ k, verify_function fn program = .error (.keyError k)) ∧
    (targetsExistB fn = true → edgeCondsB program fn = false →
       ∃ m, verify_function fn program = .error (.verification m)) := by
  refine ⟨?_, ?_, ?_⟩
  · intro h
    rw [verify_function] at h
    split at h
    · cases h
    · rcases hmt : findMissingTerm fn.blocks with _ | bn
      · rw [hmt] at h
        dsimp only at h
        rcases hinc : compute_incoming_args fn (compute_defs_and_types program fn)
            with er | inc
        · rw [hinc] at h
          dsimp only at h
          cases h
        · rw [hinc] at h
          dsimp only at h
          rcases hcfg : verify_cfg fn (compute_defs_and_types program fn) inc with er | u
          · rw [hcfg] at h
            dsimp only at h
            cases h
          · exact edgeConds_of_noBranch program fn (verify_cfg_ok_noBranch _ _ _ hcfg)
      · rw [hmt] at h
        dsimp only at h
        cases h
  · intro hent hmt htgt
    have hbad0 : (fn.blocks.all (fun kb => (branchTargets kb.2.terminator).all
        (fun t => assocHas (fn.blocks.map (fun nb => (nb.1, ([] : List IncEntry)))) t)))
        = false := by
      rw [allCongr _ _ _ (fun kb => allCongr _ _ _ (fun t => assocHas_initInc fn.blocks t))]
      exact htgt
    obtain ⟨k, hkerr⟩ := (incomingFold_spec (compute_defs_and_types program fn)
      fn.blocks _).2 hbad0
    refine ⟨k, ?_⟩
    rw [verify_function, hent]
    simp only [Bool.not_true, Bool.false_eq_true, if_false, hmt]
    rw [show compute_incoming_args fn (compute_defs_and_types program fn)
      = .error (.keyError k) from hkerr]
  · intro htgt hbad
    rw [verify_function]
    split
    · exact ⟨_, rfl⟩
    · rcases hmt : findMissingTerm fn.blocks with _ | bn
      · dsimp only
        have hok0 : (fn.blocks.all (fun kb => (branchTargets kb.2.terminator).all
            (fun t => assocHas (fn.blocks.map (fun nb => (nb.1, ([] : List IncEntry)))) t)))
            = true := by
          rw [allCongr _ _ _ (fun kb => allCongr _ _ _
            (fun t => assocHas_initInc fn.blocks t))]
          exact htgt
        obtain ⟨inc, hinc⟩ := (incomingFold_spec (compute_defs_and_types program fn)
          fn.blocks _).1 hok0
        rw [show compute_incoming_args fn (compute_defs_and_types program fn)
          = .ok inc from hinc]
        dsimp only
        rcases hcfg : verify_cfg fn (compute_defs_and_types program fn) inc with er | u
        · rcases verify_cfg_error_class fn _ inc er hcfg with ⟨m, hm⟩ | ⟨m, hm⟩
          · subst hm
            exact ⟨m, rfl⟩
          · subst hm
            exact absurd (edgeConds_of_checked program fn
              (verify_cfg_typeError_conds fn _ inc m hk hcfg)) (by rw [hbad]; simp)
        · exact absurd (edgeConds_of_noBranch program fn
            (verify_cfg_ok_noBranch _ _ _ hcfg)) (by rw [hbad]; simp)
      · dsimp only
        exact ⟨_, rfl⟩

/-- C6 counterexample: the edge-to-unknown-block violation does not
raise `VerificationError`: `_compute_incoming_args` indexes
`incoming[edge.target]` first, so the run dies with `KeyError`
instead. -/
theorem C6_counterexample :
    verify_function c6badFn none = .error (.keyError "nowhere") ∧
    ∀ m, verify_function c6badFn none ≠ .error (.verification m) := by
  constructor
  · rfl
  · intro m h
    rw [(rfl : verify_function c6badFn none = Except.error (VErr.keyError "nowhere"))] at h
    exact VErr.noConfusion (Except.error.inj h)

/-- C6 amended-claim witness: the accepted function satisfies the edge
conditions, and the arity violation (existing target) raises a
`VerificationError`. -/
theorem C6_verify_function_edge_checks_witness :
    edgeCondsB none c6okFn = true ∧
    (∃ m, verify_function c6arityFn none = .error (.verification m)) :=
  ⟨(C6_verify_function_edge_checks c6okFn none (by decide)).1 rfl,
   (C6_verify_function_edge_checks c6arityFn none (by decide)).2.2 (by decide) (by decide)⟩
